import Mathlib

/-! STMOV viewer: container parser, depth10b6b decoder and coordinate transform.

A shallow embedding of `public/js/stmov-parser.js`.

* Byte buffers (`ArrayBuffer`, `Uint8Array`) are lists of natural numbers; a
  well-formed byte is below 256.
* JavaScript numbers that hold pixel counters, run lengths and raw depths are
  natural numbers: every intermediate value of the chunk arithmetic stays below
  `2 ^ 31`, so the 32-bit bitwise operators are exact on them.
* Coordinates are elements of an arbitrary field `α`; `Math.cos` and `Math.sin`
  are passed as the functions `cos sin : α → α`.
* `null` calibration arguments are `Option.none`.
-/

namespace STMOV

/-! ## Constants and records -/

/-- The constant `STMOVConfig.MAX_POINTS_PER_FRAME`. -/
def MAX_POINTS_PER_FRAME : Nat := 500000

/-- An object `{x, y, z}`. -/
structure Vec3 (α : Type) where
  x : α
  y : α
  z : α

/-- An object `{x, y, z, w}`. -/
structure Vec4 (α : Type) where
  x : α
  y : α
  z : α
  w : α

/-- The camera record returned by `readCameraInfo`. -/
structure Camera (α : Type) where
  position : Vec3 α
  rotation : Vec3 α
  scale : Vec3 α

/-! ## Chunk arithmetic of `decompressFrame` -/

/-- The run length of a chunk: `(second >> 2) + 1`. -/
def runLength (second : Nat) : Nat := (second >>> 2) + 1

/-- The depth of a chunk: `((first) | ((second & 0x03) << 8)) * 2502 >> 8`
(the product binds tighter than the shift). -/
def chunkDepth (first second : Nat) : Nat :=
  ((first ||| ((second &&& 0x03) <<< 8)) * 2502) >>> 8

/-! ## Matrices (row-major arrays of 16 numbers) -/

section Transform

variable {α : Type} [Field α]

/-- The method `multiplyMatricesRowMajor(a, b)`: `result[i*4+j]` starts at `0`
and accumulates `a[i*4+k] * b[k*4+j]` for `k = 0..3`. -/
def multiplyMatricesRowMajor (a b : List α) : List α :=
  (List.range 4).flatMap fun i =>
    (List.range 4).map fun j =>
      (List.range 4).foldl (fun acc k => acc + a.getD (i * 4 + k) 0 * b.getD (k * 4 + j) 0) 0

/-- The method `multiplyMatrix4x4(matrix, vector)`. -/
def multiplyMatrix4x4 (matrix : List α) (vector : Vec4 α) : Vec4 α :=
  { x := vector.x * matrix.getD (0*4+0) 0 + vector.y * matrix.getD (0*4+1) 0
          + vector.z * matrix.getD (0*4+2) 0 + vector.w * matrix.getD (0*4+3) 0
    y := vector.x * matrix.getD (1*4+0) 0 + vector.y * matrix.getD (1*4+1) 0
          + vector.z * matrix.getD (1*4+2) 0 + vector.w * matrix.getD (1*4+3) 0
    z := vector.x * matrix.getD (2*4+0) 0 + vector.y * matrix.getD (2*4+1) 0
          + vector.z * matrix.getD (2*4+2) 0 + vector.w * matrix.getD (2*4+3) 0
    w := vector.x * matrix.getD (3*4+0) 0 + vector.y * matrix.getD (3*4+1) 0
          + vector.z * matrix.getD (3*4+2) 0 + vector.w * matrix.getD (3*4+3) 0 }

/-- The method `createST_ClientCameraMatrix(camera)`. -/
def createST_ClientCameraMatrix (cos sin : α → α) (camera : Camera α) : List α :=
  let matrix : List α :=
    [1, 0, 0, 0,
     0, 1, 0, 0,
     0, 0, 1, 0,
     0, 0, 0, 1]
  let cosX := cos camera.rotation.x
  let sinX := sin camera.rotation.x
  let rotX : List α :=
    [1, 0,    0,     0,
     0, cosX, -sinX, 0,
     0, sinX, cosX,  0,
     0, 0,    0,     1]
  let matrix := multiplyMatricesRowMajor rotX matrix
  let cosY := cos camera.rotation.y
  let sinY := sin camera.rotation.y
  let rotY : List α :=
    [cosY,  0, sinY, 0,
     0,     1, 0,    0,
     -sinY, 0, cosY, 0,
     0,     0, 0,    1]
  let matrix := multiplyMatricesRowMajor rotY matrix
  let cosZ := cos camera.rotation.z
  let sinZ := sin camera.rotation.z
  let rotZ : List α :=
    [cosZ, -sinZ, 0, 0,
     sinZ, cosZ,  0, 0,
     0,    0,     1, 0,
     0,    0,     0, 1]
  let matrix := multiplyMatricesRowMajor rotZ matrix
  let scale : List α :=
    [camera.scale.x, 0, 0, 0,
     0, camera.scale.y, 0, 0,
     0, 0, camera.scale.z, 0,
     0, 0, 0, 1]
  let matrix := multiplyMatricesRowMajor scale matrix
  let trans : List α :=
    [1, 0, 0, camera.position.x,
     0, 1, 0, camera.position.y,
     0, 0, 1, camera.position.z,
     0, 0, 0, 1]
  let matrix := multiplyMatricesRowMajor trans matrix
  matrix

/-! ## Coordinate transform -/

/-- The method `transformCorrectedSimple(x, y, depth, width, height, farClip,
isLeftScreen)`, the fallback without calibration.  Its returned value; the
sampled debug log line is part of `transformCorrectedSimpleLogged` below. -/
def transformCorrectedSimple (x y depth : Nat) (_width _height _farClip : Nat)
    (_isLeftScreen : Bool) : Vec3 α :=
  let fx : α := ((320 : α) - (x : α)) / 640
  let fy : α := ((240 : α) - (y : α)) / 640
  let fz : α := (depth : α) / 1000
  let projectedX := fx * fz
  let projectedY := fy * fz
  let projectedZ := fz
  { x := projectedX, y := projectedY, z := projectedZ }

/-- The method `transformSTClientCompliant(x, y, depth, isLeftScreen,
leftCamera, rightCamera)`. -/
def transformSTClientCompliant (cos sin : α → α) (x y depth : Nat) (isLeftScreen : Bool)
    (leftCamera rightCamera : Option (Camera α)) : Vec3 α :=
  match leftCamera, rightCamera with
  | some leftCamera, some rightCamera =>
    let camera := if isLeftScreen then leftCamera else rightCamera
    let fx : α := ((320 : α) - (x : α)) / 640
    let fy : α := ((240 : α) - (y : α)) / 640
    let fz : α := (depth : α) / 1000
    let projectedX := fx * fz
    let projectedY := fy * fz
    let projectedZ := fz
    let cameraMatrix := createST_ClientCameraMatrix cos sin camera
    let transformedPoint := multiplyMatrix4x4 cameraMatrix
      { x := projectedX, y := projectedY, z := projectedZ, w := 1 }
    { x := transformedPoint.x, y := transformedPoint.y, z := transformedPoint.z }
  | _, _ => transformCorrectedSimple x y depth 640 480 8000 isLeftScreen

/-! ## The frame decompressor -/

/-- The loop variables of `decompressFrame`: the pixel counter `count`, the
screen flag and the flat array `points` (three numbers per point). -/
structure DecodeState (α : Type) where
  count : Nat
  isLeftScreen : Bool
  points : List α

/-- The inner loop `for (let j = 0; j < runLength; j++)` of `decompressFrame`.
The first numeric argument is the number of repetitions still to run.  The
result is the counter, the point array and whether the loop left the function
through `return points`. -/
def runLoop (cos sin : α → α) (parseSubsample : Nat)
    (leftCamera rightCamera : Option (Camera α)) (depth : Nat) (isLeftScreen : Bool) :
    Nat → Nat → List α → Nat × List α × Bool
  | 0, count, points => (count, points, false)
  | j + 1, count, points =>
    if count ≥ 640 * 480 then (count, points, false)
    else
      let count := count + 1
      if count % parseSubsample ≠ 0 then
        runLoop cos sin parseSubsample leftCamera rightCamera depth isLeftScreen j count points
      else
        let x := (count - 1) % 640
        let y := (count - 1) / 640
        let worldPoint :=
          transformSTClientCompliant cos sin x y depth isLeftScreen leftCamera rightCamera
        let points := points ++ [worldPoint.x, worldPoint.y, worldPoint.z]
        if points.length ≥ MAX_POINTS_PER_FRAME then (count, points, true)
        else
          runLoop cos sin parseSubsample leftCamera rightCamera depth isLeftScreen j count points

/-- The part of one outer-loop iteration that consumes the chunk
`(first, second)`: the clip test with either the inner loop or the skipped
run. -/
def chunkRun (cos sin : α → α) (parseSubsample : Nat)
    (leftCamera rightCamera : Option (Camera α)) (first second : Nat)
    (st : DecodeState α) : Nat × List α × Bool :=
  let runLength := runLength second
  let depth := chunkDepth first second
  if depth > 0 ∧ depth < 8000 then
    runLoop cos sin parseSubsample leftCamera rightCamera depth st.isLeftScreen
      runLength st.count st.points
  else
    (st.count + runLength, st.points, false)

/-- One iteration of the outer loop of `decompressFrame` for the chunk
`(first, second)`.  The Boolean is true when the loop is left (by `return
points` or by the `break` after the right screen). -/
def chunkBody (cos sin : α → α) (parseSubsample : Nat)
    (leftCamera rightCamera : Option (Camera α)) (first second : Nat)
    (st : DecodeState α) : DecodeState α × Bool :=
  let r := chunkRun cos sin parseSubsample leftCamera rightCamera first second st
  let count := r.1
  let points := r.2.1
  if r.2.2 then ({ count := count, isLeftScreen := st.isLeftScreen, points := points }, true)
  else
    let switch : Bool := decide (count ≥ 640 * 480) && st.isLeftScreen
    let isLeftScreen := if switch then false else st.isLeftScreen
    let count := if switch then 0 else count
    if count ≥ 640 * 480 ∧ isLeftScreen = false then
      ({ count := count, isLeftScreen := isLeftScreen, points := points }, true)
    else
      ({ count := count, isLeftScreen := isLeftScreen, points := points }, false)

/-- The outer loop `for (let i = 0; i < frameData.byteLength; i += 2)` with its
guard `if (i + 1 >= frameData.byteLength) break`: the payload is consumed two
bytes at a time and a single trailing byte ends the loop. -/
def decodeLoop (cos sin : α → α) (parseSubsample : Nat)
    (leftCamera rightCamera : Option (Camera α)) : List Nat → DecodeState α → DecodeState α
  | first :: second :: rest, st =>
    let r := chunkBody cos sin parseSubsample leftCamera rightCamera first second st
    if r.2 then r.1
    else decodeLoop cos sin parseSubsample leftCamera rightCamera rest r.1
  | _, st => st

/-- The method `decompressFrame(frameData, leftCamera, rightCamera)` of a parser
whose `parseSubsample` field holds `parseSubsample`. -/
def decompressFrame (cos sin : α → α) (parseSubsample : Nat) (frameData : List Nat)
    (leftCamera rightCamera : Option (Camera α)) : List α :=
  if frameData.length = 0 then []
  else
    (decodeLoop cos sin parseSubsample leftCamera rightCamera frameData
      { count := 0, isLeftScreen := true, points := [] }).points

/-! ## Sample streams (specification side)

The stream of in-range samples of a payload, written from the description of
the codec: a chunk whose depth passes the clip test contributes one sample
per repetition, each with the next value of the running pixel counter; a
clipped chunk contributes none and advances the counter by its run length;
the counter restarts for the right screen once it has reached `640 * 480`. -/

/-- The flat array `[x0, y0, z0, x1, y1, z1, ...]` of a list of points. -/
def flatten3 (ws : List (Vec3 α)) : List α :=
  ws.flatMap fun w => [w.x, w.y, w.z]

end Transform

/-- An in-range sample: the value of the pixel counter it received, the screen
flag in force and the depth of its chunk. -/
structure Sample where
  counter : Nat
  isLeft : Bool
  depth : Nat
deriving DecidableEq

/-- Pixel column of a sample, `(counter - 1) mod 640`. -/
def Sample.pixelX (s : Sample) : Nat := (s.counter - 1) % 640

/-- Pixel row of a sample, `floor((counter - 1) / 640)`. -/
def Sample.pixelY (s : Sample) : Nat := (s.counter - 1) / 640

/-- The samples of one in-range run of `j` repetitions starting after counter
value `count`; the raster holds no sample beyond counter `640 * 480`. -/
def runSamples (depth : Nat) (isLeft : Bool) : Nat → Nat → List Sample
  | 0, _ => []
  | j + 1, count =>
    if count ≥ 640 * 480 then []
    else { counter := count + 1, isLeft := isLeft, depth := depth }
      :: runSamples depth isLeft j (count + 1)

/-- The in-range samples contributed by the chunk `(first, second)` when the
counter stands at `count`: none when its depth is clipped. -/
def chunkSamples (first second count : Nat) (isLeft : Bool) : List Sample :=
  if 0 < chunkDepth first second ∧ chunkDepth first second < 8000 then
    runSamples (chunkDepth first second) isLeft (runLength second) count
  else []

/-- The counter after the chunk `(first, second)`: an in-range run advances it
by the number of its samples (the run length, or the raster slots left if
fewer), a clipped run by its whole run length. -/
def chunkCount (first second count : Nat) : Nat :=
  if 0 < chunkDepth first second ∧ chunkDepth first second < 8000 then
    count + min (runLength second) (640 * 480 - count)
  else count + runLength second

/-- The in-range samples of a payload in stream order, starting from the
counter value `count` and the screen flag `isLeft`. -/
def samplesFrom : List Nat → Nat → Bool → List Sample
  | first :: second :: rest, count, isLeft =>
    let here := chunkSamples first second count isLeft
    let count := chunkCount first second count
    if count ≥ 640 * 480 then
      if isLeft then here ++ samplesFrom rest 0 false else here
    else here ++ samplesFrom rest count isLeft
  | _, _, _ => []

/-- The in-range samples of a whole payload. -/
def samples (frameData : List Nat) : List Sample := samplesFrom frameData 0 true

/-- The samples kept by the parse-time stride `n`: those whose counter is a
multiple of `n`. -/
def keptSamples (n : Nat) (frameData : List Nat) : List Sample :=
  (samples frameData).filter fun s => s.counter % n = 0

section TransformSpec

variable {α : Type} [Field α]

/-- The world point of a sample: the transform applied to its pixel
coordinates and depth with the screen flag of the sample. -/
def samplePoint (cos sin : α → α) (leftCamera rightCamera : Option (Camera α))
    (s : Sample) : Vec3 α :=
  transformSTClientCompliant cos sin s.pixelX s.pixelY s.depth s.isLeft leftCamera rightCamera

/-- Appending points one at a time to the array `points`, stopping right after
the first push that brings its length to `MAX_POINTS_PER_FRAME` or more. -/
def pushCapped : List (Vec3 α) → List α → List α × Bool
  | [], points => (points, false)
  | w :: ws, points =>
    let points := points ++ [w.x, w.y, w.z]
    if points.length ≥ MAX_POINTS_PER_FRAME then (points, true) else pushCapped ws points

end TransformSpec

/-! ## The unit file parser

Text fields (`TextDecoder().decode(...)`) are kept as their bytes, which is
exact for ASCII content: the signature test `startsWith('STMOV')` is the test
that the bytes start with the ASCII codes of `STMOV`.  The IEEE-754 decoding
of `getFloat32` is passed as the function `decodeFloat32` from the 32-bit
pattern to the number. -/

/-- The exceptions `parseUnitFile` can raise: the `RangeError` of a `DataView`
read or typed-array view outside the buffer, and the invalid-signature
error with the signature that was read. -/
inductive ParseError where
  | rangeError : ParseError
  | invalidSignature : List Nat → ParseError
deriving DecidableEq

/-- The object `this.version`. -/
structure Version where
  major : Nat
  minor : Nat
deriving DecidableEq

/-- An element of `this.frames`. -/
structure FrameRecord where
  index : Nat
  voxelCount : Nat
  dataSize : Nat
  data : List Nat
deriving DecidableEq

/-- The object returned by `parseUnitFile`. -/
structure UnitData (α : Type) where
  signature : List Nat
  version : Version
  frameCount : Nat
  totalTime : Nat
  compressionFormat : List Nat
  leftCamera : Camera α
  rightCamera : Camera α
  dotSize : α
  frames : List FrameRecord

/-- The little-endian value of four bytes. -/
def le32 (b0 b1 b2 b3 : Nat) : Nat := b0 + 256 * b1 + 65536 * b2 + 16777216 * b3

/-- The call `view.getUint8(offset)`. -/
def getUint8 (buffer : List Nat) (offset : Nat) : Except ParseError Nat :=
  if offset + 1 ≤ buffer.length then .ok (buffer.getD offset 0) else .error .rangeError

/-- The call `view.getUint32(offset, true)`. -/
def getUint32 (buffer : List Nat) (offset : Nat) : Except ParseError Nat :=
  if offset + 4 ≤ buffer.length then
    .ok (le32 (buffer.getD offset 0) (buffer.getD (offset + 1) 0)
      (buffer.getD (offset + 2) 0) (buffer.getD (offset + 3) 0))
  else .error .rangeError

/-- The view `new Uint8Array(buffer, offset, length)`. -/
def newUint8Array (buffer : List Nat) (offset length : Nat) : Except ParseError (List Nat) :=
  if offset + length ≤ buffer.length then .ok ((buffer.drop offset).take length)
  else .error .rangeError

/-- The test `signature.startsWith(text)` on the bytes of the signature. -/
def startsWith (signature : List Nat) (text : String) : Bool :=
  (text.toList.map Char.toNat).isPrefixOf signature

/-- The ASCII white space removed by `trim()`. -/
def isWhiteSpace (b : Nat) : Bool :=
  b = 9 || b = 10 || b = 11 || b = 12 || b = 13 || b = 32

/-- The expression `text.trim().replace(/\0/g, '')` on the bytes of a text. -/
def trimAndDropNul (text : List Nat) : List Nat :=
  (((text.dropWhile isWhiteSpace).reverse.dropWhile isWhiteSpace).reverse).filter
    fun b => b ≠ 0

section Parser

variable {α : Type}

/-- The call `view.getFloat32(offset, true)`. -/
def getFloat32 (decodeFloat32 : Nat → α) (buffer : List Nat) (offset : Nat) :
    Except ParseError α :=
  (getUint32 buffer offset).map decodeFloat32

/-- The method `readCameraInfo(view, offset)`. -/
def readCameraInfo (decodeFloat32 : Nat → α) (buffer : List Nat) (offset : Nat) :
    Except ParseError (Camera α) := do
  let px ← getFloat32 decodeFloat32 buffer offset
  let py ← getFloat32 decodeFloat32 buffer (offset + 4)
  let pz ← getFloat32 decodeFloat32 buffer (offset + 8)
  let rx ← getFloat32 decodeFloat32 buffer (offset + 12)
  let ry ← getFloat32 decodeFloat32 buffer (offset + 16)
  let rz ← getFloat32 decodeFloat32 buffer (offset + 20)
  let sx ← getFloat32 decodeFloat32 buffer (offset + 24)
  let sy ← getFloat32 decodeFloat32 buffer (offset + 28)
  let sz ← getFloat32 decodeFloat32 buffer (offset + 32)
  pure { position := { x := px, y := py, z := pz }
         rotation := { x := rx, y := ry, z := rz }
         scale := { x := sx, y := sy, z := sz } }

/-- The frame loop `for (let i = 0; i < this.frameCount; i++)` of
`parseUnitFile`.  The first numeric argument is `this.frameCount - i`, the
number of iterations still allowed. -/
def frameLoop (buffer : List Nat) :
    Nat → Nat → Nat → List FrameRecord → Except ParseError (List FrameRecord)
  | 0, _, _, frames => .ok frames
  | remaining + 1, i, offset, frames =>
    if (offset : Int) ≥ (buffer.length : Int) - 6 then .ok frames
    else
      match getUint32 buffer offset with
      | .error e => .error e
      | .ok voxelCount =>
        let offset := offset + 4
        match getUint32 buffer offset with
        | .error e => .error e
        | .ok dataSize =>
          let offset := offset + 4
          match newUint8Array buffer offset dataSize with
          | .error e => .error e
          | .ok frameData =>
            let offset := offset + dataSize
            frameLoop buffer remaining (i + 1) offset
              (frames ++ [{ index := i, voxelCount := voxelCount, dataSize := dataSize,
                            data := frameData }])

/-- The method `parseUnitFile(buffer)`: its returned object, or the exception
it raises. -/
def parseUnitFile (decodeFloat32 : Nat → α) (buffer : List Nat) :
    Except ParseError (UnitData α) := do
  let offset := 0
  let signature ← newUint8Array buffer offset 6
  let offset := offset + 6
  if (!startsWith signature "STMOV" && !startsWith signature "STMV") = true then
    throw (.invalidSignature signature)
  let major ← getUint8 buffer offset
  let offset := offset + 1
  let minor ← getUint8 buffer offset
  let offset := offset + 1
  let frameCount ← getUint32 buffer offset
  let offset := offset + 4
  let totalTime ← getUint32 buffer offset
  let offset := offset + 4
  let compressionFormat ← newUint8Array buffer offset 16
  let compressionFormat := trimAndDropNul compressionFormat
  let offset := offset + 16
  let leftCamera ← readCameraInfo decodeFloat32 buffer offset
  let offset := offset + 36
  let rightCamera ← readCameraInfo decodeFloat32 buffer offset
  let offset := offset + 36
  let dotSize ← getFloat32 decodeFloat32 buffer offset
  let offset := offset + 4
  let frames ← frameLoop buffer frameCount 0 offset []
  pure { signature := signature, version := { major := major, minor := minor },
         frameCount := frameCount, totalTime := totalTime,
         compressionFormat := compressionFormat, leftCamera := leftCamera,
         rightCamera := rightCamera, dotSize := dotSize, frames := frames }

end Parser

/-! ## Frame records of a unit file (specification side) -/

/-- A complete frame record: eight header bytes followed by exactly as many
payload bytes as the little-endian uint32 in bytes 4..7 declares. -/
def isFrameRecord (r : List Nat) : Prop :=
  r.length = 8 + le32 (r.getD 4 0) (r.getD 5 0) (r.getD 6 0) (r.getD 7 0)

/-- The descriptor of a complete frame record read as frame `i`. -/
def recordFrame (i : Nat) (r : List Nat) : FrameRecord :=
  { index := i
    voxelCount := le32 (r.getD 0 0) (r.getD 1 0) (r.getD 2 0) (r.getD 3 0)
    dataSize := le32 (r.getD 4 0) (r.getD 5 0) (r.getD 6 0) (r.getD 7 0)
    data := r.drop 8 }

/-- The descriptors of consecutive records, numbered from `i`. -/
def recordFrames : Nat → List (List Nat) → List FrameRecord
  | _, [] => []
  | i, r :: rs => recordFrame i r :: recordFrames (i + 1) rs

/-- The frame count declared in a header, the little-endian uint32 at bytes
8..11. -/
def declaredFrameCount (header : List Nat) : Nat :=
  le32 (header.getD 8 0) (header.getD 9 0) (header.getD 10 0) (header.getD 11 0)

/-- A valid signature: the first bytes are the ASCII codes of `STMOV` or of
`STMV`. -/
def validSignature (buffer : List Nat) : Prop :=
  [83, 84, 77, 79, 86].isPrefixOf buffer = true ∨ [83, 84, 77, 86].isPrefixOf buffer = true

/-- The number decoded from the four bytes at `offset` of a buffer. -/
def floatAt {α : Type} (decodeFloat32 : Nat → α) (buffer : List Nat) (offset : Nat) : α :=
  decodeFloat32 (le32 (buffer.getD offset 0) (buffer.getD (offset + 1) 0)
    (buffer.getD (offset + 2) 0) (buffer.getD (offset + 3) 0))

/-- The calibration stored at `offset`: nine consecutive float32 values in the
order position xyz, rotation xyz, scale xyz. -/
def cameraAt {α : Type} (decodeFloat32 : Nat → α) (buffer : List Nat) (offset : Nat) :
    Camera α :=
  { position := { x := floatAt decodeFloat32 buffer offset
                  y := floatAt decodeFloat32 buffer (offset + 4)
                  z := floatAt decodeFloat32 buffer (offset + 8) }
    rotation := { x := floatAt decodeFloat32 buffer (offset + 12)
                  y := floatAt decodeFloat32 buffer (offset + 16)
                  z := floatAt decodeFloat32 buffer (offset + 20) }
    scale := { x := floatAt decodeFloat32 buffer (offset + 24)
               y := floatAt decodeFloat32 buffer (offset + 28)
               z := floatAt decodeFloat32 buffer (offset + 32) } }

/-- The unit described by the 108 header bytes of a buffer together with a
list of frame descriptors. -/
def headerUnit {α : Type} (decodeFloat32 : Nat → α) (buffer : List Nat)
    (frames : List FrameRecord) : UnitData α :=
  { signature := buffer.take 6
    version := { major := buffer.getD 6 0, minor := buffer.getD 7 0 }
    frameCount := declaredFrameCount buffer
    totalTime := le32 (buffer.getD 12 0) (buffer.getD 13 0) (buffer.getD 14 0)
      (buffer.getD 15 0)
    compressionFormat := trimAndDropNul ((buffer.drop 16).take 16)
    leftCamera := cameraAt decodeFloat32 buffer 32
    rightCamera := cameraAt decodeFloat32 buffer 68
    dotSize := floatAt decodeFloat32 buffer 104
    frames := frames }

instance (r : List Nat) : Decidable (isFrameRecord r) :=
  inferInstanceAs (Decidable (r.length = _))

instance (buffer : List Nat) : Decidable (validSignature buffer) :=
  inferInstanceAs (Decidable (_ ∨ _))

/-- A 108-byte header with the signature `STMOV\0`, version 1.0, declared
frame count 2 and all other fields zero. -/
def sampleHeader : List Nat :=
  [83, 84, 77, 79, 86, 0, 1, 0, 2, 0, 0, 0] ++ List.replicate 96 0

/-! ## Projection and calibration matrices (specification side) -/

section TransformSpecification

variable {α : Type} [Field α]

/-- The pre-calibration projected point of a pixel and raw depth:
`(fx * fz, fy * fz, fz)` with `fx = (320 - x) / 640`, `fy = (240 - y) / 640`
and `fz = depth / 1000`. -/
def projectedPoint (x y depth : Nat) : Vec3 α :=
  { x := (((320 : α) - (x : α)) / 640) * ((depth : α) / 1000)
    y := (((240 : α) - (y : α)) / 640) * ((depth : α) / 1000)
    z := (depth : α) / 1000 }

/-- A row-major array of 16 numbers read as a 4x4 matrix. -/
def toMatrix (m : List α) : Matrix (Fin 4) (Fin 4) α :=
  Matrix.of fun i j => m.getD (i.val * 4 + j.val) 0

/-- The right-handed rotation about the X axis with cosine `c` and sine `s`. -/
def rotationX (c s : α) : Matrix (Fin 4) (Fin 4) α :=
  Matrix.of ![![1, 0, 0, 0], ![0, c, -s, 0], ![0, s, c, 0], ![0, 0, 0, 1]]

/-- The right-handed rotation about the Y axis with cosine `c` and sine `s`. -/
def rotationY (c s : α) : Matrix (Fin 4) (Fin 4) α :=
  Matrix.of ![![c, 0, s, 0], ![0, 1, 0, 0], ![-s, 0, c, 0], ![0, 0, 0, 1]]

/-- The right-handed rotation about the Z axis with cosine `c` and sine `s`. -/
def rotationZ (c s : α) : Matrix (Fin 4) (Fin 4) α :=
  Matrix.of ![![c, -s, 0, 0], ![s, c, 0, 0], ![0, 0, 1, 0], ![0, 0, 0, 1]]

/-- The scaling `diag(v.x, v.y, v.z, 1)`. -/
def scaling (v : Vec3 α) : Matrix (Fin 4) (Fin 4) α :=
  Matrix.of ![![v.x, 0, 0, 0], ![0, v.y, 0, 0], ![0, 0, v.z, 0], ![0, 0, 0, 1]]

/-- The translation by `v`. -/
def translation (v : Vec3 α) : Matrix (Fin 4) (Fin 4) α :=
  Matrix.of ![![1, 0, 0, v.x], ![0, 1, 0, v.y], ![0, 0, 1, v.z], ![0, 0, 0, 1]]

/-- The rotation part `Rz * Ry * Rx` of a calibration. -/
def rotationZYX (cos sin : α → α) (camera : Camera α) : Matrix (Fin 4) (Fin 4) α :=
  rotationZ (cos camera.rotation.z) (sin camera.rotation.z)
    * rotationY (cos camera.rotation.y) (sin camera.rotation.y)
    * rotationX (cos camera.rotation.x) (sin camera.rotation.x)

end TransformSpecification

/-! ## The decompressor with its parser object, logger and random source

`decompressFrame` is a method: it reads `this.parseSubsample`, writes debug
lines through `Logger` and its fallback transform draws `Math.random()` to
sample a debug line.  The definitions below repeat the decoder with these made
explicit, so that their influence on the returned array can be stated. -/

/-- The surroundings of a call: the values successive `Math.random()` calls
return, the number of values drawn so far, and the number of lines written
through `Logger` so far. -/
structure Effects where
  random : Nat → ℚ
  randomCalls : Nat
  logged : Nat

/-- The fields of a parser object (`constructor` and `reset`). -/
structure STMOVParser (α : Type) where
  parseSubsample : Nat
  signature : Option (List Nat)
  version : Version
  frameCount : Nat
  totalTime : Nat
  compressionFormat : Option (List Nat)
  leftCamera : Option (Camera α)
  rightCamera : Option (Camera α)
  dotSize : α
  frames : List FrameRecord

section Logged

variable {α : Type} [Field α]

/-- The method `transformCorrectedSimple` with its sampled debug line:
`if (Math.random() < 0.01) Logger.debug(...)`. -/
def transformCorrectedSimpleLogged (e : Effects) (x y depth : Nat)
    (_width _height _farClip : Nat) (_isLeftScreen : Bool) : Vec3 α × Effects :=
  let fx : α := ((320 : α) - (x : α)) / 640
  let fy : α := ((240 : α) - (y : α)) / 640
  let fz : α := (depth : α) / 1000
  let projectedX := fx * fz
  let projectedY := fy * fz
  let projectedZ := fz
  let u := e.random e.randomCalls
  let e := { e with randomCalls := e.randomCalls + 1 }
  let e := if u < 1 / 100 then { e with logged := e.logged + 1 } else e
  ({ x := projectedX, y := projectedY, z := projectedZ }, e)

/-- The method `transformSTClientCompliant` with the debug line of its fallback
branch. -/
def transformSTClientCompliantLogged (cos sin : α → α) (e : Effects) (x y depth : Nat)
    (isLeftScreen : Bool) (leftCamera rightCamera : Option (Camera α)) : Vec3 α × Effects :=
  match leftCamera, rightCamera with
  | some leftCamera, some rightCamera =>
    let camera := if isLeftScreen then leftCamera else rightCamera
    let fx : α := ((320 : α) - (x : α)) / 640
    let fy : α := ((240 : α) - (y : α)) / 640
    let fz : α := (depth : α) / 1000
    let projectedX := fx * fz
    let projectedY := fy * fz
    let projectedZ := fz
    let cameraMatrix := createST_ClientCameraMatrix cos sin camera
    let transformedPoint := multiplyMatrix4x4 cameraMatrix
      { x := projectedX, y := projectedY, z := projectedZ, w := 1 }
    ({ x := transformedPoint.x, y := transformedPoint.y, z := transformedPoint.z }, e)
  | _, _ =>
    let e := { e with logged := e.logged + 1 }
    transformCorrectedSimpleLogged e x y depth 640 480 8000 isLeftScreen

/-- The inner loop of `decompressFrame` with effects. -/
def runLoopLogged (cos sin : α → α) (parseSubsample : Nat)
    (leftCamera rightCamera : Option (Camera α)) (depth : Nat) (isLeftScreen : Bool) :
    Nat → Nat → List α → Effects → Nat × List α × Bool × Effects
  | 0, count, points, e => (count, points, false, e)
  | j + 1, count, points, e =>
    if count ≥ 640 * 480 then (count, points, false, e)
    else
      let count := count + 1
      if count % parseSubsample ≠ 0 then
        runLoopLogged cos sin parseSubsample leftCamera rightCamera depth isLeftScreen
          j count points e
      else
        let x := (count - 1) % 640
        let y := (count - 1) / 640
        let r := transformSTClientCompliantLogged cos sin e x y depth isLeftScreen
          leftCamera rightCamera
        let worldPoint := r.1
        let e := r.2
        let points := points ++ [worldPoint.x, worldPoint.y, worldPoint.z]
        if points.length ≥ MAX_POINTS_PER_FRAME then (count, points, true, e)
        else
          runLoopLogged cos sin parseSubsample leftCamera rightCamera depth isLeftScreen
            j count points e

/-- The chunk part of an outer-loop iteration with effects. -/
def chunkRunLogged (cos sin : α → α) (parseSubsample : Nat)
    (leftCamera rightCamera : Option (Camera α)) (first second : Nat)
    (st : DecodeState α) (e : Effects) : Nat × List α × Bool × Effects :=
  let runLength := runLength second
  let depth := chunkDepth first second
  if depth > 0 ∧ depth < 8000 then
    runLoopLogged cos sin parseSubsample leftCamera rightCamera depth st.isLeftScreen
      runLength st.count st.points e
  else
    (st.count + runLength, st.points, false, e)

/-- One outer-loop iteration with effects.  The Booleans are: the loop is
left, and it is left through `return points`. -/
def chunkBodyLogged (cos sin : α → α) (parseSubsample : Nat)
    (leftCamera rightCamera : Option (Camera α)) (first second : Nat)
    (st : DecodeState α) (e : Effects) : DecodeState α × Bool × Bool × Effects :=
  let r := chunkRunLogged cos sin parseSubsample leftCamera rightCamera first second st e
  let count := r.1
  let points := r.2.1
  let e := r.2.2.2
  if r.2.2.1 then
    ({ count := count, isLeftScreen := st.isLeftScreen, points := points }, true, true, e)
  else
    let switch : Bool := decide (count ≥ 640 * 480) && st.isLeftScreen
    let isLeftScreen := if switch then false else st.isLeftScreen
    let count := if switch then 0 else count
    if count ≥ 640 * 480 ∧ isLeftScreen = false then
      ({ count := count, isLeftScreen := isLeftScreen, points := points }, true, false, e)
    else
      ({ count := count, isLeftScreen := isLeftScreen, points := points }, false, false, e)

/-- The outer loop with effects; the Boolean tells whether the function was
left through `return points` inside the loop. -/
def decodeLoopLogged (cos sin : α → α) (parseSubsample : Nat)
    (leftCamera rightCamera : Option (Camera α)) :
    List Nat → DecodeState α → Effects → DecodeState α × Bool × Effects
  | first :: second :: rest, st, e =>
    let r := chunkBodyLogged cos sin parseSubsample leftCamera rightCamera first second st e
    if r.2.1 then (r.1, r.2.2.1, r.2.2.2)
    else decodeLoopLogged cos sin parseSubsample leftCamera rightCamera rest r.1 r.2.2.2
  | _, st, e => (st, false, e)

/-- The method `decompressFrame` of the parser object `this`, with effects:
the returned array and the surroundings after the call.  The closing
`Logger.debug` line is written unless the function returned from inside the
loop or at once for an empty payload. -/
def decompressFrameLogged (cos sin : α → α) (this : STMOVParser α) (e : Effects)
    (frameData : List Nat) (leftCamera rightCamera : Option (Camera α)) : List α × Effects :=
  if frameData.length = 0 then ([], e)
  else
    let r := decodeLoopLogged cos sin this.parseSubsample leftCamera rightCamera frameData
      { count := 0, isLeftScreen := true, points := [] } e
    if r.2.1 then (r.1.points, r.2.2)
    else (r.1.points, { r.2.2 with logged := r.2.2.logged + 1 })

end Logged

/-- A parser object over the rationals with the given `parseSubsample` and
declared frame count; the other fields as after `reset()`. -/
def sampleParser (parseSubsample frameCount : Nat) : STMOVParser ℚ :=
  { parseSubsample := parseSubsample, signature := none, version := { major := 0, minor := 0 },
    frameCount := frameCount, totalTime := 0, compressionFormat := none,
    leftCamera := none, rightCamera := none, dotSize := 0, frames := [] }

/-- Surroundings in which `Math.random()` always returns `1/2`. -/
def quietEffects : Effects := { random := fun _ => 1 / 2, randomCalls := 0, logged := 0 }

/-- Surroundings in which `Math.random()` always returns `0`, after five draws
and seven log lines. -/
def noisyEffects : Effects := { random := fun _ => 0, randomCalls := 5, logged := 7 }

/-! ## The viewer: frame cache

The JavaScript `Map` behind `frameCache` is a list of key-value entries in
insertion order with at most one entry per key.  The cache key is the string
`unit<unitIndex>_frame<frameIndex>`; it determines both numbers, so the key
is kept as the pair. -/

section FrameCacheModel

variable {κ β : Type} [DecidableEq κ]

/-- The call `map.has(key)`. -/
def mapHas (m : List (κ × β)) (key : κ) : Bool :=
  m.any fun e => e.1 = key

/-- The call `map.get(key)`; `none` is `undefined`. -/
def mapGet (m : List (κ × β)) (key : κ) : Option β :=
  (m.find? fun e => e.1 = key).map fun e => e.2

/-- The call `map.set(key, value)`: the value of an existing entry is replaced
in place, a new entry goes to the end. -/
def mapSet (m : List (κ × β)) (key : κ) (value : β) : List (κ × β) :=
  if mapHas m key then m.map fun e => if e.1 = key then (key, value) else e
  else m ++ [(key, value)]

/-- The call `map.delete(key)`. -/
def mapDelete (m : List (κ × β)) (key : κ) : List (κ × β) :=
  m.filter fun e => e.1 ≠ key

end FrameCacheModel

/-- The constant `PerformanceConfig.MAX_CACHED_FRAMES`. -/
def MAX_CACHED_FRAMES : Nat := 10

/-- The key `unit<unitIndex>_frame<frameIndex>` of a cached frame. -/
def cacheKey (unitIndex : Nat) (frameIndex : Int) : Nat × Int := (unitIndex, frameIndex)

/-- The fields `frameCache` and `frameCacheOrder` of the viewer. -/
structure FrameCache (β : Type) where
  frameCache : List ((Nat × Int) × β)
  frameCacheOrder : List (Nat × Int)

/-- The cache of a new viewer. -/
def FrameCache.empty {β : Type} : FrameCache β := { frameCache := [], frameCacheOrder := [] }

/-- The method `addFrameToCache(unitIndex, frameIndex, frameData)` of a viewer
whose field `MAX_CACHED_FRAMES` holds `maxCachedFrames`. -/
def addFrameToCache {β : Type} (maxCachedFrames : Nat) (c : FrameCache β) (unitIndex : Nat)
    (frameIndex : Int) (frameData : β) : FrameCache β :=
  let cacheKey := cacheKey unitIndex frameIndex
  if mapHas c.frameCache cacheKey then c
  else
    let frameCache := mapSet c.frameCache cacheKey frameData
    let frameCacheOrder := c.frameCacheOrder ++ [cacheKey]
    if frameCacheOrder.length > maxCachedFrames then
      match frameCacheOrder with
      | [] => { frameCache := frameCache, frameCacheOrder := [] }
      | oldestKey :: rest =>
        { frameCache := mapDelete frameCache oldestKey, frameCacheOrder := rest }
    else { frameCache := frameCache, frameCacheOrder := frameCacheOrder }

/-- The method `getFrameFromCache(unitIndex, frameIndex)`; it changes nothing. -/
def getFrameFromCache {β : Type} (c : FrameCache β) (unitIndex : Nat) (frameIndex : Int) :
    Option β :=
  mapGet c.frameCache (cacheKey unitIndex frameIndex)

/-- A call of one of the two cache methods. -/
inductive CacheCall (β : Type) where
  | add : Nat → Int → β → CacheCall β
  | get : Nat → Int → CacheCall β

/-- The cache after a call: `getFrameFromCache` leaves it as it is. -/
def cacheStep {β : Type} (maxCachedFrames : Nat) (c : FrameCache β) : CacheCall β → FrameCache β
  | .add unitIndex frameIndex frameData =>
    addFrameToCache maxCachedFrames c unitIndex frameIndex frameData
  | .get _ _ => c

/-- The cache after a sequence of calls. -/
def cacheRun {β : Type} (maxCachedFrames : Nat) (c : FrameCache β) (calls : List (CacheCall β)) :
    FrameCache β :=
  calls.foldl (cacheStep maxCachedFrames) c

/-- The insertions of a sequence of calls, in order: key and value. -/
def cacheAdds {β : Type} : List (CacheCall β) → List ((Nat × Int) × β)
  | [] => []
  | .add unitIndex frameIndex frameData :: rest =>
    (cacheKey unitIndex frameIndex, frameData) :: cacheAdds rest
  | .get _ _ :: rest => cacheAdds rest

/-! ## The viewer: adaptive draw interval

Times (`performance.now()`, measured draw times) and the draw interval are
JavaScript numbers; they are rationals here, so the arithmetic is exact.  The
value of `performance.now()` read by `updateDrawInterval` is the argument
`now`. -/

/-- The constant `PerformanceConfig.SLOW_THRESHOLD_MS`. -/
def SLOW_THRESHOLD_MS : ℚ := 35

/-- The constant `PerformanceConfig.FAST_THRESHOLD_MS`. -/
def FAST_THRESHOLD_MS : ℚ := 25

/-- The constant `PerformanceConfig.PERFORMANCE_CHECK_INTERVAL_MS`. -/
def PERFORMANCE_CHECK_INTERVAL_MS : ℚ := 3000

/-- The fields `drawInterval`, `frameTimeHistory` and `lastPerformanceCheck` of
the viewer. -/
structure LodState where
  drawInterval : ℚ
  frameTimeHistory : List ℚ
  lastPerformanceCheck : ℚ

/-- The method `updateDrawInterval(frameDrawTime)`. -/
def updateDrawInterval (s : LodState) (frameDrawTime now : ℚ) : LodState :=
  let frameTimeHistory := s.frameTimeHistory ++ [frameDrawTime]
  let frameTimeHistory :=
    if frameTimeHistory.length > 10 then frameTimeHistory.tail else frameTimeHistory
  let avgFrameTime : ℚ :=
    frameTimeHistory.foldl (fun a b => a + b) 0 / (frameTimeHistory.length : ℚ)
  if now - s.lastPerformanceCheck < PERFORMANCE_CHECK_INTERVAL_MS then
    { drawInterval := s.drawInterval, frameTimeHistory := frameTimeHistory,
      lastPerformanceCheck := s.lastPerformanceCheck }
  else
    let lastPerformanceCheck := now
    if avgFrameTime > SLOW_THRESHOLD_MS ∧ s.drawInterval < 8 then
      { drawInterval := s.drawInterval * 2, frameTimeHistory := frameTimeHistory,
        lastPerformanceCheck := lastPerformanceCheck }
    else if avgFrameTime < FAST_THRESHOLD_MS ∧ s.drawInterval > 1 then
      { drawInterval := max 1 (s.drawInterval / 2), frameTimeHistory := frameTimeHistory,
        lastPerformanceCheck := lastPerformanceCheck }
    else
      { drawInterval := s.drawInterval, frameTimeHistory := frameTimeHistory,
        lastPerformanceCheck := lastPerformanceCheck }

/-- The `input` handler of the draw-interval slider:
`this.drawInterval = Math.pow(2, value)`. -/
def setDrawIntervalSlider (s : LodState) (value : Nat) : LodState :=
  { s with drawInterval := 2 ^ value }

/-- A call of `updateDrawInterval` (draw time, then the clock value) or a
slider input. -/
inductive LodCall where
  | update : ℚ → ℚ → LodCall
  | slider : Nat → LodCall

/-- The state after a call. -/
def lodStep (s : LodState) : LodCall → LodState
  | .update frameDrawTime now => updateDrawInterval s frameDrawTime now
  | .slider value => setDrawIntervalSlider s value

/-- The state after a sequence of calls. -/
def lodRun (s : LodState) (calls : List LodCall) : LodState :=
  calls.foldl lodStep s

/-- The mean of a window of samples. -/
def windowMean (window : List ℚ) : ℚ := window.sum / (window.length : ℚ)

/-- The strides of the data model: 1, 2, 4 and 8. -/
def validStride (d : ℚ) : Prop := d = 1 ∨ d = 2 ∨ d = 4 ∨ d = 8

/-! ## The viewer: units, display and loading

The rendering of a frame (`displayUnitFrame`) is outside this model:
`displayFrame` returns, next to the new viewer state, the frames it passes to
`displayUnitFrame`, each with the index of its unit.  The two clock-derived
numbers it uses, the measured draw time and the value of `performance.now()`
inside `updateDrawInterval`, are arguments.  The call
`this.parser.parseFile(file)` of `loadFiles` is the argument `parseFile`. -/

/-- The frame object built by `displayFrame`. -/
structure DecodedFrame (α : Type) where
  index : Int
  points : List α
  pointCount : ℚ

/-- An element of `this.units`; `frameCount` is `undefined` until
`processUnitFrames` sets it. -/
structure LoadedUnit (α : Type) where
  unitIndex : Nat
  fileName : String
  stmovData : UnitData α
  frameCount : Option Nat

/-- The value of the draw-interval mode selector. -/
inductive DrawIntervalMode where
  | auto : DrawIntervalMode
  | manual : DrawIntervalMode
deriving DecidableEq

/-- The fields of the viewer that loading and displaying read or write;
`parseSubsample` is `this.parser.parseSubsample`. -/
structure Viewer (α : Type) where
  units : List (LoadedUnit α)
  parseSubsample : Nat
  cache : FrameCache (DecodedFrame α)
  maxCachedFrames : Nat
  drawIntervalMode : DrawIntervalMode
  lod : LodState
  currentFrame : Int

/-- A selected file: its name and its bytes. -/
structure InputFile where
  name : String
  bytes : List Nat

/-- What `parseFile` resolves to: the unit array of an archive, or the object
of a single unit file. -/
inductive ParseResult (α : Type) where
  | track : List (LoadedUnit α) → ParseResult α
  | single : UnitData α → ParseResult α

section ViewerModel

variable {α : Type} [Field α]

/-- The method `processUnitFrames(unit)`. -/
def processUnitFrames (unit : LoadedUnit α) : LoadedUnit α :=
  { unit with frameCount := some unit.stmovData.frameCount }

/-- The method `getMaxFrames()`: 0 without units, else the least
`u.frameCount || 0`. -/
def getMaxFrames (units : List (LoadedUnit α)) : Nat :=
  match units.map fun u => u.frameCount.getD 0 with
  | [] => 0
  | x :: xs => xs.foldl min x

/-- The array access `frames[frameIndex]`. -/
def frameAt (frames : List FrameRecord) (frameIndex : Int) : Option FrameRecord :=
  if frameIndex < 0 then none else frames[frameIndex.toNat]?

/-- The part of the body of the unit loop of `displayFrame` that finds the
frame of one unit: `none` when the loop goes to the next unit (`continue`),
else the frame taken from the cache or decoded and cached; with the cache
afterwards. -/
def frameForUnit (cos sin : α → α) (parseSubsample maxCachedFrames : Nat)
    (cache : FrameCache (DecodedFrame α)) (unit : LoadedUnit α) (frameIndex : Int) :
    Option (DecodedFrame α) × FrameCache (DecodedFrame α) :=
  if frameIndex ≥ (unit.stmovData.frameCount : Int) then (none, cache)
  else
    match getFrameFromCache cache unit.unitIndex frameIndex with
    | some frame => (some frame, cache)
    | none =>
      match frameAt unit.stmovData.frames frameIndex with
      | none => (none, cache)
      | some rawFrameData =>
        let points := decompressFrame cos sin parseSubsample rawFrameData.data
          (some unit.stmovData.leftCamera) (some unit.stmovData.rightCamera)
        let frame : DecodedFrame α :=
          { index := frameIndex, points := points, pointCount := (points.length : ℚ) / 3 }
        (some frame, addFrameToCache maxCachedFrames cache unit.unitIndex frameIndex frame)

/-- The unit loop of `displayFrame`: the cache afterwards and the frames
passed to `displayUnitFrame`, those with a non-empty point array. -/
def displayUnits (cos sin : α → α) (parseSubsample maxCachedFrames : Nat) (frameIndex : Int) :
    List (LoadedUnit α) → FrameCache (DecodedFrame α) → List (Nat × DecodedFrame α) →
      FrameCache (DecodedFrame α) × List (Nat × DecodedFrame α)
  | [], cache, shown => (cache, shown)
  | unit :: rest, cache, shown =>
    let r := frameForUnit cos sin parseSubsample maxCachedFrames cache unit frameIndex
    match r.1 with
    | none => displayUnits cos sin parseSubsample maxCachedFrames frameIndex rest r.2 shown
    | some frame =>
      if frame.points.length = 0 then
        displayUnits cos sin parseSubsample maxCachedFrames frameIndex rest r.2 shown
      else
        displayUnits cos sin parseSubsample maxCachedFrames frameIndex rest r.2
          (shown ++ [(unit.unitIndex, frame)])

/-- The method `displayFrame(frameIndex)`. -/
def displayFrame (cos sin : α → α) (v : Viewer α) (frameIndex : Int)
    (frameDrawTime now : ℚ) : Viewer α × List (Nat × DecodedFrame α) :=
  if v.units.length = 0 then (v, [])
  else
    let r := displayUnits cos sin v.parseSubsample v.maxCachedFrames frameIndex v.units
      v.cache []
    let lod :=
      if v.drawIntervalMode = DrawIntervalMode.auto then
        updateDrawInterval v.lod frameDrawTime now
      else v.lod
    ({ v with cache := r.1, lod := lod, currentFrame := frameIndex }, r.2)

/-- The units that `loadFiles` makes of the result of parsing the file at
position `index`. -/
def unitsOfResult (index : Nat) (file : InputFile) : ParseResult α → List (LoadedUnit α)
  | .track units => units
  | .single result =>
    [{ unitIndex := index, fileName := file.name, stmovData := result, frameCount := none }]

/-- The parsing of all files in `loadFiles` (`Promise.all` over the files with
their positions): the unit arrays, or the failure of a file. -/
def parseAll {ε : Type} (parseFile : InputFile → Except ε (ParseResult α)) :
    Nat → List InputFile → Except ε (List (List (LoadedUnit α)))
  | _, [] => .ok []
  | index, file :: rest =>
    match parseFile file with
    | .error e => .error e
    | .ok result =>
      match parseAll parseFile (index + 1) rest with
      | .error e => .error e
      | .ok arrays => .ok (unitsOfResult index file result :: arrays)

/-- The method `loadFiles(files)`. -/
def loadFiles {ε : Type} (cos sin : α → α) (parseFile : InputFile → Except ε (ParseResult α))
    (v : Viewer α) (files : List InputFile) (frameDrawTime now : ℚ) :
    Viewer α × List (Nat × DecodedFrame α) :=
  if files.length > 6 then (v, [])
  else
    let v := { v with units := [] }
    match parseAll parseFile 0 files with
    | .error _ => (v, [])
    | .ok unitArrays =>
      let v := { v with units := unitArrays.flatten }
      if v.units.length > 6 then (v, [])
      else
        let v := { v with units := v.units.map processUnitFrames }
        displayFrame cos sin v 0 frameDrawTime now

/-- The `change` handler of the parse quality selector. -/
def setParseQuality (v : Viewer α) (quality : Nat) : Viewer α :=
  { v with parseSubsample := quality }

end ViewerModel

/-- A new viewer over the rationals, with the parser's default
`parseSubsample` replaced by the given one. -/
def newViewer (parseSubsample : Nat) : Viewer ℚ :=
  { units := [], parseSubsample := parseSubsample, cache := FrameCache.empty,
    maxCachedFrames := MAX_CACHED_FRAMES, drawIntervalMode := DrawIntervalMode.auto,
    lod := { drawInterval := 1, frameTimeHistory := [], lastPerformanceCheck := 0 },
    currentFrame := 0 }

/-- A unit file with the header `sampleHeader` but declared frame count 1,
followed by one frame record with the given payload. -/
def oneFrameFile (name : String) (payload : List Nat) : InputFile :=
  { name := name
    bytes := [83, 84, 77, 79, 86, 0, 1, 0, 1, 0, 0, 0] ++ List.replicate 96 0
      ++ [0, 0, 0, 0, payload.length, 0, 0, 0] ++ payload }

/-- Parsing of a file as a single unit, with float32 patterns read as their
integer value. -/
def parseSingle (file : InputFile) : Except ParseError (ParseResult ℚ) :=
  (parseUnitFile (fun n => (n : ℚ)) file.bytes).map ParseResult.single

/-! ## Decoding position after a payload prefix (specification side) -/

/-- The pixel counter and screen flag with which the chunk after the given
payload is decoded, starting from counter `count` and flag `isLeft`; `none`
when decoding has stopped before, the right screen being complete.  Only whole
chunks of the payload count. -/
def stateAfter : List Nat → Nat → Bool → Option (Nat × Bool)
  | first :: second :: rest, count, isLeft =>
    let count := chunkCount first second count
    if count ≥ 640 * 480 then
      if isLeft then stateAfter rest 0 false else none
    else stateAfter rest count isLeft
  | _, count, isLeft => some (count, isLeft)

/-- The in-range samples that the chunk `(first, second)` contributes when it
follows the payload `pre`: none when decoding stopped within `pre`. -/
def ownSamples (pre : List Nat) (first second : Nat) : List Sample :=
  match stateAfter pre 0 true with
  | none => []
  | some st => chunkSamples first second st.1 st.2

/-- The in-range samples of the payload `post` when it follows the payload
`pre`. -/
def samplesAfter (pre post : List Nat) : List Sample :=
  match stateAfter pre 0 true with
  | none => []
  | some st => samplesFrom post st.1 st.2

/-! ## The viewer: selection of the points to draw

The loop of `displayUnitFrame` over the decoded array.  The draw interval is a
natural number here (the viewer only ever sets 1, 2, 4 or 8).  Comparisons
need an ordered field; the bounds 2.4 and 2.3 are the exact fractions.  The
colour array, filled in the same branch with one colour per forwarded point,
and the hand-over to the renderer are outside the model. -/

section DisplayModel

variable {α : Type} [LinearOrderedField α]

/-- The loop `for (let i = 0; i < frame.points.length; i += 3 * this.drawInterval)`
of `displayUnitFrame`, building `filteredPoints`.  The first numeric argument
bounds the number of iterations still allowed; `none` is returned when it is
used up before the loop condition fails.  An array read beyond the end gives
`undefined`, which fails every comparison. -/
def displayUnitLoop (points : List α) (offsetX unitMinX unitMaxX : α) (drawInterval : Nat) :
    Nat → Nat → List α → Option (List α)
  | 0, i, filteredPoints => if i < points.length then none else some filteredPoints
  | fuel + 1, i, filteredPoints =>
    if i < points.length then
      match points[i]?, points[i + 1]?, points[i + 2]? with
      | some p0, some worldY, some worldZ =>
        let worldX := p0 + offsetX
        if worldX ≥ unitMinX ∧ worldX ≤ unitMaxX ∧ worldY ≥ 0 ∧ worldY ≤ 12 / 5
            ∧ worldZ ≥ 0 ∧ worldZ ≤ 23 / 10 then
          displayUnitLoop points offsetX unitMinX unitMaxX drawInterval fuel
            (i + 3 * drawInterval) (filteredPoints ++ [worldX, worldY, -worldZ])
        else
          displayUnitLoop points offsetX unitMinX unitMaxX drawInterval fuel
            (i + 3 * drawInterval) filteredPoints
      | _, _, _ =>
        displayUnitLoop points offsetX unitMinX unitMaxX drawInterval fuel
          (i + 3 * drawInterval) filteredPoints
    else some filteredPoints

/-- The array `filteredPoints` that `displayUnitFrame(frame, offsetX, unit)`
hands to the renderer when `this.drawInterval` is `drawInterval`; `none` when
the loop does not end within `frame.points.length` iterations (it ends within
that many whenever the draw interval is at least 1). -/
def displayUnitFrame (drawInterval : Nat) (frame : DecodedFrame α) (offsetX : α)
    (unit : LoadedUnit α) : Option (List α) :=
  let unitIndex := unit.unitIndex
  let unitMinX : α := (unitIndex : α) * 4
  let unitMaxX : α := ((unitIndex : α) + 1) * 4
  displayUnitLoop frame.points offsetX unitMinX unitMaxX drawInterval frame.points.length 0 []

/-- The range test of `displayUnitFrame` on a point (specification side). -/
def inUnitBox (unitIndex : Nat) (offsetX : α) (w : Vec3 α) : Bool :=
  decide (w.x + offsetX ≥ (unitIndex : α) * 4 ∧ w.x + offsetX ≤ ((unitIndex : α) + 1) * 4
    ∧ w.y ≥ 0 ∧ w.y ≤ 12 / 5 ∧ w.z ≥ 0 ∧ w.z ≤ 23 / 10)

/-- The point handed to the renderer for a point in range (specification
side). -/
def glPoint (offsetX : α) (w : Vec3 α) : Vec3 α :=
  { x := w.x + offsetX, y := w.y, z := -w.z }

end DisplayModel

/-- The elements at the indices `0, d, 2d, ...` of a list (specification
side); there are `ceil(length / d)` such indices. -/
def everyNth {β : Type} (d : Nat) (ws : List β) : List β :=
  (List.range ((ws.length + d - 1) / d)).filterMap fun k => ws[k * d]?

/-! ## The parser object: archives and file dispatch

`parseUnitFile` above gives the value of every field of the object it returns
at the moment it returns.  One of these fields is not a value of its own: the
method writes the version bytes into the object held by `this.version`
(`this.version.major = ...`) and returns that same object (`version:
this.version`); only `reset()` makes a new one.  The definitions below keep
track of which version object a returned unit refers to.  All other fields are
assigned afresh by every call (numbers, strings, new camera objects, a new
`frames` array) and are kept by value.

The archive library is outside the program: the result of
`JSZip.loadAsync(buffer)` is the argument `loadAsync`, which gives the entries
of `zip.files` in enumeration order (each with its decompressed bytes) or
fails.  `Array.prototype.sort` is a stable sort; JavaScript numbers are exact
for the suffix numbers (below `2 ^ 53`). -/

/-- The exceptions of `parseFile` by cause: one raised by `parseUnitFile` or by
a `DataView` read, the error for an archive without unit files, and a failure
of the archive library.  (`parseFile` rethrows each as an `Error` whose message
is the original one with a fixed text put in front.) -/
inductive FileError where
  | unit : ParseError → FileError
  | noStmovFiles : FileError
  | zip : FileError
deriving DecidableEq

/-- An entry of `zip.files`: its key, its `dir` flag and the bytes that
`async('arraybuffer')` resolves to. -/
structure ZipEntry where
  name : String
  dir : Bool
  bytes : List Nat

/-- The parser object as far as object identity matters: the version objects
made so far, by address, and the address held in `this.version`. -/
structure ParserObject where
  versions : List Version
  version : Nat

/-- The object returned by `parseUnitFile`: the address of the object in its
`version` field together with the value of every field when the method
returned. -/
structure UnitObject (α : Type) where
  version : Nat
  fields : UnitData α

/-- An element of the array returned by `parseTrackFile`. -/
structure TrackUnit (α : Type) where
  unitIndex : Nat
  fileName : String
  stmovData : UnitObject α

/-- What `parseFile` resolves to. -/
inductive FileResult (α : Type) where
  | track : List (TrackUnit α) → FileResult α
  | single : UnitObject α → FileResult α

/-- The method `reset()`: `this.version` becomes a new object `{major: 0,
minor: 0}`. -/
def reset (this : ParserObject) : ParserObject :=
  { versions := this.versions ++ [{ major := 0, minor := 0 }], version := this.versions.length }

/-- A new parser: its constructor calls `reset()`. -/
def newParser : ParserObject := reset { versions := [], version := 0 }

/-- The content of the version object at an address. -/
def readVersion (this : ParserObject) (address : Nat) : Version :=
  this.versions.getD address { major := 0, minor := 0 }

/-- The assignment `this.version.major = value`. -/
def setVersionMajor (this : ParserObject) (value : Nat) : ParserObject :=
  { this with
    versions := this.versions.set this.version ⟨value, (readVersion this this.version).minor⟩ }

/-- The assignment `this.version.minor = value`. -/
def setVersionMinor (this : ParserObject) (value : Nat) : ParserObject :=
  { this with
    versions := this.versions.set this.version ⟨(readVersion this this.version).major, value⟩ }

/-- The call `view.getUint16(offset, false)` (big-endian). -/
def getUint16 (buffer : List Nat) (offset : Nat) : Except ParseError Nat :=
  if offset + 2 ≤ buffer.length then
    .ok (256 * buffer.getD offset 0 + buffer.getD (offset + 1) 0)
  else .error .rangeError

/-- The method `isZipFile(buffer)`. -/
def isZipFile (buffer : List Nat) : Except ParseError Bool :=
  (getUint16 buffer 0).map fun v => decide (v = 0x504B)

/-- The test `text.endsWith(ending)`. -/
def endsWith (text ending : String) : Bool :=
  ending.toList.isSuffixOf text.toList

/-- The call `parseInt(digits)` on a string of decimal digits. -/
def parseInt (digits : List Char) : Nat :=
  digits.foldl (fun acc c => 10 * acc + (c.toNat - 48)) 0

/-- The sort key of `parseTrackFile`, `parseInt` of the digits captured by the
regular expression `-(\d+)\.stmov$`, or of `'0'` without a match: the number
written in decimal digits between a hyphen and the ending `.stmov`, and 0 when
the name has no such ending. -/
def suffixNumber (name : String) : Nat :=
  if endsWith name ".stmov" then
    let body := name.toList.reverse.drop 6
    match body.takeWhile Char.isDigit, body.dropWhile Char.isDigit with
    | d :: ds, '-' :: _ => parseInt (d :: ds).reverse
    | _, _ => 0
  else 0

section ParserObjectModel

variable {α : Type}

/-- The method `parseUnitFile(buffer)` on the parser object: the version bytes
are written into the object `this.version` as soon as they are read, and the
returned object refers to it. -/
def parseUnitFileObj (decodeFloat32 : Nat → α) (this : ParserObject) (buffer : List Nat) :
    ParserObject × Except ParseError (UnitObject α) :=
  match newUint8Array buffer 0 6 with
  | .error e => (this, .error e)
  | .ok signature =>
    if (!startsWith signature "STMOV" && !startsWith signature "STMV") = true then
      (this, .error (.invalidSignature signature))
    else
      match getUint8 buffer 6 with
      | .error e => (this, .error e)
      | .ok major =>
        let this := setVersionMajor this major
        match getUint8 buffer 7 with
        | .error e => (this, .error e)
        | .ok minor =>
          let this := setVersionMinor this minor
          (this, (parseUnitFile decodeFloat32 buffer).map fun fields =>
            { version := this.version, fields := fields })

/-- The loop `for (let i = 0; i < Math.min(stmovFiles.length, 6); i++)` of
`parseTrackFile` over the entries still to load. -/
def trackLoop (decodeFloat32 : Nat → α) :
    List ZipEntry → Nat → ParserObject → List (TrackUnit α) →
      ParserObject × Except FileError (List (TrackUnit α))
  | [], _, this, units => (this, .ok units)
  | entry :: rest, i, this, units =>
    let r := parseUnitFileObj decodeFloat32 this entry.bytes
    match r.2 with
    | .error e => (r.1, .error (.unit e))
    | .ok unitData =>
      trackLoop decodeFloat32 rest (i + 1) r.1
        (units ++ [{ unitIndex := i, fileName := entry.name, stmovData := unitData }])

/-- The entries that `parseTrackFile` collects in `stmovFiles`, after the
sort. -/
def stmovFilesOf (files : List ZipEntry) : List ZipEntry :=
  (files.filter fun entry => endsWith entry.name ".stmov" && !entry.dir).insertionSort
    fun a b => suffixNumber a.name ≤ suffixNumber b.name

/-- The method `parseTrackFile(buffer)`. -/
def parseTrackFile (decodeFloat32 : Nat → α)
    (loadAsync : List Nat → Except FileError (List ZipEntry)) (this : ParserObject)
    (buffer : List Nat) : ParserObject × Except FileError (List (TrackUnit α)) :=
  match loadAsync buffer with
  | .error e => (this, .error e)
  | .ok files =>
    let stmovFiles := stmovFilesOf files
    let r := trackLoop decodeFloat32 (stmovFiles.take (min stmovFiles.length 6)) 0 this []
    match r.2 with
    | .error e => (r.1, .error e)
    | .ok units =>
      if units.length = 0 then (r.1, .error .noStmovFiles) else (r.1, .ok units)

/-- The part of `parseFile(file)` after `await file.arrayBuffer()`. -/
def parseFileBody (decodeFloat32 : Nat → α)
    (loadAsync : List Nat → Except FileError (List ZipEntry)) (this : ParserObject)
    (file : InputFile) : ParserObject × Except FileError (FileResult α) :=
  match isZipFile file.bytes with
  | .error e => (this, .error (.unit e))
  | .ok true =>
    let r := parseTrackFile decodeFloat32 loadAsync this file.bytes
    (r.1, r.2.map FileResult.track)
  | .ok false =>
    let r := parseUnitFileObj decodeFloat32 this file.bytes
    (r.1, (r.2.mapError FileError.unit).map FileResult.single)

/-- The method `parseFile(file)`: `reset()`, then the part after the first
`await`. -/
def parseFile (decodeFloat32 : Nat → α)
    (loadAsync : List Nat → Except FileError (List ZipEntry)) (this : ParserObject)
    (file : InputFile) : ParserObject × Except FileError (FileResult α) :=
  parseFileBody decodeFloat32 loadAsync (reset this) file

/-- The unit data that a holder of a returned unit object reads: the fields of
the object, with the current content of the version object it refers to. -/
def readUnit (this : ParserObject) (unit : UnitObject α) : UnitData α :=
  { unit.fields with version := readVersion this unit.version }

/-- The result of `parseFile` as the viewer receives it, read at the time the
call returns. -/
def readResult (this : ParserObject) : FileResult α → ParseResult α
  | .track units =>
    .track (units.map fun u =>
      { unitIndex := u.unitIndex, fileName := u.fileName,
        stmovData := readUnit this u.stmovData, frameCount := none })
  | .single unit => .single (readUnit this unit)

/-- The call `this.parser.parseFile(file)` as a function of the file, for a
parser in the state of a new one. -/
def parseFileNew (decodeFloat32 : Nat → α)
    (loadAsync : List Nat → Except FileError (List ZipEntry)) (file : InputFile) :
    Except FileError (ParseResult α) :=
  let r := parseFile decodeFloat32 loadAsync newParser file
  r.2.map (readResult r.1)

end ParserObjectModel

/-- A 108-byte unit file with the signature `STMOV\0`, the given version
bytes, declared frame count 0 and all other fields zero. -/
def versionedFile (major minor : Nat) : List Nat :=
  [83, 84, 77, 79, 86, 0, major, minor, 0, 0, 0, 0] ++ List.replicate 96 0

/-! ## The viewer: what a load request parses and reports -/

/-- A call of `showError` by `loadFiles`: the error for more than 6 files, the
error for more than 6 units in total, or the error for a failed load with the
exception caught. -/
inductive LoadReport (ε : Type) where
  | tooManyFiles : LoadReport ε
  | tooManyUnits : LoadReport ε
  | failed : ε → LoadReport ε
deriving DecidableEq

/-- What a call of `loadFiles` does besides changing the viewer: the files it
hands to `parseFile`, in call order, and its `showError` calls. -/
structure LoadTrace (ε : Type) where
  parsed : List InputFile
  reports : List (LoadReport ε)

section LoadTraceModel

variable {α : Type} [Field α]

/-- The method `loadFiles(files)` with its trace.  `files.map(async ...)`
calls `parseFile` for every file before `Promise.all` is awaited, so every file
is handed to the parser once the first check has passed. -/
def loadFilesTraced {ε : Type} (cos sin : α → α)
    (parseFile : InputFile → Except ε (ParseResult α)) (v : Viewer α)
    (files : List InputFile) (frameDrawTime now : ℚ) :
    (Viewer α × List (Nat × DecodedFrame α)) × LoadTrace ε :=
  if files.length > 6 then ((v, []), { parsed := [], reports := [.tooManyFiles] })
  else
    let v := { v with units := [] }
    match parseAll parseFile 0 files with
    | .error e => ((v, []), { parsed := files, reports := [.failed e] })
    | .ok unitArrays =>
      let v := { v with units := unitArrays.flatten }
      if v.units.length > 6 then ((v, []), { parsed := files, reports := [.tooManyUnits] })
      else
        let v := { v with units := v.units.map processUnitFrames }
        (displayFrame cos sin v 0 frameDrawTime now, { parsed := files, reports := [] })

end LoadTraceModel

/-- The entries of an archive with four unit files. -/
def fourUnitArchive : List ZipEntry :=
  [⟨"t-1.stmov", false, versionedFile 1 0⟩, ⟨"t-2.stmov", false, versionedFile 1 0⟩,
   ⟨"t-3.stmov", false, versionedFile 1 0⟩, ⟨"t-4.stmov", false, versionedFile 1 0⟩]

/-- The value that the constructor of the parser gives `parseSubsample`. -/
def defaultParseSubsample : Nat := 4

/-! ## The compression tag and the Node parser

The repository holds a second parser, `src/src/stmov-parser.js`, written for
Node.  Its `parse` reads the header with `parseHeader`, tests the signature
and then fills `frames` with generated sample data (drawn from
`Math.random()`, independent of the bytes after the header); the definitions
below give the header it returns, or the exception it raises. -/

/-- The expression `text.replace(/\0+$/, '')` on the bytes of a text: the NUL
bytes at the end are removed. -/
def dropTrailingNul (text : List Nat) : List Nat :=
  (text.reverse.dropWhile fun b => b = 0).reverse

/-- A 108-byte unit file with the signature `STMOV\0`, version 1.0, declared
frame count 0, the given 16 bytes in the compression-format field and all other
fields zero. -/
def taggedHeader (tag : List Nat) : List Nat :=
  [83, 84, 77, 79, 86, 0, 1, 0, 0, 0, 0, 0, 0, 0, 0, 0] ++ tag ++ List.replicate 76 0

namespace Node

/-- The exceptions of the Node parser: the `RangeError` of a read outside the
buffer and the error `Invalid STMOV file signature`. -/
inductive NodeError where
  | rangeError : NodeError
  | invalidSignature : NodeError
deriving DecidableEq

/-- The object returned by `parseHeader`. -/
structure Header (α : Type) where
  signature : List Nat
  version : Version
  frameCount : Nat
  totalTime : Nat
  compressionFormat : List Nat
  leftCamera : Camera α
  rightCamera : Camera α
  dotSize : α
  dataStartOffset : Nat

/-- A read of the Node parser: a `RangeError` stays a `RangeError`. -/
def read {β : Type} (r : Except ParseError β) : Except NodeError β :=
  r.mapError fun _ => NodeError.rangeError

section NodeParser

variable {α : Type}

/-- The method `parseCamera(view, offset)` of the Node parser. -/
def parseCamera (decodeFloat32 : Nat → α) (buffer : List Nat) (offset : Nat) :
    Except NodeError (Camera α) := do
  let px ← read (getFloat32 decodeFloat32 buffer offset)
  let py ← read (getFloat32 decodeFloat32 buffer (offset + 4))
  let pz ← read (getFloat32 decodeFloat32 buffer (offset + 8))
  let rx ← read (getFloat32 decodeFloat32 buffer (offset + 12))
  let ry ← read (getFloat32 decodeFloat32 buffer (offset + 16))
  let rz ← read (getFloat32 decodeFloat32 buffer (offset + 20))
  let sx ← read (getFloat32 decodeFloat32 buffer (offset + 24))
  let sy ← read (getFloat32 decodeFloat32 buffer (offset + 28))
  let sz ← read (getFloat32 decodeFloat32 buffer (offset + 32))
  pure { position := { x := px, y := py, z := pz }
         rotation := { x := rx, y := ry, z := rz }
         scale := { x := sx, y := sy, z := sz } }

/-- The method `parseHeader(buffer)` of the Node parser. -/
def parseHeader (decodeFloat32 : Nat → α) (buffer : List Nat) :
    Except NodeError (Header α) := do
  let offset := 0
  let signature ← read (newUint8Array buffer offset 6)
  let offset := offset + 6
  let major ← read (getUint8 buffer offset)
  let minor ← read (getUint8 buffer (offset + 1))
  let offset := offset + 2
  let frameCount ← read (getUint32 buffer offset)
  let offset := offset + 4
  let totalTime ← read (getUint32 buffer offset)
  let offset := offset + 4
  let compressionFormat ← read (newUint8Array buffer offset 16)
  let compressionFormat := dropTrailingNul compressionFormat
  let offset := offset + 16
  let leftCamera ← parseCamera decodeFloat32 buffer offset
  let offset := offset + 36
  let rightCamera ← parseCamera decodeFloat32 buffer offset
  let offset := offset + 36
  let dotSize ← read (getFloat32 decodeFloat32 buffer offset)
  let offset := offset + 4
  pure { signature := signature, version := { major := major, minor := minor },
         frameCount := frameCount, totalTime := totalTime,
         compressionFormat := compressionFormat, leftCamera := leftCamera,
         rightCamera := rightCamera, dotSize := dotSize, dataStartOffset := offset }

/-- The method `parse(buffer)` of the Node parser, as far as the bytes of the
buffer decide it: the exception it raises, or the `header` of the object it
returns.  The test `header.signature !== 'STMV  '` compares the six signature
bytes with the ASCII codes of `STMV` followed by two spaces. -/
def parse (decodeFloat32 : Nat → α) (buffer : List Nat) : Except NodeError (Header α) := do
  let header ← parseHeader decodeFloat32 buffer
  if header.signature ≠ [83, 84, 77, 86, 32, 32] then
    throw NodeError.invalidSignature
  pure header

end NodeParser

end Node

/-! ## Windows of the most recent elements (specification side) -/

/-- The last `K` elements of a list, in order (the whole list when it has
fewer). -/
def lastN {β : Type} (K : Nat) (l : List β) : List β := l.drop (l.length - K)

/-- The value of the local constant `avgFrameTime` in a call of
`updateDrawInterval(frameDrawTime)`: it is computed from the history after the
push and the shift, before the debounce test. -/
def avgFrameTime (s : LodState) (frameDrawTime : ℚ) : ℚ :=
  let frameTimeHistory := s.frameTimeHistory ++ [frameDrawTime]
  let frameTimeHistory :=
    if frameTimeHistory.length > 10 then frameTimeHistory.tail else frameTimeHistory
  frameTimeHistory.foldl (fun a b => a + b) 0 / (frameTimeHistory.length : ℚ)

/-- The draw times passed to `updateDrawInterval` by a sequence of calls, in
arrival order. -/
def lodSamples : List LodCall → List ℚ
  | [] => []
  | .update frameDrawTime _ :: rest => frameDrawTime :: lodSamples rest
  | .slider _ :: rest => lodSamples rest

/-- The insertions that take effect in a sequence of `addFrameToCache` calls
with the given keys on a cache of capacity `K`, in order: a call takes effect
when its key is not among the last `K` keys that took effect before it. -/
def effectiveInsertions {κ : Type} [DecidableEq κ] (K : Nat) (keys : List κ) : List κ :=
  keys.foldl (fun done key => if key ∈ lastN K done then done else done ++ [key]) []

/-- The keys of a sequence of insertions in the order in which they were first
inserted. -/
def firstInsertionOrder {κ : Type} [DecidableEq κ] : List κ → List κ
  | [] => []
  | key :: rest => key :: (firstInsertionOrder rest).filter fun k => k ≠ key

/-! ## The viewer: playback position

The playback methods read the clock: `togglePlayback` and `updatePlayback` call
`performance.now()` (argument `now`), and each `displayFrame` they call measures
its draw time and reads the clock for the draw-interval controller (arguments
`frameDrawTime` and `drawNow`).  The frame-rate display (`fpsHistory`,
`lastFpsUpdateTime`) and the buttons are outside the model. -/

/-- The viewer with its playback fields `isPlaying`, `frameRate` and
`lastFrameTime`. -/
structure Player (α : Type) where
  viewer : Viewer α
  isPlaying : Bool
  frameRate : ℚ
  lastFrameTime : ℚ

/-- A playback step: its arguments, then the clock values it reads. -/
inductive PlaybackCall where
  | seekToFrame : Int → ℚ → ℚ → PlaybackCall
  | stepFrame : Int → ℚ → ℚ → PlaybackCall
  | togglePlayback : ℚ → ℚ → ℚ → PlaybackCall
  | updatePlayback : ℚ → ℚ → ℚ → PlaybackCall

section PlaybackModel

variable {α : Type} [Field α]

/-- The method `isAtLastFrame()`. -/
def isAtLastFrame (p : Player α) : Bool :=
  let maxFrames : Int := (getMaxFrames p.viewer.units : Int)
  decide (p.viewer.currentFrame ≥ maxFrames - 1)

/-- The method `stopPlayback()`. -/
def stopPlayback (p : Player α) : Player α :=
  { p with isPlaying := false }

/-- The method `togglePlayback()`. -/
def togglePlayback (cos sin : α → α) (p : Player α) (now frameDrawTime drawNow : ℚ) :
    Player α :=
  if p.viewer.units.length = 0 then p
  else
    let p :=
      if (!p.isPlaying && isAtLastFrame p) = true then
        { p with viewer :=
            (displayFrame cos sin { p.viewer with currentFrame := 0 } 0 frameDrawTime drawNow).1 }
      else p
    let p := { p with isPlaying := !p.isPlaying }
    if p.isPlaying = true then { p with lastFrameTime := now } else p

/-- The method `seekToFrame(frameIndex)` for an integer `frameIndex`. -/
def seekToFrame (cos sin : α → α) (p : Player α) (frameIndex : Int)
    (frameDrawTime drawNow : ℚ) : Player α :=
  if p.viewer.units.length = 0 then p
  else
    let maxFrames : Int := (getMaxFrames p.viewer.units : Int)
    let frameIndex := max 0 (min frameIndex (maxFrames - 1))
    { p with viewer := (displayFrame cos sin p.viewer frameIndex frameDrawTime drawNow).1 }

/-- The method `stepFrame(direction)`. -/
def stepFrame (cos sin : α → α) (p : Player α) (direction : Int)
    (frameDrawTime drawNow : ℚ) : Player α :=
  if p.viewer.units.length = 0 then p
  else
    let maxFrames : Int := (getMaxFrames p.viewer.units : Int)
    let newFrame := p.viewer.currentFrame + direction
    if newFrame ≥ 0 ∧ newFrame < maxFrames then
      { p with viewer :=
          (displayFrame cos sin { p.viewer with currentFrame := newFrame } newFrame
            frameDrawTime drawNow).1 }
    else p

/-- The method `updatePlayback()`. -/
def updatePlayback (cos sin : α → α) (p : Player α) (now frameDrawTime drawNow : ℚ) :
    Player α :=
  if (!p.isPlaying) = true ∨ p.viewer.units.length = 0 then p
  else
    let deltaTime := now - p.lastFrameTime
    let frameInterval := 1000 / p.frameRate
    if deltaTime ≥ frameInterval then
      let currentFrame := p.viewer.currentFrame + 1
      let maxFrames : Int := (getMaxFrames p.viewer.units : Int)
      if currentFrame ≥ maxFrames then
        let currentFrame := maxFrames - 1
        stopPlayback { p with viewer :=
          (displayFrame cos sin { p.viewer with currentFrame := currentFrame } currentFrame
            frameDrawTime drawNow).1 }
      else
        { p with
          viewer :=
            (displayFrame cos sin { p.viewer with currentFrame := currentFrame } currentFrame
              frameDrawTime drawNow).1
          lastFrameTime := p.lastFrameTime + frameInterval }
    else p

/-- The player after a playback step. -/
def playbackStep (cos sin : α → α) (p : Player α) : PlaybackCall → Player α
  | .seekToFrame frameIndex frameDrawTime drawNow =>
    seekToFrame cos sin p frameIndex frameDrawTime drawNow
  | .stepFrame direction frameDrawTime drawNow =>
    stepFrame cos sin p direction frameDrawTime drawNow
  | .togglePlayback now frameDrawTime drawNow =>
    togglePlayback cos sin p now frameDrawTime drawNow
  | .updatePlayback now frameDrawTime drawNow =>
    updatePlayback cos sin p now frameDrawTime drawNow

/-- The player after a sequence of playback steps. -/
def playbackRun (cos sin : α → α) (p : Player α) (calls : List PlaybackCall) : Player α :=
  calls.foldl (playbackStep cos sin) p

end PlaybackModel

/-- The player of a viewer right after its constructor: not playing, 30 frames
per second. -/
def newPlayer (v : Viewer ℚ) : Player ℚ :=
  { viewer := v, isPlaying := false, frameRate := 30, lastFrameTime := 0 }

/-- The entries of an archive with two one-frame unit files; the frame of the
second one holds two samples. -/
def twoUnitArchive : List ZipEntry :=
  [⟨"t-1.stmov", false, (oneFrameFile "t-1.stmov" [100, 0]).bytes⟩,
   ⟨"t-2.stmov", false, (oneFrameFile "t-2.stmov" [100, 4]).bytes⟩]

/-! ## Theorems -/

section ListLemmas

variable {α : Type}

theorem flatten3_nil : flatten3 ([] : List (Vec3 α)) = [] := rfl

theorem flatten3_cons (w : Vec3 α) (ws : List (Vec3 α)) :
    flatten3 (w :: ws) = [w.x, w.y, w.z] ++ flatten3 ws := by
  simp [flatten3]

theorem flatten3_length (ws : List (Vec3 α)) : (flatten3 ws).length = 3 * ws.length := by
  induction ws with
  | nil => rfl
  | cons w ws ih => rw [flatten3_cons]; simp [ih]; omega

theorem flatten3_append (a b : List (Vec3 α)) :
    flatten3 (a ++ b) = flatten3 a ++ flatten3 b := by
  simp [flatten3]

theorem pushCapped_append (a b : List (Vec3 α)) (points : List α) :
    pushCapped (a ++ b) points =
      if (pushCapped a points).2 then pushCapped a points
      else pushCapped b (pushCapped a points).1 := by
  induction a generalizing points with
  | nil => simp [pushCapped]
  | cons w ws ih =>
    simp only [List.cons_append, pushCapped]
    split
    · simp
    · exact ih _

/-- The array built by `pushCapped` from an array of `k` whole points below the
cap: the first `166667 - k` further points are appended. -/
theorem pushCapped_fst (ws : List (Vec3 α)) (points : List α) (k : Nat)
    (hlen : points.length = 3 * k) (hk : 3 * k < MAX_POINTS_PER_FRAME) :
    (pushCapped ws points).1 = points ++ flatten3 (ws.take (166667 - k)) := by
  induction ws generalizing points k with
  | nil => simp [pushCapped, flatten3_nil]
  | cons w ws ih =>
    have hpos : 166667 - k = (166667 - (k + 1)) + 1 := by
      unfold MAX_POINTS_PER_FRAME at hk; omega
    simp only [pushCapped]
    rw [hpos, List.take_succ_cons, flatten3_cons]
    split
    · rename_i hge
      have : 166667 - (k + 1) = 0 := by
        simp only [List.length_append, List.length_cons, List.length_nil] at hge
        unfold MAX_POINTS_PER_FRAME at hge hk; omega
      simp [this, flatten3_nil]
    · rename_i hlt
      have h1 : (points ++ [w.x, w.y, w.z]).length = 3 * (k + 1) := by simp [hlen]; omega
      have h2 : 3 * (k + 1) < MAX_POINTS_PER_FRAME := by
        rw [← h1]; omega
      rw [ih _ (k + 1) h1 h2]
      simp

end ListLemmas

section DecoderLemmas

variable {α : Type} [Field α]

theorem runLoop_eq (cos sin : α → α) (n : Nat) (l r : Option (Camera α)) (depth : Nat)
    (isLeft : Bool) (j count : Nat) (points : List α) :
    (runLoop cos sin n l r depth isLeft j count points).2 =
        pushCapped (((runSamples depth isLeft j count).filter
          fun s => s.counter % n = 0).map (samplePoint cos sin l r)) points
      ∧ ((runLoop cos sin n l r depth isLeft j count points).2.2 = false →
          (runLoop cos sin n l r depth isLeft j count points).1 =
            count + (runSamples depth isLeft j count).length) := by
  induction j generalizing count points with
  | zero => simp [runLoop, runSamples, pushCapped]
  | succ j ih =>
    unfold runLoop runSamples
    by_cases hc : count ≥ 640 * 480
    · simp [hc, pushCapped]
    · rw [if_neg hc, if_neg hc]
      by_cases hk : (count + 1) % n ≠ 0
      · have hk2 : ¬ ((count + 1) % n = 0) := hk
        simp only [if_pos hk, List.filter_cons, hk2, decide_False, Bool.false_eq_true,
          if_false, List.length_cons]
        refine ⟨(ih (count + 1) points).1, fun h => ?_⟩
        rw [(ih (count + 1) points).2 h]; omega
      · have hk2 : (count + 1) % n = 0 := by simpa using hk
        rw [if_neg hk]
        simp only [List.filter_cons, hk2, decide_True, if_true, List.map_cons,
          pushCapped, samplePoint, Sample.pixelX, Sample.pixelY, List.length_cons]
        split
        · simp
        · refine ⟨(ih _ _).1, fun h => ?_⟩
          rw [(ih _ _).2 h]; omega

theorem runSamples_length (depth : Nat) (isLeft : Bool) (j count : Nat) :
    (runSamples depth isLeft j count).length = min j (640 * 480 - count) := by
  induction j generalizing count with
  | zero => simp [runSamples]
  | succ j ih =>
    unfold runSamples
    split
    · simp only [List.length_nil]; omega
    · simp only [List.length_cons, ih]; omega

theorem chunkRun_eq (cos sin : α → α) (n : Nat) (l r : Option (Camera α))
    (first second : Nat) (st : DecodeState α) :
    (chunkRun cos sin n l r first second st).2 =
        pushCapped (((chunkSamples first second st.count st.isLeftScreen).filter
          fun s => s.counter % n = 0).map (samplePoint cos sin l r)) st.points
      ∧ ((chunkRun cos sin n l r first second st).2.2 = false →
          (chunkRun cos sin n l r first second st).1 = chunkCount first second st.count) := by
  unfold chunkRun chunkSamples chunkCount
  by_cases hr : 0 < chunkDepth first second ∧ chunkDepth first second < 8000
  · have hr2 : chunkDepth first second > 0 ∧ chunkDepth first second < 8000 := hr
    simp only [if_pos hr, if_pos hr2]
    rw [← runSamples_length (chunkDepth first second) st.isLeftScreen]
    exact runLoop_eq cos sin n l r _ _ _ _ _
  · have hr2 : ¬ (chunkDepth first second > 0 ∧ chunkDepth first second < 8000) := hr
    simp only [if_neg hr, if_neg hr2]
    simp [pushCapped]

theorem chunkBody_returned (cos sin : α → α) (n : Nat) (l r : Option (Camera α))
    (first second : Nat) (st : DecodeState α)
    (h : (chunkRun cos sin n l r first second st).2.2 = true) :
    chunkBody cos sin n l r first second st =
      ({ count := (chunkRun cos sin n l r first second st).1,
         isLeftScreen := st.isLeftScreen,
         points := (chunkRun cos sin n l r first second st).2.1 }, true) := by
  simp only [chunkBody, h, if_true]

theorem chunkBody_switch (cos sin : α → α) (n : Nat) (l r : Option (Camera α))
    (first second : Nat) (st : DecodeState α)
    (h : (chunkRun cos sin n l r first second st).2.2 = false)
    (hw : (chunkRun cos sin n l r first second st).1 ≥ 640 * 480)
    (hl : st.isLeftScreen = true) :
    chunkBody cos sin n l r first second st =
      ({ count := 0, isLeftScreen := false,
         points := (chunkRun cos sin n l r first second st).2.1 }, false) := by
  simp [chunkBody, h, hw, hl]

theorem chunkBody_stop (cos sin : α → α) (n : Nat) (l r : Option (Camera α))
    (first second : Nat) (st : DecodeState α)
    (h : (chunkRun cos sin n l r first second st).2.2 = false)
    (hw : (chunkRun cos sin n l r first second st).1 ≥ 640 * 480)
    (hl : st.isLeftScreen = false) :
    chunkBody cos sin n l r first second st =
      ({ count := (chunkRun cos sin n l r first second st).1, isLeftScreen := false,
         points := (chunkRun cos sin n l r first second st).2.1 }, true) := by
  simp [chunkBody, h, hw, hl]

theorem chunkBody_continue (cos sin : α → α) (n : Nat) (l r : Option (Camera α))
    (first second : Nat) (st : DecodeState α)
    (h : (chunkRun cos sin n l r first second st).2.2 = false)
    (hw : ¬ (chunkRun cos sin n l r first second st).1 ≥ 640 * 480) :
    chunkBody cos sin n l r first second st =
      ({ count := (chunkRun cos sin n l r first second st).1,
         isLeftScreen := st.isLeftScreen,
         points := (chunkRun cos sin n l r first second st).2.1 }, false) := by
  simp [chunkBody, h, hw]

theorem decodeLoop_cons (cos sin : α → α) (n : Nat) (l r : Option (Camera α))
    (first second : Nat) (rest : List Nat) (st : DecodeState α) :
    decodeLoop cos sin n l r (first :: second :: rest) st =
      if (chunkBody cos sin n l r first second st).2 then
        (chunkBody cos sin n l r first second st).1
      else decodeLoop cos sin n l r rest (chunkBody cos sin n l r first second st).1 := by
  rw [decodeLoop]

theorem decodeLoop_points (cos sin : α → α) (n : Nat) (l r : Option (Camera α))
    (payload : List Nat) (st : DecodeState α) :
    (decodeLoop cos sin n l r payload st).points =
      (pushCapped (((samplesFrom payload st.count st.isLeftScreen).filter
        fun s => s.counter % n = 0).map (samplePoint cos sin l r)) st.points).1 := by
  generalize hlen : payload.length = m
  induction m using Nat.strong_induction_on generalizing payload st with
  | _ m ih =>
    match payload, hlen with
    | [], _ => simp [decodeLoop, samplesFrom, pushCapped]
    | [_], _ => simp [decodeLoop, samplesFrom, pushCapped]
    | first :: second :: rest, hlen =>
      have ih2 := fun st2 => ih rest.length (by simp at hlen; omega) rest st2 rfl
      obtain ⟨h1, h2⟩ := chunkRun_eq cos sin n l r first second st
      rw [decodeLoop_cons, samplesFrom]
      cases hret : (chunkRun cos sin n l r first second st).2.2 with
      | true =>
        have hp : pushCapped (((chunkSamples first second st.count st.isLeftScreen).filter
            fun s => s.counter % n = 0).map (samplePoint cos sin l r)) st.points
            = ((chunkRun cos sin n l r first second st).2.1, true) := by
          rw [← h1, ← hret]
        rw [chunkBody_returned _ _ _ _ _ _ _ _ hret]
        dsimp only
        rw [if_pos rfl]
        split_ifs <;> simp [List.filter_append, List.map_append, pushCapped_append, hp]
      | false =>
        have hp : pushCapped (((chunkSamples first second st.count st.isLeftScreen).filter
            fun s => s.counter % n = 0).map (samplePoint cos sin l r)) st.points
            = ((chunkRun cos sin n l r first second st).2.1, false) := by
          rw [← h1, ← hret]
        have hc := h2 hret
        by_cases hw : (chunkRun cos sin n l r first second st).1 ≥ 640 * 480
        · cases hl : st.isLeftScreen with
          | true =>
            rw [chunkBody_switch _ _ _ _ _ _ _ _ hret hw hl]
            rw [hc] at hw
            rw [hl] at hp
            simp [hw, ih2, List.filter_append, List.map_append, pushCapped_append, hp]
          | false =>
            rw [chunkBody_stop _ _ _ _ _ _ _ _ hret hw hl]
            rw [hc] at hw
            rw [hl] at hp
            simp [hw, hp]
        · rw [chunkBody_continue _ _ _ _ _ _ _ _ hret hw]
          rw [hc] at hw
          simp [hw, ih2, List.filter_append, List.map_append, pushCapped_append, hp, hc]

/-- The array returned by `decompressFrame` is the flat array of the world
points of the first 166667 kept samples of the payload. -/
theorem decompressFrame_eq (cos sin : α → α) (n : Nat) (frameData : List Nat)
    (l r : Option (Camera α)) :
    decompressFrame cos sin n frameData l r =
      flatten3 (((keptSamples n frameData).map (samplePoint cos sin l r)).take 166667) := by
  unfold decompressFrame
  split
  · rename_i h
    have : frameData = [] := List.length_eq_zero.mp h
    subst this
    simp [keptSamples, samples, samplesFrom, flatten3_nil]
  · rw [decodeLoop_points]
    rw [pushCapped_fst _ _ 0 (by simp) (by unfold MAX_POINTS_PER_FRAME; omega)]
    simp [keptSamples, samples]

/-- The samples of a run in closed form: the counter values
`count + 1, ..., count + min j (640 * 480 - count)`. -/
theorem runSamples_eq_range (depth : Nat) (isLeft : Bool) (j count : Nat) :
    runSamples depth isLeft j count =
      (List.range (min j (640 * 480 - count))).map fun k =>
        { counter := count + k + 1, isLeft := isLeft, depth := depth } := by
  induction j generalizing count with
  | zero => simp [runSamples]
  | succ j ih =>
    unfold runSamples
    by_cases hc : count ≥ 640 * 480
    · rw [if_pos hc]
      have : min (j + 1) (640 * 480 - count) = 0 := by omega
      rw [this]
      rfl
    · rw [if_neg hc]
      have : min (j + 1) (640 * 480 - count) = min j (640 * 480 - (count + 1)) + 1 := by omega
      rw [this, List.range_succ_eq_map, List.map_cons, List.map_map, ih (count + 1)]
      congr 1
      apply List.map_congr_left
      intro k _
      simp only [Function.comp, Sample.mk.injEq, and_true]
      omega

theorem runSamples_isLeft (depth : Nat) (isLeft : Bool) (j count : Nat) :
    ∀ s ∈ runSamples depth isLeft j count, s.isLeft = isLeft := by
  induction j generalizing count with
  | zero => simp [runSamples]
  | succ j ih =>
    unfold runSamples
    split
    · simp
    · intro s hs
      rcases List.mem_cons.mp hs with h | h
      · rw [h]
      · exact ih _ s h

theorem chunkSamples_isLeft (first second count : Nat) (isLeft : Bool) :
    ∀ s ∈ chunkSamples first second count isLeft, s.isLeft = isLeft := by
  unfold chunkSamples
  split
  · exact runSamples_isLeft _ _ _ _
  · simp

theorem samplesFrom_right (payload : List Nat) (count : Nat) :
    ∀ s ∈ samplesFrom payload count false, s.isLeft = false := by
  generalize hlen : payload.length = m
  induction m using Nat.strong_induction_on generalizing payload count with
  | _ m ih =>
    match payload, hlen with
    | [], _ => simp [samplesFrom]
    | [_], _ => simp [samplesFrom]
    | first :: second :: rest, hlen =>
      have ih2 := fun c => ih rest.length (by simp at hlen; omega) rest c rfl
      rw [samplesFrom]
      intro s hs
      simp only [Bool.false_eq_true, if_false] at hs
      split_ifs at hs
      · exact chunkSamples_isLeft _ _ _ _ s hs
      · rcases List.mem_append.mp hs with h | h
        · exact chunkSamples_isLeft _ _ _ _ s h
        · exact ih2 _ s h

theorem filter_eq_self_of_forall {β : Type} (p : β → Bool) (xs : List β)
    (h : ∀ x ∈ xs, p x = true) : xs.filter p = xs :=
  List.filter_eq_self.mpr h

theorem filter_eq_nil_of_forall {β : Type} (p : β → Bool) (xs : List β)
    (h : ∀ x ∈ xs, p x = false) : xs.filter p = [] := by
  apply List.filter_eq_nil_iff.mpr
  intro x hx
  simp [h x hx]

/-- The sample stream of a payload lists every left-screen sample before every
right-screen sample. -/
theorem samplesFrom_split (payload : List Nat) (count : Nat) (isLeft : Bool) :
    samplesFrom payload count isLeft =
      (samplesFrom payload count isLeft).filter (fun s => s.isLeft)
        ++ (samplesFrom payload count isLeft).filter (fun s => !s.isLeft) := by
  cases isLeft with
  | false =>
    have h := samplesFrom_right payload count
    rw [filter_eq_nil_of_forall _ _ h,
      filter_eq_self_of_forall _ _ (fun s hs => by simp [h s hs])]
    simp
  | true =>
    generalize hlen : payload.length = m
    induction m using Nat.strong_induction_on generalizing payload count with
    | _ m ih =>
      match payload, hlen with
      | [], _ => simp [samplesFrom]
      | [_], _ => simp [samplesFrom]
      | first :: second :: rest, hlen =>
        have ih2 := fun c => ih rest.length (by simp at hlen; omega) rest c rfl
        have hh := chunkSamples_isLeft first second count true
        have h1 := filter_eq_self_of_forall (fun s : Sample => s.isLeft) _ hh
        have h2 := filter_eq_nil_of_forall (fun s : Sample => !s.isLeft)
          (chunkSamples first second count true) (fun s hs => by simp [hh s hs])
        rw [samplesFrom]
        simp only [if_true]
        split_ifs
        · have h := samplesFrom_right rest 0
          have h3 := filter_eq_nil_of_forall (fun s : Sample => s.isLeft) _ h
          have h4 := filter_eq_self_of_forall (fun s : Sample => !s.isLeft)
            (samplesFrom rest 0 false) (fun s hs => by simp [h s hs])
          rw [List.filter_append, List.filter_append, h1, h2, h3, h4]
          simp
        · rw [List.filter_append, List.filter_append, h1, h2, List.nil_append,
            List.append_assoc, ← ih2]

end DecoderLemmas

/-! ## Chunk arithmetic -/

theorem chunkDepth_eq (b0 b1 : Nat) (h0 : b0 ≤ 255) :
    (b0 ||| ((b1 &&& 0x03) <<< 8)) = b0 + 256 * (b1 % 4)
      ∧ chunkDepth b0 b1 = (b0 + 256 * (b1 % 4)) * 2502 / 256 := by
  have h3 : b1 &&& 3 = b1 % 4 := Nat.and_pow_two_sub_one_eq_mod b1 2
  have h4 : 2 ^ 8 * (b1 % 4) + b0 = 2 ^ 8 * (b1 % 4) ||| b0 :=
    Nat.mul_add_lt_is_or (by omega) _
  have h5 : (b0 ||| ((b1 &&& 0x03) <<< 8)) = b0 + 256 * (b1 % 4) := by
    rw [h3, Nat.shiftLeft_eq, Nat.or_comm, Nat.mul_comm (b1 % 4), ← h4]
    omega
  refine ⟨h5, ?_⟩
  unfold chunkDepth
  rw [h5, Nat.shiftRight_eq_div_pow]

/-- C1: for chunk bytes `b0, b1 ≤ 255` the run length `(b1 >> 2) + 1` equals
`floor(b1 / 4) + 1` and lies in `1..64`; the 10-bit value
`b0 | ((b1 & 3) << 8)` equals `v = b0 + 256 * (b1 mod 4)`, the product
`v * 2502` stays below `2 ^ 31` (the 32-bit shift is exact), and the depth is
`floor(v * 2502 / 256)`; the bytes `(0xFF, 0x03)` give run length 1 and depth
9998. -/
theorem chunk_bit_arithmetic (b0 b1 : Nat) (h0 : b0 ≤ 255) (h1 : b1 ≤ 255) :
    runLength b1 = b1 / 4 + 1
      ∧ 1 ≤ runLength b1 ∧ runLength b1 ≤ 64
      ∧ (b0 ||| ((b1 &&& 0x03) <<< 8)) = b0 + 256 * (b1 % 4)
      ∧ (b0 + 256 * (b1 % 4)) * 2502 < 2 ^ 31
      ∧ chunkDepth b0 b1 = (b0 + 256 * (b1 % 4)) * 2502 / 256
      ∧ runLength 0x03 = 1 ∧ chunkDepth 0xFF 0x03 = 9998 := by
  have hr : runLength b1 = b1 / 4 + 1 := by
    unfold runLength
    rw [Nat.shiftRight_eq_div_pow]
  refine ⟨hr, ?_, ?_, (chunkDepth_eq b0 b1 h0).1, ?_, (chunkDepth_eq b0 b1 h0).2, ?_, ?_⟩
  · omega
  · omega
  · omega
  · decide
  · decide

theorem chunk_bit_arithmetic_witness :
    (0xFF ≤ 255 ∧ 0x03 ≤ 255) ∧ runLength 0x03 = 1 ∧ chunkDepth 0xFF 0x03 = 9998 :=
  ⟨⟨by decide, by decide⟩,
    (chunk_bit_arithmetic 0xFF 0x03 (by decide) (by decide)).2.2.2.2.2.2⟩


/-! ## Frame decompressor: decimation, screen switch, point cap -/

section DecoderClaims

variable {α : Type} [Field α]

theorem samplePoint_map_left (cos sin : α → α) (l r : Option (Camera α)) (xs : List Sample)
    (h : ∀ s ∈ xs, s.isLeft = true) :
    xs.map (samplePoint cos sin l r) =
      xs.map fun s => transformSTClientCompliant cos sin ((s.counter - 1) % 640)
        ((s.counter - 1) / 640) s.depth true l r := by
  apply List.map_congr_left
  intro s hs
  simp [samplePoint, Sample.pixelX, Sample.pixelY, h s hs]

theorem samplePoint_map_right (cos sin : α → α) (l r : Option (Camera α)) (xs : List Sample)
    (h : ∀ s ∈ xs, s.isLeft = false) :
    xs.map (samplePoint cos sin l r) =
      xs.map fun s => transformSTClientCompliant cos sin ((s.counter - 1) % 640)
        ((s.counter - 1) / 640) s.depth false l r := by
  apply List.map_congr_left
  intro s hs
  simp [samplePoint, Sample.pixelX, Sample.pixelY, h s hs]

/-- C2: when the point cap is not reached, the array returned by
`decompressFrame` for a parse-time stride `n` consists, screen by screen and
in stream order, of the transforms of exactly the in-range samples whose
pixel counter `c` is a multiple of `n`, each at pixel
`((c - 1) mod 640, floor((c - 1) / 640))` with the depth of its chunk: first
those of the left screen (transformed with the left flag), then those of the
right screen; no sample with `c mod n ≠ 0` is emitted. -/
theorem decompressFrame_decimation (cos sin : α → α) (n : Nat) (frameData : List Nat)
    (l r : Option (Camera α))
    (hcap : 3 * (keptSamples n frameData).length < MAX_POINTS_PER_FRAME) :
    decompressFrame cos sin n frameData l r =
      flatten3 ((((samples frameData).filter fun s => s.isLeft).filter
          fun s => s.counter % n = 0).map
        fun s => transformSTClientCompliant cos sin ((s.counter - 1) % 640)
          ((s.counter - 1) / 640) s.depth true l r)
      ++ flatten3 ((((samples frameData).filter fun s => !s.isLeft).filter
          fun s => s.counter % n = 0).map
        fun s => transformSTClientCompliant cos sin ((s.counter - 1) % 640)
          ((s.counter - 1) / 640) s.depth false l r) := by
  have hlen : (keptSamples n frameData).length ≤ 166667 := by
    unfold MAX_POINTS_PER_FRAME at hcap; omega
  rw [decompressFrame_eq, List.take_of_length_le (by simpa using hlen)]
  have hsplit := samplesFrom_split frameData 0 true
  unfold keptSamples
  rw [← flatten3_append,
    ← samplePoint_map_left cos sin l r _ (by
      intro s hs
      have := (List.mem_filter.mp hs).1
      simpa using (List.mem_filter.mp this).2),
    ← samplePoint_map_right cos sin l r _ (by
      intro s hs
      have := (List.mem_filter.mp hs).1
      simpa using (List.mem_filter.mp this).2),
    ← List.map_append, ← List.filter_append]
  unfold samples
  rw [← hsplit]

theorem decompressFrame_decimation_witness :
    3 * (keptSamples 2 [100, 12, 0, 0, 50, 4]).length < MAX_POINTS_PER_FRAME
      ∧ decompressFrame (fun _ : ℚ => 1) (fun _ : ℚ => 0) 2 [100, 12, 0, 0, 50, 4] none none =
        flatten3 ((((samples [100, 12, 0, 0, 50, 4]).filter fun s => s.isLeft).filter
            fun s => s.counter % 2 = 0).map
          fun s => transformSTClientCompliant (fun _ : ℚ => 1) (fun _ : ℚ => 0)
            ((s.counter - 1) % 640) ((s.counter - 1) / 640) s.depth true none none)
        ++ flatten3 ((((samples [100, 12, 0, 0, 50, 4]).filter fun s => !s.isLeft).filter
            fun s => s.counter % 2 = 0).map
          fun s => transformSTClientCompliant (fun _ : ℚ => 1) (fun _ : ℚ => 0)
            ((s.counter - 1) % 640) ((s.counter - 1) / 640) s.depth false none none) :=
  ⟨by decide, decompressFrame_decimation _ _ 2 [100, 12, 0, 0, 50, 4] none none (by decide)⟩

theorem samplesFrom_head_after_switch (first second : Nat) (rest : List Nat)
    (h : 0 < chunkDepth first second ∧ chunkDepth first second < 8000) :
    ∃ tail, samplesFrom (first :: second :: rest) 0 false =
      { counter := 1, isLeft := false, depth := chunkDepth first second } :: tail := by
  have hrun : ∃ t, chunkSamples first second 0 false =
      { counter := 1, isLeft := false, depth := chunkDepth first second } :: t := by
    unfold chunkSamples runLength
    rw [if_pos h]
    exact ⟨runSamples (chunkDepth first second) false (second >>> 2) 1, by simp [runSamples]⟩
  obtain ⟨t, ht⟩ := hrun
  rw [samplesFrom]
  simp only [Bool.false_eq_true, if_false, ht]
  split_ifs
  · exact ⟨_, rfl⟩
  · exact ⟨_, List.cons_append _ _ _⟩

/-- C3: if, in a state whose screen flag is left, the chunk brings the pixel
counter to `640 * 480` or beyond (and the point cap does not end the decode),
then the iteration ends with the flag right and the counter 0 and the loop
goes on with the next chunk from that state; the samples of the chunk itself
are transformed with the left flag; every sample of the remaining payload is
transformed with the right flag; and if the next chunk is in range its first
sample gets counter 1, which is pixel (0, 0).  For every whole frame the
points transformed with the left flag all precede those transformed with the
right flag. -/
theorem screen_switch (cos sin : α → α) (n : Nat) (l r : Option (Camera α))
    (first second : Nat) (rest : List Nat) (st : DecodeState α)
    (hleft : st.isLeftScreen = true)
    (hret : (chunkRun cos sin n l r first second st).2.2 = false)
    (hreach : (chunkRun cos sin n l r first second st).1 ≥ 640 * 480) :
    chunkBody cos sin n l r first second st =
        ({ count := 0, isLeftScreen := false,
           points := (chunkRun cos sin n l r first second st).2.1 }, false)
      ∧ decodeLoop cos sin n l r (first :: second :: rest) st =
          decodeLoop cos sin n l r rest
            { count := 0, isLeftScreen := false,
              points := (chunkRun cos sin n l r first second st).2.1 }
      ∧ (chunkRun cos sin n l r first second st).2.1 =
          (pushCapped (((chunkSamples first second st.count true).filter
              fun s => s.counter % n = 0).map
            fun s => transformSTClientCompliant cos sin ((s.counter - 1) % 640)
              ((s.counter - 1) / 640) s.depth true l r) st.points).1
      ∧ (decodeLoop cos sin n l r rest
            { count := 0, isLeftScreen := false,
              points := (chunkRun cos sin n l r first second st).2.1 }).points =
          (pushCapped (((samplesFrom rest 0 false).filter fun s => s.counter % n = 0).map
            fun s => transformSTClientCompliant cos sin ((s.counter - 1) % 640)
              ((s.counter - 1) / 640) s.depth false l r)
            (chunkRun cos sin n l r first second st).2.1).1
      ∧ (∀ f2 s2 rest2, rest = f2 :: s2 :: rest2 →
          0 < chunkDepth f2 s2 ∧ chunkDepth f2 s2 < 8000 →
          ∃ tail, samplesFrom rest 0 false =
              { counter := 1, isLeft := false, depth := chunkDepth f2 s2 } :: tail
            ∧ Sample.pixelX { counter := 1, isLeft := false, depth := chunkDepth f2 s2 } = 0
            ∧ Sample.pixelY { counter := 1, isLeft := false, depth := chunkDepth f2 s2 } = 0)
      ∧ (∀ frameData : List Nat,
          decompressFrame cos sin n frameData l r =
            flatten3 (List.take 166667
              (((((samples frameData).filter fun s => s.isLeft).filter
                  fun s => s.counter % n = 0).map
                fun s => transformSTClientCompliant cos sin ((s.counter - 1) % 640)
                  ((s.counter - 1) / 640) s.depth true l r)
              ++ ((((samples frameData).filter fun s => !s.isLeft).filter
                  fun s => s.counter % n = 0).map
                fun s => transformSTClientCompliant cos sin ((s.counter - 1) % 640)
                  ((s.counter - 1) / 640) s.depth false l r)))) := by
  have hbody := chunkBody_switch cos sin n l r first second st hret hreach hleft
  refine ⟨hbody, ?_, ?_, ?_, ?_, ?_⟩
  · rw [decodeLoop_cons, hbody]
    simp
  · rw [(chunkRun_eq cos sin n l r first second st).1, hleft,
      samplePoint_map_left cos sin l r _ (by
        intro s hs
        exact chunkSamples_isLeft _ _ _ _ s (List.mem_filter.mp hs).1)]
  · rw [decodeLoop_points]
    dsimp only
    rw [samplePoint_map_right cos sin l r _ (by
        intro s hs
        exact samplesFrom_right _ _ s (List.mem_filter.mp hs).1)]
  · intro f2 s2 rest2 hrest hin
    subst hrest
    obtain ⟨tail, ht⟩ := samplesFrom_head_after_switch f2 s2 rest2 hin
    exact ⟨tail, ht, by simp [Sample.pixelX], by simp [Sample.pixelY]⟩
  · intro frameData
    rw [decompressFrame_eq]
    unfold keptSamples
    rw [← samplePoint_map_left cos sin l r _ (by
        intro s hs
        have := (List.mem_filter.mp hs).1
        simpa using (List.mem_filter.mp this).2),
      ← samplePoint_map_right cos sin l r _ (by
        intro s hs
        have := (List.mem_filter.mp hs).1
        simpa using (List.mem_filter.mp this).2),
      ← List.map_append, ← List.filter_append]
    unfold samples
    rw [← samplesFrom_split]

theorem screen_switch_witness :
    ((({ count := 307199, isLeftScreen := true, points := [] } : DecodeState ℚ).isLeftScreen = true
        ∧ (chunkRun (fun _ : ℚ => 1) (fun _ : ℚ => 0) 1 none none 100 0
            { count := 307199, isLeftScreen := true, points := [] }).2.2 = false)
        ∧ (chunkRun (fun _ : ℚ => 1) (fun _ : ℚ => 0) 1 none none 100 0
            { count := 307199, isLeftScreen := true, points := [] }).1 ≥ 640 * 480)
      ∧ chunkBody (fun _ : ℚ => 1) (fun _ : ℚ => 0) 1 none none 100 0
          { count := 307199, isLeftScreen := true, points := [] } =
        ({ count := 0, isLeftScreen := false,
           points := (chunkRun (fun _ : ℚ => 1) (fun _ : ℚ => 0) 1 none none 100 0
            { count := 307199, isLeftScreen := true, points := [] }).2.1 }, false) :=
  ⟨⟨⟨rfl, by decide⟩, by decide⟩,
    (screen_switch (fun _ : ℚ => 1) (fun _ : ℚ => 0) 1 none none 100 0 [100, 0]
      { count := 307199, isLeftScreen := true, points := [] } rfl (by decide) (by decide)).1⟩

theorem replicate_chunk_samples (k count : Nat) (h : count + 64 * k < 640 * 480) :
    (samplesFrom (List.replicate k [100, 252]).flatten count true).length = 64 * k := by
  induction k generalizing count with
  | zero => simp [samplesFrom]
  | succ k ih =>
    have hd : chunkDepth 100 252 = 977 := by decide
    have hl : runLength 252 = 64 := by decide
    have hc : chunkCount 100 252 count = count + 64 := by
      unfold chunkCount
      rw [hd, hl, if_pos (by omega)]
      omega
    have hs : (chunkSamples 100 252 count true).length = 64 := by
      unfold chunkSamples
      rw [hd, hl, if_pos (by omega), runSamples_length]
      omega
    rw [List.replicate_succ, List.flatten_cons]
    show (samplesFrom (100 :: 252 :: (List.replicate k [100, 252]).flatten) count true).length = _
    rw [samplesFrom]
    rw [hc, if_neg (by omega), List.length_append, hs, ih (count + 64) (by omega)]
    omega

/-- C4 (evaluation of the code at the failing input): for the payload of 2605
chunks `(100, 252)` (run length 64, depth 977) and stride 1 there are 166720
kept in-range samples, fewer than 500000, yet `decompressFrame` returns only
500001 numbers, that is 166667 points: the cap compares the length of the flat
array, three numbers per point, with `MAX_POINTS_PER_FRAME`. -/
theorem decompressFrame_cap_counts_numbers :
    (keptSamples 1 (List.replicate 2605 [100, 252]).flatten).length = 166720
      ∧ (decompressFrame (fun _ : ℚ => 1) (fun _ : ℚ => 0) 1
          (List.replicate 2605 [100, 252]).flatten none none).length = 3 * 166667
      ∧ (decompressFrame (fun _ : ℚ => 1) (fun _ : ℚ => 0) 1
          (List.replicate 2605 [100, 252]).flatten none none) ≠
        flatten3 ((keptSamples 1 (List.replicate 2605 [100, 252]).flatten).map
          (samplePoint (fun _ : ℚ => 1) (fun _ : ℚ => 0) none none)) := by
  have hk : (keptSamples 1 (List.replicate 2605 [100, 252]).flatten).length = 166720 := by
    unfold keptSamples samples
    rw [filter_eq_self_of_forall _ _ (by intro s _; simp [Nat.mod_one])]
    rw [replicate_chunk_samples 2605 0 (by omega)]
  have hlen : (decompressFrame (fun _ : ℚ => 1) (fun _ : ℚ => 0) 1
      (List.replicate 2605 [100, 252]).flatten none none).length = 3 * 166667 := by
    rw [decompressFrame_eq, flatten3_length, List.length_take, List.length_map, hk]
    omega
  refine ⟨hk, hlen, ?_⟩
  intro h
  have h2 := congrArg List.length h
  rw [hlen, flatten3_length, List.length_map, hk] at h2
  omega

end DecoderClaims


/-! ## Unit file parser: frame table -/

section ParserLemmas

theorem getD_append_mid (pre r post : List Nat) (k : Nat) (hk : k < r.length) :
    (pre ++ r ++ post).getD (pre.length + k) 0 = r.getD k 0 := by
  rw [List.append_assoc, List.getD_eq_getElem?_getD, List.getD_eq_getElem?_getD,
    List.getElem?_append_right (by omega)]
  simp [List.getElem?_append_left hk]

theorem getUint32_append_mid (pre r post : List Nat) (k : Nat) (hk : k + 4 ≤ r.length) :
    getUint32 (pre ++ r ++ post) (pre.length + k) =
      .ok (le32 (r.getD k 0) (r.getD (k + 1) 0) (r.getD (k + 2) 0) (r.getD (k + 3) 0)) := by
  unfold getUint32
  rw [if_pos (by simp; omega)]
  rw [getD_append_mid pre r post k (by omega),
    Nat.add_assoc, getD_append_mid pre r post (k + 1) (by omega),
    Nat.add_assoc, getD_append_mid pre r post (k + 2) (by omega),
    Nat.add_assoc, getD_append_mid pre r post (k + 3) (by omega)]

theorem newUint8Array_append_mid (pre r post : List Nat) (h8 : 8 ≤ r.length) :
    newUint8Array (pre ++ r ++ post) (pre.length + 8) (r.length - 8) = .ok (r.drop 8) := by
  unfold newUint8Array
  rw [if_pos (by simp; omega)]
  congr 1
  rw [List.append_assoc, List.drop_append, List.drop_append_of_le_length h8,
    List.take_append_of_le_length (by simp)]
  rw [List.take_of_length_le (by simp)]

theorem recordFrames_length (i : Nat) (recs : List (List Nat)) :
    (recordFrames i recs).length = recs.length := by
  induction recs generalizing i with
  | nil => rfl
  | cons r rs ih => simp [recordFrames, ih]

/-- The frame loop on a buffer that continues with complete records: it reads
all of them when the declared count allows, and stops without raising when
the count is reached or at most six bytes are left. -/
theorem frameLoop_records (recs : List (List Nat)) (pre tail : List Nat)
    (remaining i : Nat) (frames : List FrameRecord)
    (hrec : ∀ r ∈ recs, isFrameRecord r) (hle : recs.length ≤ remaining)
    (hstop : recs.length = remaining ∨ tail.length ≤ 6) :
    frameLoop (pre ++ recs.flatten ++ tail) remaining i pre.length frames =
      .ok (frames ++ recordFrames i recs) := by
  induction recs generalizing pre remaining i frames with
  | nil =>
    cases remaining with
    | zero => simp [frameLoop, recordFrames]
    | succ rem =>
      have ht : tail.length ≤ 6 := by
        rcases hstop with h | h
        · simp at h
        · exact h
      unfold frameLoop
      rw [if_pos (by simp; omega)]
      simp [recordFrames]
  | cons r rs ih =>
    cases remaining with
    | zero => simp at hle
    | succ rem =>
      have hr : isFrameRecord r := hrec r (List.mem_cons_self _ _)
      unfold isFrameRecord at hr
      have h8 : 8 ≤ r.length := by omega
      have hbuf : pre ++ (r :: rs).flatten ++ tail = pre ++ r ++ (rs.flatten ++ tail) := by
        simp
      have hbuf2 : pre ++ (r :: rs).flatten ++ tail = (pre ++ r) ++ rs.flatten ++ tail := by
        simp
      rw [hbuf]
      unfold frameLoop
      rw [if_neg (by simp only [List.length_append]; omega)]
      have e1 : getUint32 (pre ++ r ++ (rs.flatten ++ tail)) pre.length =
          .ok (le32 (r.getD 0 0) (r.getD 1 0) (r.getD 2 0) (r.getD 3 0)) :=
        getUint32_append_mid pre r (rs.flatten ++ tail) 0 (by omega)
      have e2 : getUint32 (pre ++ r ++ (rs.flatten ++ tail)) (pre.length + 4) =
          .ok (r.length - 8) := by
        rw [getUint32_append_mid pre r (rs.flatten ++ tail) 4 (by omega)]
        congr 1
        show le32 (r.getD 4 0) (r.getD 5 0) (r.getD 6 0) (r.getD 7 0) = r.length - 8
        omega
      have e3 : newUint8Array (pre ++ r ++ (rs.flatten ++ tail)) (pre.length + 4 + 4)
          (r.length - 8) = .ok (r.drop 8) :=
        newUint8Array_append_mid pre r (rs.flatten ++ tail) h8
      simp only [e1, e2, e3]
      have hoff : pre.length + 4 + 4 + (r.length - 8) = (pre ++ r).length := by
        simp only [List.length_append]; omega
      rw [hoff, ← hbuf, hbuf2]
      rw [ih (pre ++ r) rem (i + 1) _ (fun x hx => hrec x (List.mem_cons_of_mem _ hx))
        (by simp at hle; omega) (by
          rcases hstop with h | h
          · left; simp at h; omega
          · right; exact h)]
      have hds : le32 (r.getD 4 0) (r.getD 5 0) (r.getD 6 0) (r.getD 7 0) = r.length - 8 := by
        omega
      rw [recordFrames, recordFrame, hds, List.append_assoc]
      rfl

theorem getD_take_drop (buffer : List Nat) (offset n k : Nat) (hk : k < n) :
    ((buffer.drop offset).take n).getD k 0 = buffer.getD (offset + k) 0 := by
  rw [List.getD_eq_getElem?_getD, List.getD_eq_getElem?_getD, List.getElem?_take_of_lt hk,
    List.getElem?_drop]

/-- A frame loop that returns normally has read complete records only, and
stopped because the declared count was reached or at most six bytes were
left. -/
theorem frameLoop_ok_records (buffer : List Nat) (remaining i offset : Nat)
    (frames fs : List FrameRecord) (hoff : offset ≤ buffer.length)
    (h : frameLoop buffer remaining i offset frames = .ok fs) :
    ∃ recs tail, buffer.drop offset = List.flatten recs ++ tail
      ∧ (∀ r ∈ recs, isFrameRecord r) ∧ recs.length ≤ remaining
      ∧ (recs.length = remaining ∨ tail.length ≤ 6) := by
  induction remaining generalizing i offset frames with
  | zero => exact ⟨[], buffer.drop offset, by simp, by simp, by simp, Or.inl rfl⟩
  | succ rem ih =>
    unfold frameLoop at h
    by_cases g : (offset : Int) ≥ (buffer.length : Int) - 6
    · exact ⟨[], buffer.drop offset, by simp, by simp, by simp,
        Or.inr (by simp only [List.length_drop]; omega)⟩
    · rw [if_neg g] at h
      by_cases h4 : offset + 4 ≤ buffer.length
      · by_cases h8 : offset + 4 + 4 ≤ buffer.length
        · simp only [getUint32, if_pos h4, if_pos h8] at h
          generalize hds : le32 (buffer.getD (offset + 4) 0) (buffer.getD (offset + 4 + 1) 0)
            (buffer.getD (offset + 4 + 2) 0) (buffer.getD (offset + 4 + 3) 0) = ds at h
          by_cases hp : offset + 4 + 4 + ds ≤ buffer.length
          · simp only [newUint8Array, if_pos hp] at h
            obtain ⟨recs, tail, hdrop, hrec, hle, hstop⟩ := ih _ _ _ hp h
            refine ⟨(buffer.drop offset).take (8 + ds) :: recs, tail, ?_, ?_, ?_, ?_⟩
            · rw [List.flatten_cons, List.append_assoc, ← hdrop]
              have : offset + 4 + 4 + ds = offset + (8 + ds) := by omega
              rw [this, ← List.drop_drop, List.take_append_drop]
            · intro r hr
              rcases List.mem_cons.mp hr with h1 | h1
              · subst h1
                unfold isFrameRecord
                rw [getD_take_drop _ _ _ 4 (by omega), getD_take_drop _ _ _ 5 (by omega),
                  getD_take_drop _ _ _ 6 (by omega), getD_take_drop _ _ _ 7 (by omega)]
                rw [List.length_take, List.length_drop]
                have e : le32 (buffer.getD (offset + 4) 0) (buffer.getD (offset + 5) 0)
                    (buffer.getD (offset + 6) 0) (buffer.getD (offset + 7) 0) = ds := hds
                rw [e]
                omega
              · exact hrec r h1
            · simp only [List.length_cons]; omega
            · rcases hstop with h1 | h1
              · left; simp only [List.length_cons]; omega
              · right; exact h1
          · simp [newUint8Array, if_neg hp] at h
        · simp [getUint32, if_pos h4, if_neg h8] at h
      · simp [getUint32, if_neg h4] at h

theorem frameLoop_error (buffer : List Nat) (remaining i offset : Nat)
    (frames : List FrameRecord) (e : ParseError)
    (h : frameLoop buffer remaining i offset frames = .error e) : e = .rangeError := by
  induction remaining generalizing i offset frames with
  | zero => simp [frameLoop] at h
  | succ rem ih =>
    unfold frameLoop at h
    split at h
    · simp at h
    · simp only [getUint32, newUint8Array] at h
      split at h
      · rename_i e1 he1
        split at he1
        · simp at he1
        · simp at he1; simp at h; rw [← h, ← he1]
      · split at h
        · rename_i e1 he1
          split at he1
          · simp at he1
          · simp at he1; simp at h; rw [← h, ← he1]
        · split at h
          · rename_i e1 he1
            split at he1
            · simp at he1
            · simp at he1; simp at h; rw [← h, ← he1]
          · exact ih _ _ _ h

theorem isPrefixOf_take (p l : List Nat) (n : Nat) (h : p.length ≤ n) :
    p.isPrefixOf (l.take n) = p.isPrefixOf l := by
  induction p generalizing l n with
  | nil => simp
  | cons a p ih =>
    cases l with
    | nil => simp
    | cons b l =>
      cases n with
      | zero => simp at h
      | succ n =>
        simp only [List.take_succ_cons, List.isPrefixOf]
        rw [ih l n (by simpa using h)]

theorem startsWith_take (buffer : List Nat) (hsig : validSignature buffer) :
    (!startsWith (buffer.take 6) "STMOV" && !startsWith (buffer.take 6) "STMV") = false := by
  have h1 : startsWith (buffer.take 6) "STMOV" = [83, 84, 77, 79, 86].isPrefixOf buffer :=
    isPrefixOf_take [83, 84, 77, 79, 86] buffer 6 (by decide)
  have h2 : startsWith (buffer.take 6) "STMV" = [83, 84, 77, 86].isPrefixOf buffer :=
    isPrefixOf_take [83, 84, 77, 86] buffer 6 (by decide)
  rw [h1, h2]
  rcases hsig with h | h <;> simp [h]

/-- On a buffer with a complete header and a valid signature `parseUnitFile`
reads the header fields and then runs the frame loop from offset 108. -/
theorem parseUnitFile_of_header {α : Type} (decodeFloat32 : Nat → α) (buffer : List Nat)
    (h108 : 108 ≤ buffer.length) (hsig : validSignature buffer) :
    parseUnitFile decodeFloat32 buffer =
      (frameLoop buffer (declaredFrameCount buffer) 0 108 []).map
        (headerUnit decodeFloat32 buffer) := by
  have hs := startsWith_take buffer hsig
  have k6 : 6 ≤ buffer.length := by omega
  have k7 : 7 ≤ buffer.length := by omega
  have k8 : 8 ≤ buffer.length := by omega
  have k12 : 12 ≤ buffer.length := by omega
  have k16 : 16 ≤ buffer.length := by omega
  have k32 : 32 ≤ buffer.length := by omega
  have k36 : 36 ≤ buffer.length := by omega
  have k40 : 40 ≤ buffer.length := by omega
  have k44 : 44 ≤ buffer.length := by omega
  have k48 : 48 ≤ buffer.length := by omega
  have k52 : 52 ≤ buffer.length := by omega
  have k56 : 56 ≤ buffer.length := by omega
  have k60 : 60 ≤ buffer.length := by omega
  have k64 : 64 ≤ buffer.length := by omega
  have k68 : 68 ≤ buffer.length := by omega
  have k72 : 72 ≤ buffer.length := by omega
  have k76 : 76 ≤ buffer.length := by omega
  have k80 : 80 ≤ buffer.length := by omega
  have k84 : 84 ≤ buffer.length := by omega
  have k88 : 88 ≤ buffer.length := by omega
  have k92 : 92 ≤ buffer.length := by omega
  have k96 : 96 ≤ buffer.length := by omega
  have k100 : 100 ≤ buffer.length := by omega
  have k104 : 104 ≤ buffer.length := by omega
  have k108 : 108 ≤ buffer.length := by omega
  unfold parseUnitFile
  simp only [newUint8Array, getUint8, getUint32, getFloat32, readCameraInfo, bind, Except.bind,
    Except.map, pure, Except.pure, Nat.zero_add, Nat.reduceAdd, List.drop_zero, hs,
    Bool.false_eq_true, if_false, if_true, k6, k7, k8, k12, k16, k32, k36, k40, k44, k48, k52, k56, k60, k64, k68, k72, k76, k80, k84, k88, k92, k96, k100, k104, k108]
  rfl

theorem bind_eq_ok {ε β γ : Type} (x : Except ε β) (f : β → Except ε γ) (c : γ) :
    (x >>= f) = .ok c ↔ ∃ a, x = .ok a ∧ f a = .ok c := by
  cases x with
  | error e => simp [bind, Except.bind]
  | ok a => simp [bind, Except.bind]

/-- A call of `parseUnitFile` that returns has found a complete header with a
valid signature. -/
theorem parseUnitFile_ok_header {α : Type} (decodeFloat32 : Nat → α) (buffer : List Nat)
    (u : UnitData α) (h : parseUnitFile decodeFloat32 buffer = .ok u) :
    108 ≤ buffer.length ∧ validSignature buffer := by
  unfold parseUnitFile at h
  simp only [bind_eq_ok] at h
  obtain ⟨sig, hread, h⟩ := h
  split at h
  · simp [throw, throwThe, MonadExceptOf.throw, bind, Except.bind] at h
  · rename_i hcond
    simp only [bind_eq_ok] at h
    obtain ⟨_, _, _, _, _, _, _, _, _, _, _, _, _, _, _, _, _, hdot, _⟩ := h
    have h108 : 108 ≤ buffer.length := by
      unfold getFloat32 getUint32 at hdot
      split at hdot
      · omega
      · simp [Except.map] at hdot
    refine ⟨h108, ?_⟩
    have hsig : sig = buffer.take 6 := by
      unfold newUint8Array at hread
      rw [if_pos (by omega)] at hread
      simpa using hread.symm
    subst hsig
    have h1 : startsWith (buffer.take 6) "STMOV" = [83, 84, 77, 79, 86].isPrefixOf buffer :=
      isPrefixOf_take [83, 84, 77, 79, 86] buffer 6 (by decide)
    have h2 : startsWith (buffer.take 6) "STMV" = [83, 84, 77, 86].isPrefixOf buffer :=
      isPrefixOf_take [83, 84, 77, 86] buffer 6 (by decide)
    rw [h1, h2] at hcond
    unfold validSignature
    cases ha : [83, 84, 77, 79, 86].isPrefixOf buffer <;>
      cases hb : [83, 84, 77, 86].isPrefixOf buffer <;> simp [ha, hb] at hcond ⊢

theorem isPrefixOf_append (p l m : List Nat) (h : p.isPrefixOf l = true) :
    p.isPrefixOf (l ++ m) = true := by
  induction p generalizing l with
  | nil => simp
  | cons a p ih =>
    cases l with
    | nil => simp at h
    | cons b l =>
      simp only [List.cons_append, List.isPrefixOf, Bool.and_eq_true] at h ⊢
      exact ⟨h.1, ih l h.2⟩

theorem validSignature_append (header rest : List Nat) (h : validSignature header) :
    validSignature (header ++ rest) := by
  rcases h with h | h
  · exact Or.inl (isPrefixOf_append _ _ _ h)
  · exact Or.inr (isPrefixOf_append _ _ _ h)

theorem getD_append_left (header rest : List Nat) (k : Nat) (hk : k < header.length) :
    (header ++ rest).getD k 0 = header.getD k 0 := by
  rw [List.getD_eq_getElem?_getD, List.getD_eq_getElem?_getD, List.getElem?_append_left hk]

theorem declaredFrameCount_append (header rest : List Nat) (h : 12 ≤ header.length) :
    declaredFrameCount (header ++ rest) = declaredFrameCount header := by
  unfold declaredFrameCount
  rw [getD_append_left _ _ 8 (by omega), getD_append_left _ _ 9 (by omega),
    getD_append_left _ _ 10 (by omega), getD_append_left _ _ 11 (by omega)]

/-- The frame loop run from offset 108 of a buffer whose bytes after the
header are complete records followed by a tail. -/
theorem frameLoop_of_records (buffer : List Nat) (recs : List (List Nat)) (tail : List Nat)
    (remaining : Nat) (h108 : 108 ≤ buffer.length)
    (hdrop : buffer.drop 108 = List.flatten recs ++ tail)
    (hrec : ∀ r ∈ recs, isFrameRecord r) (hle : recs.length ≤ remaining)
    (hstop : recs.length = remaining ∨ tail.length ≤ 6) :
    frameLoop buffer remaining 0 108 [] = .ok (recordFrames 0 recs) := by
  have hb : buffer = buffer.take 108 ++ List.flatten recs ++ tail := by
    rw [List.append_assoc, ← hdrop, List.take_append_drop]
  have hl : (buffer.take 108).length = 108 := by
    rw [List.length_take]; omega
  have := frameLoop_records recs (buffer.take 108) tail remaining 0 [] hrec hle hstop
  rw [← hb, hl] at this
  simpa using this

end ParserLemmas

/-! ## Unit file parser: claims -/

section ParserClaims

variable {α : Type}

/-- C9: a buffer made of a valid 108-byte header declaring `D` frames, `m`
complete frame records and an end marker of at most 6 bytes is parsed
successfully into exactly `min D m` frame descriptors, those of the first
`min D m` records; and whenever `parseUnitFile` succeeds, on any buffer, the
descriptor list is no longer than the declared frame count. -/
theorem parseUnitFile_frame_count (decodeFloat32 : Nat → α) (header : List Nat)
    (records : List (List Nat)) (marker : List Nat)
    (hheader : header.length = 108) (hsig : validSignature header)
    (hrec : ∀ r ∈ records, isFrameRecord r) (hmarker : marker.length ≤ 6) :
    (∃ u, parseUnitFile decodeFloat32 (header ++ List.flatten records ++ marker) = .ok u
        ∧ u.frames.length = min (declaredFrameCount header) records.length
        ∧ u.frames = recordFrames 0 (records.take (declaredFrameCount header)))
      ∧ (∀ (buffer : List Nat) (u : UnitData α),
          parseUnitFile decodeFloat32 buffer = .ok u →
            u.frames.length ≤ declaredFrameCount buffer) := by
  constructor
  · have h108 : 108 ≤ (header ++ List.flatten records ++ marker).length := by
      simp only [List.length_append]; omega
    have hsig2 : validSignature (header ++ List.flatten records ++ marker) := by
      rw [List.append_assoc]; exact validSignature_append _ _ hsig
    have hD : declaredFrameCount (header ++ List.flatten records ++ marker)
        = declaredFrameCount header := by
      rw [List.append_assoc]; exact declaredFrameCount_append _ _ (by omega)
    have hdrop : (header ++ List.flatten records ++ marker).drop 108 =
        List.flatten (records.take (declaredFrameCount header))
          ++ (List.flatten (records.drop (declaredFrameCount header)) ++ marker) := by
      rw [List.append_assoc, List.drop_append_of_le_length (by omega),
        List.drop_of_length_le (by omega), List.nil_append, ← List.append_assoc,
        ← List.flatten_append, List.take_append_drop]
    have hloop := frameLoop_of_records (header ++ List.flatten records ++ marker)
      (records.take (declaredFrameCount header))
      (List.flatten (records.drop (declaredFrameCount header)) ++ marker)
      (declaredFrameCount header) h108 hdrop
      (fun r hr => hrec r (List.mem_of_mem_take hr))
      (by rw [List.length_take]; omega)
      (by
        by_cases hm : declaredFrameCount header ≤ records.length
        · left; rw [List.length_take]; omega
        · right
          rw [List.drop_of_length_le (by omega)]
          simpa using hmarker)
    rw [parseUnitFile_of_header decodeFloat32 _ h108 hsig2, hD, hloop]
    refine ⟨_, rfl, ?_, rfl⟩
    simp only [Except.map, headerUnit, recordFrames_length, List.length_take]
  · intro buffer u hu
    obtain ⟨h108, hsig2⟩ := parseUnitFile_ok_header decodeFloat32 buffer u hu
    rw [parseUnitFile_of_header decodeFloat32 _ h108 hsig2] at hu
    cases hloop : frameLoop buffer (declaredFrameCount buffer) 0 108 [] with
    | error e => rw [hloop] at hu; simp [Except.map] at hu
    | ok fs =>
      obtain ⟨recs, tail, hdrop, hrec2, hle, hstop⟩ :=
        frameLoop_ok_records buffer _ 0 108 [] fs h108 hloop
      have h2 := frameLoop_of_records buffer recs tail _ h108 hdrop hrec2 hle hstop
      rw [hloop] at h2 hu
      simp only [Except.map, Except.ok.injEq] at hu h2
      rw [← hu, headerUnit, h2, recordFrames_length]
      exact hle

theorem parseUnitFile_frame_count_witness :
    (sampleHeader.length = 108 ∧ validSignature sampleHeader
        ∧ (∀ r ∈ [[7, 0, 0, 0, 1, 0, 0, 0, 9]], isFrameRecord r)
        ∧ [0, 0, 0].length ≤ 6)
      ∧ ∃ u : UnitData Nat,
          parseUnitFile id
            (sampleHeader ++ List.flatten [[7, 0, 0, 0, 1, 0, 0, 0, 9]] ++ [0, 0, 0]) = .ok u
          ∧ u.frames.length = min (declaredFrameCount sampleHeader) 1
          ∧ u.frames = recordFrames 0
              (List.take (declaredFrameCount sampleHeader) [[7, 0, 0, 0, 1, 0, 0, 0, 9]]) :=
  ⟨⟨by decide, by decide, by decide, by decide⟩,
    (parseUnitFile_frame_count id sampleHeader [[7, 0, 0, 0, 1, 0, 0, 0, 9]] [0, 0, 0]
      (by decide) (by decide) (by decide) (by decide)).1⟩

/-- C10 (counterexample): after a valid complete header declaring two frames,
seven further bytes (fewer than the 8-byte record header), or a record header
that declares 100 payload bytes followed by no payload, do not make the frame
loop stop: `parseUnitFile` raises a `RangeError`. -/
theorem parseUnitFile_truncated_record_raises :
    (validSignature (sampleHeader ++ List.replicate 7 0)
        ∧ 108 ≤ (sampleHeader ++ List.replicate 7 0).length
        ∧ parseUnitFile (id : Nat → Nat) (sampleHeader ++ List.replicate 7 0)
            = .error .rangeError)
      ∧ (validSignature (sampleHeader ++ [0, 0, 0, 0, 100, 0, 0, 0])
        ∧ 108 ≤ (sampleHeader ++ [0, 0, 0, 0, 100, 0, 0, 0]).length
        ∧ parseUnitFile (id : Nat → Nat) (sampleHeader ++ [0, 0, 0, 0, 100, 0, 0, 0])
            = .error .rangeError) := by
  refine ⟨⟨by decide, by decide, ?_⟩, ⟨by decide, by decide, ?_⟩⟩
  · rw [parseUnitFile_of_header id _ (by decide) (by decide)]
    rfl
  · rw [parseUnitFile_of_header id _ (by decide) (by decide)]
    rfl

/-- C10 (amended): on a buffer with a valid signature and a complete 108-byte
header declaring `D` frames, `parseUnitFile` succeeds exactly when the bytes
from offset 108 are `k ≤ D` complete frame records followed by a tail that is
at most 6 bytes long or, when `k = D`, arbitrary; it then returns the unit
with the descriptors of those `k` records (the loop stops without raising
when `D` records are read or at most 6 bytes are left); any failure is a
`RangeError`. -/
theorem parseUnitFile_succeeds_iff (decodeFloat32 : Nat → α) (buffer : List Nat)
    (h108 : 108 ≤ buffer.length) (hsig : validSignature buffer) :
    ((∃ u, parseUnitFile decodeFloat32 buffer = .ok u) ↔
        ∃ recs tail, buffer.drop 108 = List.flatten recs ++ tail
          ∧ (∀ r ∈ recs, isFrameRecord r) ∧ recs.length ≤ declaredFrameCount buffer
          ∧ (recs.length = declaredFrameCount buffer ∨ tail.length ≤ 6))
      ∧ (∀ recs tail, buffer.drop 108 = List.flatten recs ++ tail →
          (∀ r ∈ recs, isFrameRecord r) → recs.length ≤ declaredFrameCount buffer →
          (recs.length = declaredFrameCount buffer ∨ tail.length ≤ 6) →
          parseUnitFile decodeFloat32 buffer =
            .ok (headerUnit decodeFloat32 buffer (recordFrames 0 recs)))
      ∧ (∀ e, parseUnitFile decodeFloat32 buffer = .error e → e = .rangeError) := by
  have hparse := parseUnitFile_of_header decodeFloat32 buffer h108 hsig
  have hfwd : ∀ recs tail, buffer.drop 108 = List.flatten recs ++ tail →
      (∀ r ∈ recs, isFrameRecord r) → recs.length ≤ declaredFrameCount buffer →
      (recs.length = declaredFrameCount buffer ∨ tail.length ≤ 6) →
      parseUnitFile decodeFloat32 buffer =
        .ok (headerUnit decodeFloat32 buffer (recordFrames 0 recs)) := by
    intro recs tail hdrop hrec hle hstop
    rw [hparse, frameLoop_of_records buffer recs tail _ h108 hdrop hrec hle hstop]
    rfl
  refine ⟨⟨?_, ?_⟩, hfwd, ?_⟩
  · rintro ⟨u, hu⟩
    rw [hparse] at hu
    cases hloop : frameLoop buffer (declaredFrameCount buffer) 0 108 [] with
    | error e => rw [hloop] at hu; simp [Except.map] at hu
    | ok fs => exact frameLoop_ok_records buffer _ 0 108 [] fs h108 hloop
  · rintro ⟨recs, tail, hdrop, hrec, hle, hstop⟩
    exact ⟨_, hfwd recs tail hdrop hrec hle hstop⟩
  · intro e he
    rw [hparse] at he
    cases hloop : frameLoop buffer (declaredFrameCount buffer) 0 108 [] with
    | error e2 =>
      rw [hloop] at he
      simp only [Except.map, Except.error.injEq] at he
      rw [← he]
      exact frameLoop_error buffer _ 0 108 [] e2 hloop
    | ok fs => rw [hloop] at he; simp [Except.map] at he

theorem parseUnitFile_succeeds_iff_witness :
    (108 ≤ (sampleHeader ++ [7, 0, 0, 0, 1, 0, 0, 0, 9, 0, 0, 0]).length
        ∧ validSignature (sampleHeader ++ [7, 0, 0, 0, 1, 0, 0, 0, 9, 0, 0, 0]))
      ∧ parseUnitFile (id : Nat → Nat) (sampleHeader ++ [7, 0, 0, 0, 1, 0, 0, 0, 9, 0, 0, 0]) =
          .ok (headerUnit id (sampleHeader ++ [7, 0, 0, 0, 1, 0, 0, 0, 9, 0, 0, 0])
            (recordFrames 0 [[7, 0, 0, 0, 1, 0, 0, 0, 9]])) :=
  ⟨⟨by decide, by decide⟩,
    (parseUnitFile_succeeds_iff id (sampleHeader ++ [7, 0, 0, 0, 1, 0, 0, 0, 9, 0, 0, 0])
      (by decide) (by decide)).2.1 [[7, 0, 0, 0, 1, 0, 0, 0, 9]] [0, 0, 0]
      (by decide) (by decide) (by decide) (by decide)⟩

/-- C12: on a buffer of at least 108 bytes `parseUnitFile` raises the
invalid-signature error exactly when the six signature bytes start with
neither `STMOV` nor `STMV`; the error carries the signature that was read and
no unit object is returned. -/
theorem parseUnitFile_invalid_signature (decodeFloat32 : Nat → α) (buffer : List Nat)
    (h108 : 108 ≤ buffer.length) :
    ((∃ sig, parseUnitFile decodeFloat32 buffer = .error (.invalidSignature sig)) ↔
        (startsWith (buffer.take 6) "STMOV" = false ∧ startsWith (buffer.take 6) "STMV" = false))
      ∧ ((startsWith (buffer.take 6) "STMOV" = false
            ∧ startsWith (buffer.take 6) "STMV" = false) ↔ ¬ validSignature buffer)
      ∧ (¬ validSignature buffer →
          parseUnitFile decodeFloat32 buffer = .error (.invalidSignature (buffer.take 6)))
      ∧ (∀ sig, parseUnitFile decodeFloat32 buffer = .error (.invalidSignature sig) →
          ∀ u, parseUnitFile decodeFloat32 buffer ≠ .ok u) := by
  have h1 : startsWith (buffer.take 6) "STMOV" = [83, 84, 77, 79, 86].isPrefixOf buffer :=
    isPrefixOf_take [83, 84, 77, 79, 86] buffer 6 (by decide)
  have h2 : startsWith (buffer.take 6) "STMV" = [83, 84, 77, 86].isPrefixOf buffer :=
    isPrefixOf_take [83, 84, 77, 86] buffer 6 (by decide)
  have hiff : (startsWith (buffer.take 6) "STMOV" = false
      ∧ startsWith (buffer.take 6) "STMV" = false) ↔ ¬ validSignature buffer := by
    rw [h1, h2]
    unfold validSignature
    cases [83, 84, 77, 79, 86].isPrefixOf buffer <;>
      cases [83, 84, 77, 86].isPrefixOf buffer <;> simp
  have hbad : ¬ validSignature buffer →
      parseUnitFile decodeFloat32 buffer = .error (.invalidSignature (buffer.take 6)) := by
    intro hv
    obtain ⟨ha, hb⟩ := hiff.mpr hv
    have k6 : 0 + 6 ≤ buffer.length := by omega
    unfold parseUnitFile
    simp only [newUint8Array, if_pos k6, List.drop_zero, bind, Except.bind, ha, hb,
      Bool.not_false, Bool.and_self, if_true]
  have hgood : validSignature buffer →
      ∀ sig, parseUnitFile decodeFloat32 buffer ≠ .error (.invalidSignature sig) := by
    intro hv sig he
    rw [parseUnitFile_of_header decodeFloat32 buffer h108 hv] at he
    cases hloop : frameLoop buffer (declaredFrameCount buffer) 0 108 [] with
    | error e =>
      have := frameLoop_error buffer _ 0 108 [] e hloop
      rw [hloop, this] at he
      simp [Except.map] at he
    | ok fs => rw [hloop] at he; simp [Except.map] at he
  refine ⟨⟨?_, ?_⟩, hiff, hbad, ?_⟩
  · rintro ⟨sig, hs⟩
    by_cases hv : validSignature buffer
    · exact absurd hs (hgood hv sig)
    · exact hiff.mpr hv
  · intro h
    exact ⟨_, hbad (hiff.mp h)⟩
  · intro sig hs u hu
    rw [hs] at hu
    cases hu

theorem parseUnitFile_invalid_signature_witness :
    108 ≤ (List.replicate 108 65).length
      ∧ parseUnitFile (id : Nat → Nat) (List.replicate 108 65)
          = .error (.invalidSignature ((List.replicate 108 65).take 6)) :=
  ⟨by decide,
    (parseUnitFile_invalid_signature id (List.replicate 108 65) (by decide)).2.2.1
      (by decide)⟩

theorem recordFrames_head (recs : List (List Nat)) (r : List Nat) (rs : List (List Nat))
    (h : recs = r :: rs) : (recordFrames 0 recs).head? = some (recordFrame 0 r) := by
  subst h
  rfl

theorem getD_of_drop_eq_append (buffer r rest : List Nat) (offset k : Nat)
    (h : buffer.drop offset = r ++ rest) (hk : k < r.length) :
    r.getD k 0 = buffer.getD (offset + k) 0 := by
  have h1 : (buffer.drop offset).getD k 0 = buffer.getD (offset + k) 0 := by
    rw [List.getD_eq_getElem?_getD, List.getD_eq_getElem?_getD, List.getElem?_drop]
  rw [← h1, h, List.getD_eq_getElem?_getD, List.getD_eq_getElem?_getD,
    List.getElem?_append_left hk]

/-- C13 (counterexample): a buffer of 118 bytes with a valid signature whose
first frame record declares 5 payload bytes but holds 2 makes `parseUnitFile`
raise a `RangeError`: no version, frame count or calibration is returned. -/
theorem parseUnitFile_header_not_returned :
    validSignature (sampleHeader ++ [0, 0, 0, 0, 5, 0, 0, 0, 1, 2])
      ∧ 108 ≤ (sampleHeader ++ [0, 0, 0, 0, 5, 0, 0, 0, 1, 2]).length
      ∧ parseUnitFile (id : Nat → Nat) (sampleHeader ++ [0, 0, 0, 0, 5, 0, 0, 0, 1, 2])
          = .error .rangeError
      ∧ ∀ u, parseUnitFile (id : Nat → Nat) (sampleHeader ++ [0, 0, 0, 0, 5, 0, 0, 0, 1, 2])
          ≠ .ok u := by
  have h : parseUnitFile (id : Nat → Nat) (sampleHeader ++ [0, 0, 0, 0, 5, 0, 0, 0, 1, 2])
      = .error .rangeError := by
    rw [parseUnitFile_of_header id _ (by decide) (by decide)]
    rfl
  refine ⟨by decide, by decide, h, ?_⟩
  intro u hu
  rw [h] at hu
  cases hu

/-- C13 (amended): whenever `parseUnitFile` returns a unit for a buffer, the
buffer has at least 108 bytes and a valid signature, and the unit holds the
signature bytes 0..5, version major = byte 6 and minor = byte 7, frame count =
the little-endian uint32 of bytes 8..11, total duration = that of bytes
12..15, the left and right calibrations decoded from the nine little-endian
float32 values at offsets 32 and 68 in the order position xyz, rotation xyz,
scale xyz, the point size from offset 104, and the frames read by the frame
loop started at offset 108: the first descriptor, if any, has index 0, voxel
count from bytes 108..111, payload length from bytes 112..115 and the payload
bytes from offset 116. -/
theorem parseUnitFile_header_fields (decodeFloat32 : Nat → α) (buffer : List Nat)
    (u : UnitData α) (hu : parseUnitFile decodeFloat32 buffer = .ok u) :
    (108 ≤ buffer.length ∧ validSignature buffer)
      ∧ u.signature = buffer.take 6
      ∧ u.version.major = buffer.getD 6 0 ∧ u.version.minor = buffer.getD 7 0
      ∧ u.frameCount = le32 (buffer.getD 8 0) (buffer.getD 9 0) (buffer.getD 10 0)
          (buffer.getD 11 0)
      ∧ u.totalTime = le32 (buffer.getD 12 0) (buffer.getD 13 0) (buffer.getD 14 0)
          (buffer.getD 15 0)
      ∧ u.leftCamera =
          { position := { x := floatAt decodeFloat32 buffer 32, y := floatAt decodeFloat32 buffer 36,
                          z := floatAt decodeFloat32 buffer 40 }
            rotation := { x := floatAt decodeFloat32 buffer 44, y := floatAt decodeFloat32 buffer 48,
                          z := floatAt decodeFloat32 buffer 52 }
            scale := { x := floatAt decodeFloat32 buffer 56, y := floatAt decodeFloat32 buffer 60,
                       z := floatAt decodeFloat32 buffer 64 } }
      ∧ u.rightCamera =
          { position := { x := floatAt decodeFloat32 buffer 68, y := floatAt decodeFloat32 buffer 72,
                          z := floatAt decodeFloat32 buffer 76 }
            rotation := { x := floatAt decodeFloat32 buffer 80, y := floatAt decodeFloat32 buffer 84,
                          z := floatAt decodeFloat32 buffer 88 }
            scale := { x := floatAt decodeFloat32 buffer 92, y := floatAt decodeFloat32 buffer 96,
                       z := floatAt decodeFloat32 buffer 100 } }
      ∧ u.dotSize = floatAt decodeFloat32 buffer 104
      ∧ (∀ k, floatAt decodeFloat32 buffer k = decodeFloat32 (le32 (buffer.getD k 0)
          (buffer.getD (k + 1) 0) (buffer.getD (k + 2) 0) (buffer.getD (k + 3) 0)))
      ∧ frameLoop buffer u.frameCount 0 108 [] = .ok u.frames
      ∧ (∀ f, u.frames.head? = some f →
          f.index = 0
            ∧ f.voxelCount = le32 (buffer.getD 108 0) (buffer.getD 109 0) (buffer.getD 110 0)
                (buffer.getD 111 0)
            ∧ f.dataSize = le32 (buffer.getD 112 0) (buffer.getD 113 0) (buffer.getD 114 0)
                (buffer.getD 115 0)
            ∧ f.data = (buffer.drop 116).take f.dataSize) := by
  obtain ⟨h108, hsig⟩ := parseUnitFile_ok_header decodeFloat32 buffer u hu
  rw [parseUnitFile_of_header decodeFloat32 buffer h108 hsig] at hu
  cases hloop : frameLoop buffer (declaredFrameCount buffer) 0 108 [] with
  | error e => rw [hloop] at hu; simp [Except.map] at hu
  | ok fs =>
    rw [hloop] at hu
    simp only [Except.map, Except.ok.injEq] at hu
    subst hu
    refine ⟨⟨h108, hsig⟩, rfl, rfl, rfl, rfl, rfl, rfl, rfl, rfl, fun _ => rfl, hloop, ?_⟩
    intro f hf
    obtain ⟨recs, tail, hdrop, hrec, hle, hstop⟩ :=
      frameLoop_ok_records buffer _ 0 108 [] fs h108 hloop
    have h2 := frameLoop_of_records buffer recs tail _ h108 hdrop hrec hle hstop
    rw [hloop] at h2
    simp only [Except.ok.injEq] at h2
    change fs.head? = some f at hf
    rw [h2] at hf
    cases recs with
    | nil => simp [recordFrames] at hf
    | cons r rs =>
      have hr : isFrameRecord r := hrec r (List.mem_cons_self _ _)
      unfold isFrameRecord at hr
      rw [recordFrames_head _ r rs rfl] at hf
      simp only [Option.some.injEq] at hf
      subst hf
      have hd : buffer.drop 108 = r ++ (List.flatten rs ++ tail) := by
        rw [hdrop, List.flatten_cons, List.append_assoc]
      have g : ∀ k, k < 8 → r.getD k 0 = buffer.getD (108 + k) 0 :=
        fun k hk => getD_of_drop_eq_append buffer r _ 108 k hd (by omega)
      refine ⟨rfl, ?_, ?_, ?_⟩
      · show le32 (r.getD 0 0) (r.getD 1 0) (r.getD 2 0) (r.getD 3 0) = _
        rw [g 0 (by omega), g 1 (by omega), g 2 (by omega), g 3 (by omega)]
      · show le32 (r.getD 4 0) (r.getD 5 0) (r.getD 6 0) (r.getD 7 0) = _
        rw [g 4 (by omega), g 5 (by omega), g 6 (by omega), g 7 (by omega)]
      · show r.drop 8 = (buffer.drop 116).take
          (le32 (r.getD 4 0) (r.getD 5 0) (r.getD 6 0) (r.getD 7 0))
        have h116 : buffer.drop 116 = r.drop 8 ++ (List.flatten rs ++ tail) := by
          have : buffer.drop 116 = (buffer.drop 108).drop 8 := by
            rw [List.drop_drop]
          rw [this, hd, List.drop_append_of_le_length (by omega)]
        rw [h116, List.take_append_of_le_length (by simp only [List.length_drop]; omega),
          List.take_of_length_le (by simp only [List.length_drop]; omega)]

theorem parseUnitFile_header_fields_witness :
    parseUnitFile (id : Nat → Nat) (sampleHeader ++ [7, 0, 0, 0, 1, 0, 0, 0, 9, 0, 0, 0]) =
        .ok (headerUnit id (sampleHeader ++ [7, 0, 0, 0, 1, 0, 0, 0, 9, 0, 0, 0])
          (recordFrames 0 [[7, 0, 0, 0, 1, 0, 0, 0, 9]]))
      ∧ (headerUnit (id : Nat → Nat) (sampleHeader ++ [7, 0, 0, 0, 1, 0, 0, 0, 9, 0, 0, 0])
          (recordFrames 0 [[7, 0, 0, 0, 1, 0, 0, 0, 9]])).version.major
          = (sampleHeader ++ [7, 0, 0, 0, 1, 0, 0, 0, 9, 0, 0, 0]).getD 6 0 :=
  have h : parseUnitFile (id : Nat → Nat)
      (sampleHeader ++ [7, 0, 0, 0, 1, 0, 0, 0, 9, 0, 0, 0]) =
        .ok (headerUnit id (sampleHeader ++ [7, 0, 0, 0, 1, 0, 0, 0, 9, 0, 0, 0])
          (recordFrames 0 [[7, 0, 0, 0, 1, 0, 0, 0, 9]])) := by
    rw [parseUnitFile_of_header id _ (by decide) (by decide)]
    rfl
  ⟨h, (parseUnitFile_header_fields id _ _ h).2.2.1⟩

end ParserClaims


/-! ## Coordinate transform -/

section TransformClaims

variable {α : Type} [Field α]

/-- C6: both transform paths start from the projected point
`(fx * fz, fy * fz, fz)` with `fx = (320 - x) / 640`, `fy = (240 - y) / 640`
(both divided by 640) and `fz = d / 1000`, computed exactly in the field: the
fallback returns it, the calibrated path applies the camera matrix to it with
`w = 1`; pixel (320, 240) with depth 1000 projects to exactly (0, 0, 1). -/
theorem projected_point_exact [CharZero α] (cos sin : α → α) (x y d : Nat) (flag : Bool)
    (width height farClip : Nat) (l r : Camera α) :
    transformCorrectedSimple x y d width height farClip flag =
        ({ x := (((320 : α) - (x : α)) / 640) * ((d : α) / 1000)
           y := (((240 : α) - (y : α)) / 640) * ((d : α) / 1000)
           z := (d : α) / 1000 } : Vec3 α)
      ∧ transformCorrectedSimple x y d width height farClip flag = (projectedPoint x y d : Vec3 α)
      ∧ transformSTClientCompliant cos sin x y d flag (some l) (some r) =
          { x := (multiplyMatrix4x4 (createST_ClientCameraMatrix cos sin (if flag then l else r))
                { x := (projectedPoint x y d : Vec3 α).x, y := (projectedPoint x y d : Vec3 α).y,
                  z := (projectedPoint x y d : Vec3 α).z, w := 1 }).x
            y := (multiplyMatrix4x4 (createST_ClientCameraMatrix cos sin (if flag then l else r))
                { x := (projectedPoint x y d : Vec3 α).x, y := (projectedPoint x y d : Vec3 α).y,
                  z := (projectedPoint x y d : Vec3 α).z, w := 1 }).y
            z := (multiplyMatrix4x4 (createST_ClientCameraMatrix cos sin (if flag then l else r))
                { x := (projectedPoint x y d : Vec3 α).x, y := (projectedPoint x y d : Vec3 α).y,
                  z := (projectedPoint x y d : Vec3 α).z, w := 1 }).z }
      ∧ (projectedPoint 320 240 1000 : Vec3 α) = { x := 0, y := 0, z := 1 }
      ∧ transformCorrectedSimple 320 240 1000 640 480 8000 flag
          = ({ x := 0, y := 0, z := 1 } : Vec3 α) := by
  have h1000 : ((1000 : Nat) : α) / 1000 = 1 := by
    have : ((1000 : Nat) : α) = 1000 := by norm_cast
    rw [this]
    exact div_self (by norm_num)
  refine ⟨rfl, rfl, rfl, ?_, ?_⟩
  · simp [projectedPoint, h1000]
  · simp [transformCorrectedSimple, h1000]

theorem projected_point_exact_witness :
    (projectedPoint 320 240 1000 : Vec3 ℚ) = { x := 0, y := 0, z := 1 }
      ∧ transformCorrectedSimple 320 240 1000 640 480 8000 true
          = ({ x := 0, y := 0, z := 1 } : Vec3 ℚ) :=
  (projected_point_exact (fun _ : ℚ => 1) (fun _ : ℚ => 0) 320 240 1000 true 640 480 8000
    { position := ⟨0, 0, 0⟩, rotation := ⟨0, 0, 0⟩, scale := ⟨1, 1, 1⟩ }
    { position := ⟨0, 0, 0⟩, rotation := ⟨0, 0, 0⟩, scale := ⟨1, 1, 1⟩ }).2.2.2

/-- C8: when either calibration record is missing, `transformSTClientCompliant`
returns the projected point `(fx * fz, fy * fz, fz)` unchanged, whatever the
pixel, depth and screen flag. -/
theorem transform_without_calibration (cos sin : α → α) (x y d : Nat) (flag : Bool) :
    transformSTClientCompliant cos sin x y d flag none none = (projectedPoint x y d : Vec3 α)
      ∧ (∀ r : Option (Camera α),
          transformSTClientCompliant cos sin x y d flag none r = projectedPoint x y d)
      ∧ (∀ l : Option (Camera α),
          transformSTClientCompliant cos sin x y d flag l none = projectedPoint x y d)
      ∧ (projectedPoint x y d : Vec3 α) =
          { x := (((320 : α) - (x : α)) / 640) * ((d : α) / 1000)
            y := (((240 : α) - (y : α)) / 640) * ((d : α) / 1000)
            z := (d : α) / 1000 } := by
  refine ⟨rfl, ?_, ?_, rfl⟩
  · intro r
    cases r <;> rfl
  · intro l
    cases l <;> rfl

theorem multiply_getD (a b : List α) (i j : Nat) (hi : i < 4) (hj : j < 4) :
    (multiplyMatricesRowMajor a b).getD (i * 4 + j) 0 =
      0 + a.getD (i * 4 + 0) 0 * b.getD (0 * 4 + j) 0
        + a.getD (i * 4 + 1) 0 * b.getD (1 * 4 + j) 0
        + a.getD (i * 4 + 2) 0 * b.getD (2 * 4 + j) 0
        + a.getD (i * 4 + 3) 0 * b.getD (3 * 4 + j) 0 := by
  interval_cases i <;> interval_cases j <;> rfl

theorem toMatrix_multiply (a b : List α) :
    toMatrix (multiplyMatricesRowMajor a b) = toMatrix a * toMatrix b := by
  ext i j
  rw [Matrix.mul_apply, Fin.sum_univ_four]
  show (multiplyMatricesRowMajor a b).getD (i.val * 4 + j.val) 0 =
    a.getD (i.val * 4 + 0) 0 * b.getD (0 * 4 + j.val) 0
      + a.getD (i.val * 4 + 1) 0 * b.getD (1 * 4 + j.val) 0
      + a.getD (i.val * 4 + 2) 0 * b.getD (2 * 4 + j.val) 0
      + a.getD (i.val * 4 + 3) 0 * b.getD (3 * 4 + j.val) 0
  rw [multiply_getD a b i.val j.val i.isLt j.isLt, zero_add]

theorem createST_ClientCameraMatrix_eq (cos sin : α → α) (camera : Camera α) :
    toMatrix (createST_ClientCameraMatrix cos sin camera) =
      translation camera.position * scaling camera.scale
        * rotationZ (cos camera.rotation.z) (sin camera.rotation.z)
        * rotationY (cos camera.rotation.y) (sin camera.rotation.y)
        * rotationX (cos camera.rotation.x) (sin camera.rotation.x) := by
  have hI : toMatrix ([1, 0, 0, 0, 0, 1, 0, 0, 0, 0, 1, 0, 0, 0, 0, 1] : List α) = 1 := by
    ext i j
    fin_cases i <;> fin_cases j <;> rfl
  have hX : ∀ c s : α, toMatrix [1, 0, 0, 0, 0, c, -s, 0, 0, s, c, 0, 0, 0, 0, 1]
      = rotationX c s := by
    intro c s
    ext i j
    fin_cases i <;> fin_cases j <;> rfl
  have hY : ∀ c s : α, toMatrix [c, 0, s, 0, 0, 1, 0, 0, -s, 0, c, 0, 0, 0, 0, 1]
      = rotationY c s := by
    intro c s
    ext i j
    fin_cases i <;> fin_cases j <;> rfl
  have hZ : ∀ c s : α, toMatrix [c, -s, 0, 0, s, c, 0, 0, 0, 0, 1, 0, 0, 0, 0, 1]
      = rotationZ c s := by
    intro c s
    ext i j
    fin_cases i <;> fin_cases j <;> rfl
  have hS : ∀ v : Vec3 α, toMatrix [v.x, 0, 0, 0, 0, v.y, 0, 0, 0, 0, v.z, 0, 0, 0, 0, 1]
      = scaling v := by
    intro v
    ext i j
    fin_cases i <;> fin_cases j <;> rfl
  have hT : ∀ v : Vec3 α, toMatrix [1, 0, 0, v.x, 0, 1, 0, v.y, 0, 0, 1, v.z, 0, 0, 0, 1]
      = translation v := by
    intro v
    ext i j
    fin_cases i <;> fin_cases j <;> rfl
  unfold createST_ClientCameraMatrix
  simp only [toMatrix_multiply, hI, hX, hY, hZ, hS, hT, Matrix.mul_one, Matrix.mul_assoc]

theorem multiplyMatrix4x4_eq (m : List α) (v : Vec4 α) :
    (multiplyMatrix4x4 m v).x = Matrix.mulVec (toMatrix m) ![v.x, v.y, v.z, v.w] 0
      ∧ (multiplyMatrix4x4 m v).y = Matrix.mulVec (toMatrix m) ![v.x, v.y, v.z, v.w] 1
      ∧ (multiplyMatrix4x4 m v).z = Matrix.mulVec (toMatrix m) ![v.x, v.y, v.z, v.w] 2 := by
  refine ⟨?_, ?_, ?_⟩
  · rw [Matrix.mulVec, Matrix.dotProduct, Fin.sum_univ_four]
    show v.x * m.getD (0*4+0) 0 + v.y * m.getD (0*4+1) 0 + v.z * m.getD (0*4+2) 0
        + v.w * m.getD (0*4+3) 0
      = m.getD (0*4+0) 0 * v.x + m.getD (0*4+1) 0 * v.y + m.getD (0*4+2) 0 * v.z
        + m.getD (0*4+3) 0 * v.w
    ring
  · rw [Matrix.mulVec, Matrix.dotProduct, Fin.sum_univ_four]
    show v.x * m.getD (1*4+0) 0 + v.y * m.getD (1*4+1) 0 + v.z * m.getD (1*4+2) 0
        + v.w * m.getD (1*4+3) 0
      = m.getD (1*4+0) 0 * v.x + m.getD (1*4+1) 0 * v.y + m.getD (1*4+2) 0 * v.z
        + m.getD (1*4+3) 0 * v.w
    ring
  · rw [Matrix.mulVec, Matrix.dotProduct, Fin.sum_univ_four]
    show v.x * m.getD (2*4+0) 0 + v.y * m.getD (2*4+1) 0 + v.z * m.getD (2*4+2) 0
        + v.w * m.getD (2*4+3) 0
      = m.getD (2*4+0) 0 * v.x + m.getD (2*4+1) 0 * v.y + m.getD (2*4+2) 0 * v.z
        + m.getD (2*4+3) 0 * v.w
    ring

theorem rotationZYX_bottom (cos sin : α → α) (camera : Camera α) (a b c : α) :
    Matrix.mulVec (rotationZYX cos sin camera) ![a, b, c, 1] 3 = 1 := by
  simp [rotationZYX, rotationX, rotationY, rotationZ, Matrix.mulVec, Matrix.dotProduct,
    Matrix.mul_apply, Fin.sum_univ_four]

theorem translation_scaling_mulVec (t s : Vec3 α) (q : Fin 4 → α) :
    Matrix.mulVec (translation t * scaling s) q 0 = s.x * q 0 + t.x * q 3
      ∧ Matrix.mulVec (translation t * scaling s) q 1 = s.y * q 1 + t.y * q 3
      ∧ Matrix.mulVec (translation t * scaling s) q 2 = s.z * q 2 + t.z * q 3 := by
  refine ⟨?_, ?_, ?_⟩ <;>
    simp [translation, scaling, Matrix.mulVec, Matrix.dotProduct, Matrix.mul_apply,
      Fin.sum_univ_four]

/-- C7: the array built by `createST_ClientCameraMatrix` has 16 entries and is,
read row-major, the matrix product `T * S * Rz * Ry * Rx` of the translation by
the position, the scaling `diag(scale, 1)` and the right-handed rotations
about Z, Y and X; hence `transformSTClientCompliant` maps the projected point
`p` to `position + scale * (Rz * Ry * Rx * p)` componentwise, with no axis
flip and no offset. -/
theorem camera_matrix_composition (cos sin : α → α) (camera l r : Camera α) (x y d : Nat)
    (flag : Bool) :
    (createST_ClientCameraMatrix cos sin camera).length = 16
      ∧ toMatrix (createST_ClientCameraMatrix cos sin camera) =
          translation camera.position * scaling camera.scale
            * rotationZ (cos camera.rotation.z) (sin camera.rotation.z)
            * rotationY (cos camera.rotation.y) (sin camera.rotation.y)
            * rotationX (cos camera.rotation.x) (sin camera.rotation.x)
      ∧ transformSTClientCompliant cos sin x y d flag (some l) (some r) =
          { x := (if flag then l else r).position.x + (if flag then l else r).scale.x *
              Matrix.mulVec (rotationZYX cos sin (if flag then l else r))
                ![(projectedPoint x y d : Vec3 α).x, (projectedPoint x y d : Vec3 α).y,
                  (projectedPoint x y d : Vec3 α).z, 1] 0
            y := (if flag then l else r).position.y + (if flag then l else r).scale.y *
              Matrix.mulVec (rotationZYX cos sin (if flag then l else r))
                ![(projectedPoint x y d : Vec3 α).x, (projectedPoint x y d : Vec3 α).y,
                  (projectedPoint x y d : Vec3 α).z, 1] 1
            z := (if flag then l else r).position.z + (if flag then l else r).scale.z *
              Matrix.mulVec (rotationZYX cos sin (if flag then l else r))
                ![(projectedPoint x y d : Vec3 α).x, (projectedPoint x y d : Vec3 α).y,
                  (projectedPoint x y d : Vec3 α).z, 1] 2 } := by
  refine ⟨rfl, createST_ClientCameraMatrix_eq cos sin camera, ?_⟩
  have hT : transformSTClientCompliant cos sin x y d flag (some l) (some r) =
      { x := (multiplyMatrix4x4 (createST_ClientCameraMatrix cos sin (if flag then l else r))
              { x := (projectedPoint x y d : Vec3 α).x, y := (projectedPoint x y d : Vec3 α).y,
                z := (projectedPoint x y d : Vec3 α).z, w := 1 }).x
        y := (multiplyMatrix4x4 (createST_ClientCameraMatrix cos sin (if flag then l else r))
              { x := (projectedPoint x y d : Vec3 α).x, y := (projectedPoint x y d : Vec3 α).y,
                z := (projectedPoint x y d : Vec3 α).z, w := 1 }).y
        z := (multiplyMatrix4x4 (createST_ClientCameraMatrix cos sin (if flag then l else r))
              { x := (projectedPoint x y d : Vec3 α).x, y := (projectedPoint x y d : Vec3 α).y,
                z := (projectedPoint x y d : Vec3 α).z, w := 1 }).z } := rfl
  rw [hT]
  generalize (if flag then l else r) = cam
  have hM : toMatrix (createST_ClientCameraMatrix cos sin cam) =
      (translation cam.position * scaling cam.scale) * rotationZYX cos sin cam := by
    rw [createST_ClientCameraMatrix_eq, rotationZYX]
    simp only [Matrix.mul_assoc]
  have hv := multiplyMatrix4x4_eq (createST_ClientCameraMatrix cos sin cam)
    { x := (projectedPoint x y d : Vec3 α).x, y := (projectedPoint x y d : Vec3 α).y,
      z := (projectedPoint x y d : Vec3 α).z, w := 1 }
  rw [hM, ← Matrix.mulVec_mulVec] at hv
  have ht := translation_scaling_mulVec cam.position cam.scale
    (Matrix.mulVec (rotationZYX cos sin cam)
      ![(projectedPoint x y d : Vec3 α).x, (projectedPoint x y d : Vec3 α).y,
        (projectedPoint x y d : Vec3 α).z, 1])
  rw [rotationZYX_bottom] at ht
  rw [hv.1, hv.2.1, hv.2.2, ht.1, ht.2.1, ht.2.2]
  simp only [mul_one]
  congr 1 <;> ring

end TransformClaims


/-! ## Determinism of the decompressor -/

section Determinism

variable {α : Type} [Field α]

theorem transformSTClientCompliantLogged_fst (cos sin : α → α) (e : Effects) (x y depth : Nat)
    (isLeft : Bool) (l r : Option (Camera α)) :
    (transformSTClientCompliantLogged cos sin e x y depth isLeft l r).1 =
      transformSTClientCompliant cos sin x y depth isLeft l r := by
  cases l <;> cases r <;> rfl

theorem runLoopLogged_eq (cos sin : α → α) (n : Nat) (l r : Option (Camera α)) (depth : Nat)
    (isLeft : Bool) (j count : Nat) (points : List α) (e : Effects) :
    ((runLoopLogged cos sin n l r depth isLeft j count points e).1,
      (runLoopLogged cos sin n l r depth isLeft j count points e).2.1,
      (runLoopLogged cos sin n l r depth isLeft j count points e).2.2.1) =
      runLoop cos sin n l r depth isLeft j count points := by
  induction j generalizing count points e with
  | zero => rfl
  | succ j ih =>
    unfold runLoopLogged runLoop
    by_cases hc : count ≥ 640 * 480
    · rw [if_pos hc, if_pos hc]
    · rw [if_neg hc, if_neg hc]
      by_cases hk : (count + 1) % n ≠ 0
      · rw [if_pos hk, if_pos hk]
        exact ih _ _ _
      · rw [if_neg hk, if_neg hk]
        simp only [transformSTClientCompliantLogged_fst]
        split
        · rfl
        · exact ih _ _ _

theorem chunkRunLogged_eq (cos sin : α → α) (n : Nat) (l r : Option (Camera α))
    (first second : Nat) (st : DecodeState α) (e : Effects) :
    ((chunkRunLogged cos sin n l r first second st e).1,
      (chunkRunLogged cos sin n l r first second st e).2.1,
      (chunkRunLogged cos sin n l r first second st e).2.2.1) =
      chunkRun cos sin n l r first second st := by
  unfold chunkRunLogged chunkRun
  dsimp only
  split
  · exact runLoopLogged_eq _ _ _ _ _ _ _ _ _ _ _
  · rfl

theorem chunkBodyLogged_eq (cos sin : α → α) (n : Nat) (l r : Option (Camera α))
    (first second : Nat) (st : DecodeState α) (e : Effects) :
    ((chunkBodyLogged cos sin n l r first second st e).1,
      (chunkBodyLogged cos sin n l r first second st e).2.1) =
      chunkBody cos sin n l r first second st := by
  have h := chunkRunLogged_eq cos sin n l r first second st e
  unfold chunkBodyLogged chunkBody
  rw [← h]
  dsimp only
  split_ifs <;> rfl

theorem decodeLoopLogged_eq (cos sin : α → α) (n : Nat) (l r : Option (Camera α))
    (payload : List Nat) (st : DecodeState α) (e : Effects) :
    (decodeLoopLogged cos sin n l r payload st e).1 = decodeLoop cos sin n l r payload st := by
  generalize hlen : payload.length = m
  induction m using Nat.strong_induction_on generalizing payload st e with
  | _ m ih =>
    match payload, hlen with
    | [], _ => rfl
    | [_], _ => rfl
    | first :: second :: rest, hlen =>
      have h := chunkBodyLogged_eq cos sin n l r first second st e
      rw [decodeLoopLogged, decodeLoop_cons, ← h]
      dsimp only
      split
      · rfl
      · exact ih rest.length (by simp at hlen; omega) rest _ _ rfl

theorem decompressFrameLogged_fst (cos sin : α → α) (this : STMOVParser α) (e : Effects)
    (frameData : List Nat) (l r : Option (Camera α)) :
    (decompressFrameLogged cos sin this e frameData l r).1 =
      decompressFrame cos sin this.parseSubsample frameData l r := by
  unfold decompressFrameLogged decompressFrame
  split
  · rfl
  · rw [← decodeLoopLogged_eq cos sin _ l r frameData _ e]
    dsimp only
    split_ifs <;> rfl

/-- C5: the array returned by `decompressFrame` is a function of the payload,
the two calibration arguments and `parseSubsample` alone: two calls with the
same arguments on parser objects with the same `parseSubsample` return the
same array, whatever the other fields of the parser objects, whatever
`Math.random()` returns and however many values and log lines earlier calls
have consumed or written. -/
theorem decompressFrame_deterministic (cos sin : α → α) (this₁ this₂ : STMOVParser α)
    (e₁ e₂ : Effects) (frameData : List Nat) (l r : Option (Camera α))
    (h : this₁.parseSubsample = this₂.parseSubsample) :
    (decompressFrameLogged cos sin this₁ e₁ frameData l r).1 =
        (decompressFrameLogged cos sin this₂ e₂ frameData l r).1
      ∧ (decompressFrameLogged cos sin this₁ e₁ frameData l r).1 =
        decompressFrame cos sin this₁.parseSubsample frameData l r := by
  rw [decompressFrameLogged_fst, decompressFrameLogged_fst, h]
  exact ⟨rfl, rfl⟩

theorem decompressFrame_deterministic_witness :
    (sampleParser 2 0).parseSubsample = (sampleParser 2 9).parseSubsample
      ∧ (decompressFrameLogged (fun _ : ℚ => 1) (fun _ : ℚ => 0) (sampleParser 2 0)
            quietEffects [100, 12, 0, 0, 50, 4] none none).1 =
          (decompressFrameLogged (fun _ : ℚ => 1) (fun _ : ℚ => 0) (sampleParser 2 9)
            noisyEffects [100, 12, 0, 0, 50, 4] none none).1 :=
  ⟨rfl, (decompressFrame_deterministic (fun _ : ℚ => 1) (fun _ : ℚ => 0) (sampleParser 2 0)
    (sampleParser 2 9) quietEffects noisyEffects [100, 12, 0, 0, 50, 4] none none rfl).1⟩

end Determinism


/-! ## Frame cache -/

section FrameCacheLemmas

variable {κ β : Type} [DecidableEq κ]

theorem mapHas_iff (m : List (κ × β)) (key : κ) :
    mapHas m key = true ↔ key ∈ m.map Prod.fst := by
  unfold mapHas
  simp only [List.any_eq_true, decide_eq_true_eq, List.mem_map]

theorem mapSet_of_not_mem (m : List (κ × β)) (key : κ) (value : β)
    (h : key ∉ m.map Prod.fst) : mapSet m key value = m ++ [(key, value)] := by
  unfold mapSet
  rw [if_neg (by rw [mapHas_iff]; exact h)]

theorem mapDelete_head (e : κ × β) (m : List (κ × β)) (h : e.1 ∉ m.map Prod.fst) :
    mapDelete (e :: m) e.1 = m := by
  unfold mapDelete
  rw [List.filter_cons]
  simp only [ne_eq, not_true_eq_false, decide_False, Bool.false_eq_true, if_false]
  apply List.filter_eq_self.mpr
  intro a ha
  have : a.1 ≠ e.1 := by
    intro hEq
    exact h (hEq ▸ List.mem_map_of_mem Prod.fst ha)
  simpa using this

theorem mapGet_of_not_mem (m : List (κ × β)) (key : κ) (h : key ∉ m.map Prod.fst) :
    mapGet m key = none := by
  unfold mapGet
  rw [List.find?_eq_none.mpr]
  · rfl
  · intro e he
    have : e.1 ≠ key := by
      intro hEq
      exact h (hEq ▸ List.mem_map_of_mem Prod.fst he)
    simpa using this

theorem mapGet_of_mem (m : List (κ × β)) (key : κ) (value : β)
    (hnd : (m.map Prod.fst).Nodup) (h : (key, value) ∈ m) : mapGet m key = some value := by
  induction m with
  | nil => cases h
  | cons e m ih =>
    unfold mapGet
    rw [List.map_cons, List.nodup_cons] at hnd
    rcases List.mem_cons.mp h with h1 | h1
    · subst h1
      simp
    · have hne : e.1 ≠ key := by
        intro hEq
        exact hnd.1 (hEq ▸ List.mem_map_of_mem Prod.fst h1)
      rw [List.find?_cons_of_neg _ (by simpa using hne)]
      exact ih hnd.2 h1

end FrameCacheLemmas

section FrameCacheInvariant

variable {β : Type}

/-- The cache invariant: `frameCacheOrder` lists the keys of `frameCache` in
order, without repetition, and there are at most `maxCachedFrames` of them. -/
theorem addFrameToCache_invariant (maxCachedFrames : Nat) (c : FrameCache β) (unitIndex : Nat)
    (frameIndex : Int) (frameData : β)
    (hkeys : c.frameCache.map Prod.fst = c.frameCacheOrder)
    (hnd : c.frameCacheOrder.Nodup) (hlen : c.frameCacheOrder.length ≤ maxCachedFrames) :
    (addFrameToCache maxCachedFrames c unitIndex frameIndex frameData).frameCache.map Prod.fst
        = (addFrameToCache maxCachedFrames c unitIndex frameIndex frameData).frameCacheOrder
      ∧ (addFrameToCache maxCachedFrames c unitIndex frameIndex frameData).frameCacheOrder.Nodup
      ∧ (addFrameToCache maxCachedFrames c unitIndex frameIndex frameData).frameCacheOrder.length
          ≤ maxCachedFrames := by
  unfold addFrameToCache
  by_cases hh : mapHas c.frameCache (cacheKey unitIndex frameIndex) = true
  · simp only [hh, if_true]
    exact ⟨hkeys, hnd, hlen⟩
  · simp only [hh, Bool.false_eq_true, if_false]
    have hnot : cacheKey unitIndex frameIndex ∉ c.frameCache.map Prod.fst := by
      rw [← mapHas_iff]; exact hh
    rw [mapSet_of_not_mem _ _ _ hnot]
    have hnd2 : (c.frameCacheOrder ++ [cacheKey unitIndex frameIndex]).Nodup := by
      rw [List.nodup_append]
      refine ⟨hnd, by simp, ?_⟩
      intro a ha hb
      rw [List.mem_singleton] at hb
      subst hb
      exact hnot (hkeys ▸ ha)
    by_cases hgt : (c.frameCacheOrder ++ [cacheKey unitIndex frameIndex]).length > maxCachedFrames
    · rw [if_pos hgt]
      cases hc : c.frameCache with
      | nil =>
        have ho : c.frameCacheOrder = [] := by rw [← hkeys, hc]; rfl
        simp only [ho, List.nil_append]
        refine ⟨?_, by simp, by simp⟩
        have hdel : mapDelete [(cacheKey unitIndex frameIndex, frameData)]
            (cacheKey unitIndex frameIndex) = [] :=
          mapDelete_head (cacheKey unitIndex frameIndex, frameData)
            ([] : List ((Nat × Int) × β)) (by simp)
        rw [hdel]
        rfl
      | cons e m =>
        have ho : c.frameCacheOrder = e.1 :: m.map Prod.fst := by rw [← hkeys, hc]; rfl
        rw [ho] at hnd2 hgt hlen
        simp only [ho, List.cons_append]
        rw [List.cons_append, List.nodup_cons] at hnd2
        have hdel : mapDelete (e :: (m ++ [(cacheKey unitIndex frameIndex, frameData)])) e.1
            = m ++ [(cacheKey unitIndex frameIndex, frameData)] := by
          apply mapDelete_head
          simpa using hnd2.1
        rw [hdel]
        refine ⟨by simp, hnd2.2, ?_⟩
        simp only [List.length_append, List.length_cons, List.length_map, List.length_nil] at hlen ⊢
        omega
    · rw [if_neg hgt]
      refine ⟨by simp [hkeys], hnd2, by dsimp only; omega⟩

theorem cacheRun_invariant (maxCachedFrames : Nat) (calls : List (CacheCall β))
    (c : FrameCache β) (hkeys : c.frameCache.map Prod.fst = c.frameCacheOrder)
    (hnd : c.frameCacheOrder.Nodup) (hlen : c.frameCacheOrder.length ≤ maxCachedFrames) :
    (cacheRun maxCachedFrames c calls).frameCache.map Prod.fst
        = (cacheRun maxCachedFrames c calls).frameCacheOrder
      ∧ (cacheRun maxCachedFrames c calls).frameCacheOrder.Nodup
      ∧ (cacheRun maxCachedFrames c calls).frameCacheOrder.length ≤ maxCachedFrames := by
  induction calls generalizing c with
  | nil => exact ⟨hkeys, hnd, hlen⟩
  | cons call rest ih =>
    unfold cacheRun
    rw [List.foldl_cons]
    cases call with
    | add unitIndex frameIndex frameData =>
      obtain ⟨h1, h2, h3⟩ := addFrameToCache_invariant maxCachedFrames c unitIndex frameIndex
        frameData hkeys hnd hlen
      exact ih _ h1 h2 h3
    | get unitIndex frameIndex => exact ih c hkeys hnd hlen

end FrameCacheInvariant

section FrameCacheFifo

variable {β : Type}

theorem cacheRun_eq_adds (maxCachedFrames : Nat) (calls : List (CacheCall β))
    (c : FrameCache β) :
    cacheRun maxCachedFrames c calls =
      (cacheAdds calls).foldl
        (fun c kv => addFrameToCache maxCachedFrames c kv.1.1 kv.1.2 kv.2) c := by
  induction calls generalizing c with
  | nil => rfl
  | cons call rest ih =>
    unfold cacheRun at ih ⊢
    rw [List.foldl_cons]
    cases call with
    | add unitIndex frameIndex frameData =>
      rw [cacheAdds, List.foldl_cons]
      exact ih _
    | get unitIndex frameIndex =>
      rw [cacheAdds]
      exact ih _

/-- Inserting a new key into a cache that holds the entries `l`: the entry is
appended and, if that makes more than `maxCachedFrames`, the first entry is
dropped. -/
theorem addFrameToCache_new (maxCachedFrames : Nat) (l : List ((Nat × Int) × β))
    (a : (Nat × Int) × β) (hnd : ((l ++ [a]).map Prod.fst).Nodup) :
    addFrameToCache maxCachedFrames
        { frameCache := l, frameCacheOrder := l.map Prod.fst } a.1.1 a.1.2 a.2 =
      if l.length + 1 > maxCachedFrames then
        { frameCache := (l ++ [a]).tail, frameCacheOrder := (l ++ [a]).tail.map Prod.fst }
      else { frameCache := l ++ [a], frameCacheOrder := (l ++ [a]).map Prod.fst } := by
  have hkey : cacheKey a.1.1 a.1.2 = a.1 := rfl
  have hnot : a.1 ∉ l.map Prod.fst := by
    rw [List.map_append, List.nodup_append] at hnd
    intro h
    exact hnd.2.2 h (by simp)
  unfold addFrameToCache
  simp only [hkey]
  rw [if_neg (by rw [mapHas_iff]; exact hnot), mapSet_of_not_mem _ _ _ hnot]
  have hlen : (l.map Prod.fst ++ [a.1]).length = l.length + 1 := by simp
  rw [hlen]
  split
  · cases l with
    | nil =>
      simp only [List.map_nil, List.nil_append, List.tail_cons]
      rw [mapDelete_head a [] (by simp)]
    | cons e m =>
      simp only [List.map_cons, List.cons_append, List.tail_cons, List.map_append, List.map_nil]
      rw [mapDelete_head e (m ++ [a]) (by
        rw [List.cons_append, List.map_cons, List.nodup_cons] at hnd
        exact hnd.1)]
  · simp

theorem cacheAddAll_empty (maxCachedFrames : Nat) (kvs : List ((Nat × Int) × β))
    (hnd : (kvs.map Prod.fst).Nodup) :
    kvs.foldl (fun c kv => addFrameToCache maxCachedFrames c kv.1.1 kv.1.2 kv.2)
        FrameCache.empty =
      { frameCache := kvs.drop (kvs.length - maxCachedFrames)
        frameCacheOrder := (kvs.drop (kvs.length - maxCachedFrames)).map Prod.fst } := by
  induction kvs using List.reverseRecOn with
  | nil => simp [FrameCache.empty]
  | append_singleton l a ih =>
    have hndl : (l.map Prod.fst).Nodup := by
      rw [List.map_append, List.nodup_append] at hnd
      exact hnd.1
    rw [List.foldl_append, ih hndl, List.foldl_cons, List.foldl_nil]
    have hsub : ((l.drop (l.length - maxCachedFrames) ++ [a]).map Prod.fst).Nodup := by
      have h1 : (l.drop (l.length - maxCachedFrames) ++ [a]).Sublist (l ++ [a]) :=
        List.Sublist.append (List.drop_sublist _ _) (List.Sublist.refl _)
      exact List.Nodup.sublist (List.Sublist.map Prod.fst h1) hnd
    rw [addFrameToCache_new maxCachedFrames _ a hsub]
    simp only [List.length_append, List.length_cons, List.length_nil, List.length_drop]
    by_cases hK : l.length ≥ maxCachedFrames
    · rw [if_pos (by omega)]
      have hd : (l ++ [a]).drop (l.length + 1 - maxCachedFrames) =
          (l.drop (l.length - maxCachedFrames) ++ [a]).tail := by
        have e1 : l.length + 1 - maxCachedFrames = (l.length - maxCachedFrames) + 1 := by omega
        rw [e1, ← List.drop_drop, List.drop_append_of_le_length (by omega), List.drop_one]
      rw [Nat.zero_add, hd]
    · rw [if_neg (by omega)]
      have e1 : l.length - maxCachedFrames = 0 := by omega
      have e2 : l.length + 1 - maxCachedFrames = 0 := by omega
      rw [Nat.zero_add, e1, e2]
      simp

end FrameCacheFifo

section FrameCacheClaims

variable {β : Type}

/-- C14: starting from the empty cache of capacity `K`, after any sequence of
calls whose insertions are `K + 1` distinct keys `k1, ..., k(K+1)` in that
order, with `getFrameFromCache` calls interleaved anywhere, `k1` is absent,
`k2, ..., k(K+1)` are present with the values inserted for them and they are
the eviction order; the result depends on the insertions only, and a
`getFrameFromCache` call leaves the cache, hence the next entry to evict,
unchanged. -/
theorem cache_fifo (K : Nat) (calls : List (CacheCall β)) (k1 : Nat × Int) (v1 : β)
    (rest : List ((Nat × Int) × β)) (hadds : cacheAdds calls = (k1, v1) :: rest)
    (hlen : rest.length = K) (hnd : (((k1, v1) :: rest).map Prod.fst).Nodup) :
    getFrameFromCache (cacheRun K FrameCache.empty calls) k1.1 k1.2 = none
      ∧ (∀ kv ∈ rest,
          getFrameFromCache (cacheRun K FrameCache.empty calls) kv.1.1 kv.1.2 = some kv.2)
      ∧ (cacheRun K FrameCache.empty calls).frameCacheOrder = rest.map Prod.fst
      ∧ (cacheRun K FrameCache.empty calls).frameCache = rest
      ∧ (∀ calls2 : List (CacheCall β), cacheAdds calls2 = cacheAdds calls →
          cacheRun K FrameCache.empty calls2 = cacheRun K FrameCache.empty calls)
      ∧ (∀ (c : FrameCache β) (unitIndex : Nat) (frameIndex : Int),
          cacheStep K c (.get unitIndex frameIndex) = c) := by
  have hrun : cacheRun K FrameCache.empty calls =
      { frameCache := rest, frameCacheOrder := rest.map Prod.fst } := by
    rw [cacheRun_eq_adds, hadds, cacheAddAll_empty K _ hnd]
    have : ((k1, v1) :: rest).length - K = 1 := by
      simp only [List.length_cons]; omega
    rw [this]
    rfl
  have hnd2 := hnd
  rw [List.map_cons, List.nodup_cons] at hnd2
  refine ⟨?_, ?_, ?_, ?_, ?_, fun _ _ _ => rfl⟩
  · rw [hrun]
    exact mapGet_of_not_mem rest k1 hnd2.1
  · intro kv hkv
    rw [hrun]
    exact mapGet_of_mem rest kv.1 kv.2 hnd2.2 hkv
  · rw [hrun]
  · rw [hrun]
  · intro calls2 h2
    rw [cacheRun_eq_adds, cacheRun_eq_adds, h2]

theorem cache_fifo_witness :
    (cacheAdds [CacheCall.add 0 0 "a", .get 0 0, .add 0 1 "b", .get 0 0, .add 1 0 "c"]
          = ((0, 0), "a") :: [((0, 1), "b"), ((1, 0), "c")]
        ∧ [(((0 : Nat), (1 : Int)), "b"), ((1, 0), "c")].length = 2
        ∧ List.Nodup (((((0 : Nat), (0 : Int)), "a") :: [((0, 1), "b"), ((1, 0), "c")]).map
            Prod.fst))
      ∧ getFrameFromCache (cacheRun 2 FrameCache.empty
          [CacheCall.add 0 0 "a", .get 0 0, .add 0 1 "b", .get 0 0, .add 1 0 "c"]) 0 0 = none :=
  ⟨⟨rfl, rfl, by decide⟩,
    (cache_fifo 2 [CacheCall.add 0 0 "a", .get 0 0, .add 0 1 "b", .get 0 0, .add 1 0 "c"]
      (0, 0) "a" [((0, 1), "b"), ((1, 0), "c")] rfl rfl (by decide)).1⟩

theorem addFrameToCache_cases (K : Nat) (c : FrameCache β) (unitIndex : Nat)
    (frameIndex : Int) (frameData : β)
    (hkeys : c.frameCache.map Prod.fst = c.frameCacheOrder) (hnd : c.frameCacheOrder.Nodup) :
    addFrameToCache K c unitIndex frameIndex frameData = c
      ∨ addFrameToCache K c unitIndex frameIndex frameData =
          { frameCache := c.frameCache ++ [(cacheKey unitIndex frameIndex, frameData)]
            frameCacheOrder := c.frameCacheOrder ++ [cacheKey unitIndex frameIndex] }
      ∨ addFrameToCache K c unitIndex frameIndex frameData =
          { frameCache := (c.frameCache ++ [(cacheKey unitIndex frameIndex, frameData)]).tail
            frameCacheOrder := (c.frameCacheOrder ++ [cacheKey unitIndex frameIndex]).tail } := by
  by_cases hh : mapHas c.frameCache (cacheKey unitIndex frameIndex) = true
  · left
    unfold addFrameToCache
    simp only [hh, if_true]
  · right
    have hnot : cacheKey unitIndex frameIndex ∉ c.frameCache.map Prod.fst := by
      rw [← mapHas_iff]; exact hh
    have hc : c = { frameCache := c.frameCache, frameCacheOrder := c.frameCache.map Prod.fst } := by
      cases c
      simp only at hkeys
      rw [hkeys]
    have hnd2 : ((c.frameCache ++ [(cacheKey unitIndex frameIndex, frameData)]).map
        Prod.fst).Nodup := by
      rw [List.map_append, List.nodup_append]
      refine ⟨hkeys ▸ hnd, by simp, ?_⟩
      intro a ha hb
      simp only [List.map_cons, List.map_nil, List.mem_singleton] at hb
      subst hb
      exact hnot ha
    have hnew := addFrameToCache_new K c.frameCache (cacheKey unitIndex frameIndex, frameData) hnd2
    rw [← hc] at hnew
    have e1 : (cacheKey unitIndex frameIndex, frameData).1.1 = unitIndex := rfl
    have e2 : (cacheKey unitIndex frameIndex, frameData).1.2 = frameIndex := rfl
    rw [e1, e2] at hnew
    rw [hnew]
    split
    · right
      rw [← hkeys]
      simp [List.map_tail]
    · left
      rw [← hkeys]
      simp

/-- C15: after any sequence of `addFrameToCache` and `getFrameFromCache` calls
from the empty cache, `frameCache` and `frameCacheOrder` hold the same number
of entries and never more than the capacity (10 for the default
`MAX_CACHED_FRAMES`); a further insert removes at most one of the cached
keys and never makes the cache smaller. -/
theorem cache_bounded (K : Nat) (calls : List (CacheCall β)) :
    (cacheRun K FrameCache.empty calls).frameCache.length
        = (cacheRun K FrameCache.empty calls).frameCacheOrder.length
      ∧ (cacheRun K FrameCache.empty calls).frameCacheOrder.length ≤ K
      ∧ (cacheRun MAX_CACHED_FRAMES (FrameCache.empty : FrameCache β) calls).frameCache.length
          ≤ 10
      ∧ (∀ (unitIndex : Nat) (frameIndex : Int) (frameData : β),
          ((cacheRun K FrameCache.empty calls).frameCacheOrder.filter fun k =>
              k ∉ (addFrameToCache K (cacheRun K FrameCache.empty calls) unitIndex frameIndex
                frameData).frameCacheOrder).length ≤ 1
            ∧ (cacheRun K FrameCache.empty calls).frameCache.length
                ≤ (addFrameToCache K (cacheRun K FrameCache.empty calls) unitIndex frameIndex
                    frameData).frameCache.length) := by
  have hinv : ∀ K' : Nat,
      (cacheRun K' (FrameCache.empty : FrameCache β) calls).frameCache.map Prod.fst
          = (cacheRun K' FrameCache.empty calls).frameCacheOrder
        ∧ (cacheRun K' (FrameCache.empty : FrameCache β) calls).frameCacheOrder.Nodup
        ∧ (cacheRun K' (FrameCache.empty : FrameCache β) calls).frameCacheOrder.length ≤ K' :=
    fun K' => cacheRun_invariant K' calls FrameCache.empty rfl List.nodup_nil (Nat.zero_le _)
  have hlenEq : ∀ K' : Nat,
      (cacheRun K' (FrameCache.empty : FrameCache β) calls).frameCache.length
        = (cacheRun K' FrameCache.empty calls).frameCacheOrder.length := by
    intro K'
    rw [← (hinv K').1, List.length_map]
  refine ⟨hlenEq K, (hinv K).2.2, ?_, ?_⟩
  · rw [hlenEq]
    exact (hinv MAX_CACHED_FRAMES).2.2
  · intro unitIndex frameIndex frameData
    obtain ⟨hkeys, hnd, _⟩ := hinv K
    generalize cacheRun K FrameCache.empty calls = c at hkeys hnd
    rcases addFrameToCache_cases K c unitIndex frameIndex frameData hkeys hnd with h | h | h
    · rw [h]
      refine ⟨?_, le_refl _⟩
      rw [List.filter_eq_nil_iff.mpr (by intro a ha; simpa using ha)]
      simp
    · rw [h]
      refine ⟨?_, by simp⟩
      rw [List.filter_eq_nil_iff.mpr (by
        intro a ha
        simp only [List.mem_append, decide_not, Bool.not_eq_true', decide_eq_false_iff_not,
          not_not]
        exact Or.inl ha)]
      simp
    · rw [h]
      cases hc : c.frameCache with
      | nil =>
        have ho : c.frameCacheOrder = [] := by rw [← hkeys, hc]; rfl
        simp [ho]
      | cons e m =>
        have ho : c.frameCacheOrder = e.1 :: m.map Prod.fst := by rw [← hkeys, hc]; rfl
        rw [ho]
        simp only [List.cons_append, List.tail_cons, List.length_cons, List.length_append,
          List.length_nil]
        refine ⟨?_, by omega⟩
        rw [List.filter_cons]
        have hm : (m.map Prod.fst).filter (fun k =>
            decide (k ∉ m.map Prod.fst ++ [cacheKey unitIndex frameIndex])) = [] := by
          apply List.filter_eq_nil_iff.mpr
          intro a ha
          simp only [List.mem_append, decide_not, Bool.not_eq_true', decide_eq_false_iff_not,
            not_not]
          exact Or.inl ha
        rw [hm]
        split <;> simp

/-- C16: `addFrameToCache` with a key that is already cached changes nothing:
the cache and the insertion order are the same objects as before, so the
stored frame for the key is kept and nothing is evicted. -/
theorem cache_add_existing (K : Nat) (c : FrameCache β) (unitIndex : Nat) (frameIndex : Int)
    (frameData : β) (h : cacheKey unitIndex frameIndex ∈ c.frameCache.map Prod.fst) :
    addFrameToCache K c unitIndex frameIndex frameData = c
      ∧ getFrameFromCache (addFrameToCache K c unitIndex frameIndex frameData) unitIndex
          frameIndex = getFrameFromCache c unitIndex frameIndex
      ∧ (addFrameToCache K c unitIndex frameIndex frameData).frameCacheOrder = c.frameCacheOrder
      ∧ (addFrameToCache K c unitIndex frameIndex frameData).frameCache = c.frameCache := by
  have hadd : addFrameToCache K c unitIndex frameIndex frameData = c := by
    unfold addFrameToCache
    simp only [(mapHas_iff _ _).mpr h, if_true]
  rw [hadd]
  exact ⟨rfl, rfl, rfl, rfl⟩

theorem cache_add_existing_witness :
    cacheKey 0 5 ∈ ([(((0 : Nat), (5 : Int)), "old")].map Prod.fst)
      ∧ getFrameFromCache (addFrameToCache 10
          { frameCache := [((0, 5), "old")], frameCacheOrder := [(0, 5)] } 0 5 "new") 0 5
          = getFrameFromCache
              { frameCache := [((0, 5), "old")], frameCacheOrder := [(0, 5)] } 0 5 :=
  ⟨by decide,
    (cache_add_existing 10 { frameCache := [((0, 5), "old")], frameCacheOrder := [(0, 5)] }
      0 5 "new" (by decide)).2.1⟩

end FrameCacheClaims

/-! ## Adaptive draw interval -/

section LodLemmas

theorem foldl_add_eq_sum (l : List ℚ) (a : ℚ) :
    l.foldl (fun a b => a + b) a = a + l.sum := by
  induction l generalizing a with
  | nil => simp
  | cons x xs ih => rw [List.foldl_cons, ih, List.sum_cons]; ring

/-- The state after a call that is not evaluated: only the history changes. -/
theorem updateDrawInterval_debounced (s : LodState) (d now : ℚ)
    (h : now - s.lastPerformanceCheck < 3000) :
    (updateDrawInterval s d now).drawInterval = s.drawInterval
      ∧ (updateDrawInterval s d now).lastPerformanceCheck = s.lastPerformanceCheck := by
  unfold updateDrawInterval
  simp only [PERFORMANCE_CHECK_INTERVAL_MS, h, if_true, and_self]

/-- The state after an evaluated call. -/
theorem updateDrawInterval_evaluated (s : LodState) (d now : ℚ)
    (h : ¬ now - s.lastPerformanceCheck < 3000) :
    (updateDrawInterval s d now).lastPerformanceCheck = now
      ∧ (updateDrawInterval s d now).drawInterval =
          if windowMean (updateDrawInterval s d now).frameTimeHistory > 35
              ∧ s.drawInterval < 8 then s.drawInterval * 2
          else if windowMean (updateDrawInterval s d now).frameTimeHistory < 25
              ∧ s.drawInterval > 1 then max 1 (s.drawInterval / 2)
          else s.drawInterval := by
  have hw : ∀ l : List ℚ, l.foldl (fun a b => a + b) 0 / (l.length : ℚ) = windowMean l := by
    intro l
    rw [foldl_add_eq_sum, zero_add, windowMean]
  have hhist : (updateDrawInterval s d now).frameTimeHistory =
      if (s.frameTimeHistory ++ [d]).length > 10 then (s.frameTimeHistory ++ [d]).tail
      else s.frameTimeHistory ++ [d] := by
    unfold updateDrawInterval
    simp only [PERFORMANCE_CHECK_INTERVAL_MS, h, if_false]
    split_ifs <;> rfl
  rw [hhist]
  unfold updateDrawInterval
  simp only [PERFORMANCE_CHECK_INTERVAL_MS, SLOW_THRESHOLD_MS, FAST_THRESHOLD_MS, h, if_false, hw]
  split_ifs <;> exact ⟨rfl, rfl⟩

theorem updateDrawInterval_last_mono (s : LodState) (d now : ℚ) :
    s.lastPerformanceCheck ≤ (updateDrawInterval s d now).lastPerformanceCheck := by
  by_cases h : now - s.lastPerformanceCheck < 3000
  · rw [(updateDrawInterval_debounced s d now h).2]
  · rw [(updateDrawInterval_evaluated s d now h).1]
    linarith

theorem updateDrawInterval_changed (s : LodState) (d now : ℚ)
    (h : (updateDrawInterval s d now).drawInterval ≠ s.drawInterval) :
    ¬ now - s.lastPerformanceCheck < 3000
      ∧ (updateDrawInterval s d now).lastPerformanceCheck = now := by
  by_cases hd : now - s.lastPerformanceCheck < 3000
  · exact absurd (updateDrawInterval_debounced s d now hd).1 h
  · exact ⟨hd, (updateDrawInterval_evaluated s d now hd).1⟩

end LodLemmas

section LodClaims

theorem windowMean_replicate (n : Nat) (x : ℚ) (hn : 0 < n) :
    windowMean (List.replicate n x) = x := by
  unfold windowMean
  rw [List.sum_replicate, List.length_replicate, nsmul_eq_mul]
  have : (n : ℚ) ≠ 0 := by exact_mod_cast (Nat.pos_iff_ne_zero.mp hn)
  field_simp

theorem updateDrawInterval_history (s : LodState) (d now : ℚ) :
    (updateDrawInterval s d now).frameTimeHistory =
      if (s.frameTimeHistory ++ [d]).length > 10 then (s.frameTimeHistory ++ [d]).tail
      else s.frameTimeHistory ++ [d] := by
  unfold updateDrawInterval
  dsimp only
  split_ifs <;> rfl

/-- C18: on a sample for which the adjustment is evaluated (at least 3000 ms
after `lastPerformanceCheck`), with a stride in {1, 2, 4, 8}:
`updateDrawInterval` doubles the stride if the mean of the window, new sample
included, is above 35 and the stride below 8; otherwise halves it if the mean
is below 25 and the stride above 1; otherwise leaves it.  With ten samples of
40 ms in the window and stride 1 the evaluation gives stride 2; with ten
samples of 20 ms and stride 8 it gives stride 4. -/
theorem lod_rule (s : LodState) (d now : ℚ) (heval : now - s.lastPerformanceCheck ≥ 3000)
    (hs : validStride s.drawInterval) :
    (windowMean (updateDrawInterval s d now).frameTimeHistory > 35 ∧ s.drawInterval < 8 →
        (updateDrawInterval s d now).drawInterval = 2 * s.drawInterval)
      ∧ (¬ (windowMean (updateDrawInterval s d now).frameTimeHistory > 35 ∧ s.drawInterval < 8) →
          windowMean (updateDrawInterval s d now).frameTimeHistory < 25 ∧ s.drawInterval > 1 →
          (updateDrawInterval s d now).drawInterval = s.drawInterval / 2)
      ∧ (¬ (windowMean (updateDrawInterval s d now).frameTimeHistory > 35 ∧ s.drawInterval < 8) →
          ¬ (windowMean (updateDrawInterval s d now).frameTimeHistory < 25
              ∧ s.drawInterval > 1) →
          (updateDrawInterval s d now).drawInterval = s.drawInterval)
      ∧ (∀ last t : ℚ, t - last ≥ 3000 →
          (updateDrawInterval (⟨1, List.replicate 9 40, last⟩ : LodState) 40 t).drawInterval = 2
            ∧ (updateDrawInterval (⟨1, List.replicate 10 40, last⟩ : LodState) 40 t).drawInterval = 2
            ∧ (updateDrawInterval (⟨8, List.replicate 9 20, last⟩ : LodState) 20 t).drawInterval = 4
            ∧ (updateDrawInterval (⟨8, List.replicate 10 20, last⟩ : LodState) 20 t).drawInterval = 4) := by
  have hrule := (updateDrawInterval_evaluated s d now (by linarith)).2
  refine ⟨?_, ?_, ?_, ?_⟩
  · intro h
    rw [hrule, if_pos h]
    ring
  · intro h1 h2
    rw [hrule, if_neg h1, if_pos h2]
    rcases hs with h | h | h | h <;> rw [h] at h2 ⊢ <;> norm_num at h2 ⊢
  · intro h1 h2
    rw [hrule, if_neg h1, if_neg h2]
  · intro last t ht
    have e9 : ∀ x : ℚ, List.replicate 9 x ++ [x] = List.replicate 10 x := fun _ => rfl
    have e10 : ∀ x : ℚ, (List.replicate 10 x ++ [x]).tail = List.replicate 10 x := fun _ => rfl
    refine ⟨?_, ?_, ?_, ?_⟩
    · rw [(updateDrawInterval_evaluated _ 40 t (by dsimp only; linarith)).2,
        updateDrawInterval_history]
      simp only [e9, List.length_replicate, gt_iff_lt, lt_self_iff_false, if_false,
        windowMean_replicate 10 40 (by norm_num)]
      norm_num
    · rw [(updateDrawInterval_evaluated _ 40 t (by dsimp only; linarith)).2,
        updateDrawInterval_history]
      simp only [List.length_append, List.length_replicate, List.length_cons, List.length_nil,
        e10, windowMean_replicate 10 40 (by norm_num)]
      norm_num [windowMean_replicate 10 40 (by norm_num)]
    · rw [(updateDrawInterval_evaluated _ 20 t (by dsimp only; linarith)).2,
        updateDrawInterval_history]
      simp only [e9, List.length_replicate, gt_iff_lt, lt_self_iff_false, if_false,
        windowMean_replicate 10 20 (by norm_num)]
      norm_num
    · rw [(updateDrawInterval_evaluated _ 20 t (by dsimp only; linarith)).2,
        updateDrawInterval_history]
      simp only [List.length_append, List.length_replicate, List.length_cons, List.length_nil,
        e10, windowMean_replicate 10 20 (by norm_num)]
      norm_num [windowMean_replicate 10 20 (by norm_num)]

theorem lod_rule_witness :
    ((3000 : ℚ) - (⟨4, [50, 60], 0⟩ : LodState).lastPerformanceCheck ≥ 3000
        ∧ validStride (⟨4, [50, 60], 0⟩ : LodState).drawInterval)
      ∧ (windowMean (updateDrawInterval (⟨4, [50, 60], 0⟩ : LodState) 70 3000).frameTimeHistory > 35
          ∧ (⟨4, [50, 60], 0⟩ : LodState).drawInterval < 8 →
          (updateDrawInterval (⟨4, [50, 60], 0⟩ : LodState) 70 3000).drawInterval
            = 2 * (⟨4, [50, 60], 0⟩ : LodState).drawInterval) :=
  ⟨⟨by norm_num, Or.inr (Or.inr (Or.inl rfl))⟩,
    (lod_rule (⟨4, [50, 60], 0⟩ : LodState)
      70 3000 (by norm_num) (Or.inr (Or.inr (Or.inl rfl)))).1⟩

/-- C19: from stride 1 with an empty history, the sample 40 at time 3000
changes the stride to 2; the sample 30 at time 6000 is evaluated and changes
nothing (window mean 35), yet it sets `lastPerformanceCheck` to 6000; the
sample 100 at time 7000 has window mean above 35 with stride 2 < 8 and arrives
4000 ms after the last stride change, yet the stride stays 2: the 3000 ms are
counted from the evaluation at time 6000, not from the last adjustment. -/
theorem lod_debounce_counts_from_last_check :
    (updateDrawInterval (⟨1, [], 0⟩ : LodState) 40 3000).drawInterval = 2
      ∧ (updateDrawInterval (updateDrawInterval (⟨1, [], 0⟩ : LodState) 40 3000)
          30 6000).drawInterval = 2
      ∧ (updateDrawInterval (updateDrawInterval (⟨1, [], 0⟩ : LodState) 40 3000)
          30 6000).lastPerformanceCheck = 6000
      ∧ windowMean (updateDrawInterval (updateDrawInterval (updateDrawInterval
          (⟨1, [], 0⟩ : LodState) 40 3000) 30 6000) 100 7000).frameTimeHistory > 35
      ∧ (7000 : ℚ) - 3000 ≥ 3000
      ∧ (updateDrawInterval (updateDrawInterval (updateDrawInterval
          (⟨1, [], 0⟩ : LodState) 40 3000) 30 6000) 100 7000).drawInterval = 2 := by
  have hA : updateDrawInterval (⟨1, [], 0⟩ : LodState) 40 3000 = ⟨2, [40], 3000⟩ := by
    norm_num [updateDrawInterval, PERFORMANCE_CHECK_INTERVAL_MS, SLOW_THRESHOLD_MS,
      FAST_THRESHOLD_MS]
  have hB : updateDrawInterval (⟨2, [40], 3000⟩ : LodState) 30 6000 = ⟨2, [40, 30], 6000⟩ := by
    norm_num [updateDrawInterval, PERFORMANCE_CHECK_INTERVAL_MS, SLOW_THRESHOLD_MS,
      FAST_THRESHOLD_MS]
  have hC : updateDrawInterval (⟨2, [40, 30], 6000⟩ : LodState) 100 7000
      = ⟨2, [40, 30, 100], 6000⟩ := by
    norm_num [updateDrawInterval, PERFORMANCE_CHECK_INTERVAL_MS, SLOW_THRESHOLD_MS,
      FAST_THRESHOLD_MS]
  rw [hA, hB, hC]
  norm_num [windowMean]

/-- The debounce as the code has it: `updateDrawInterval` evaluates the
adjustment rule on a sample if and only if at least 3000 ms have elapsed since
`lastPerformanceCheck`, the time of the last evaluation, which every
evaluation sets to the current time whether or not it changes the stride.  A
call that is not evaluated leaves the stride; two stride changes are never
less than 3000 ms apart, whatever calls and slider inputs lie between them;
and with a stride in {1, 2, 4, 8} a sample whose
window mean is above 35 (stride below 8) or below 25 (stride above 1) and that
arrives 3000 ms or more after the last evaluation changes the stride. -/
theorem lod_debounce (s : LodState) (d now : ℚ) (hs : validStride s.drawInterval) :
    (now - s.lastPerformanceCheck < 3000 →
        (updateDrawInterval s d now).drawInterval = s.drawInterval
          ∧ (updateDrawInterval s d now).lastPerformanceCheck = s.lastPerformanceCheck)
      ∧ (now - s.lastPerformanceCheck ≥ 3000 →
          (updateDrawInterval s d now).lastPerformanceCheck = now)
      ∧ ((updateDrawInterval s d now).drawInterval ≠ s.drawInterval →
          now - s.lastPerformanceCheck ≥ 3000)
      ∧ (now - s.lastPerformanceCheck ≥ 3000 →
          ((windowMean (updateDrawInterval s d now).frameTimeHistory > 35 ∧ s.drawInterval < 8)
            ∨ (windowMean (updateDrawInterval s d now).frameTimeHistory < 25
              ∧ s.drawInterval > 1)) →
          (updateDrawInterval s d now).drawInterval ≠ s.drawInterval)
      ∧ (∀ (mid : List LodCall) (d2 t2 : ℚ),
          (updateDrawInterval s d now).drawInterval ≠ s.drawInterval →
          (updateDrawInterval (lodRun (updateDrawInterval s d now) mid) d2 t2).drawInterval
            ≠ (lodRun (updateDrawInterval s d now) mid).drawInterval →
          t2 - now ≥ 3000) := by
  refine ⟨updateDrawInterval_debounced s d now, ?_, ?_, ?_, ?_⟩
  · intro h
    exact (updateDrawInterval_evaluated s d now (by linarith)).1
  · intro h
    have := (updateDrawInterval_changed s d now h).1
    linarith
  · intro h hm
    have hrule := (updateDrawInterval_evaluated s d now (by linarith)).2
    rw [hrule]
    by_cases h1 : windowMean (updateDrawInterval s d now).frameTimeHistory > 35
        ∧ s.drawInterval < 8
    · rw [if_pos h1]
      rcases hs with h | h | h | h <;> rw [h] <;> norm_num
    · have h2 : windowMean (updateDrawInterval s d now).frameTimeHistory < 25
          ∧ s.drawInterval > 1 := by
        rcases hm with hm | hm
        · exact absurd hm h1
        · exact hm
      rw [if_neg h1, if_pos h2]
      rcases hs with h | h | h | h <;> rw [h] at h2 ⊢ <;> norm_num at h2 ⊢
  · intro mid d2 t2 hch1 hch2
    have hlast : (updateDrawInterval s d now).lastPerformanceCheck = now :=
      (updateDrawInterval_changed s d now hch1).2
    have hmono : ∀ (calls : List LodCall) (s0 : LodState),
        s0.lastPerformanceCheck ≤ (lodRun s0 calls).lastPerformanceCheck := by
      intro calls
      induction calls with
      | nil => intro s0; exact le_refl _
      | cons c cs ih =>
        intro s0
        cases c with
        | update a b =>
          exact le_trans (updateDrawInterval_last_mono s0 a b) (ih (updateDrawInterval s0 a b))
        | slider v => exact ih (setDrawIntervalSlider s0 v)
    have h3 := hmono mid (updateDrawInterval s d now)
    have h4 := (updateDrawInterval_changed _ d2 t2 hch2).1
    rw [hlast] at h3
    linarith

theorem lod_debounce_witness :
    validStride (⟨2, [40, 30], 6000⟩ : LodState).drawInterval
      ∧ ((7000 : ℚ) - (⟨2, [40, 30], 6000⟩ : LodState).lastPerformanceCheck < 3000 →
          (updateDrawInterval (⟨2, [40, 30], 6000⟩ : LodState) 100 7000).drawInterval
              = (⟨2, [40, 30], 6000⟩ : LodState).drawInterval
            ∧ (updateDrawInterval (⟨2, [40, 30], 6000⟩ : LodState) 100 7000).lastPerformanceCheck
              = (⟨2, [40, 30], 6000⟩ : LodState).lastPerformanceCheck) :=
  ⟨Or.inr (Or.inl rfl),
    (lod_debounce (⟨2, [40, 30], 6000⟩ : LodState) 100 7000 (Or.inr (Or.inl rfl))).1⟩

/-- C20: starting from a stride in {1, 2, 4, 8}, after any sequence of
`updateDrawInterval` calls with arbitrary samples and clock values and of
slider inputs with values 0..3 the stride is again in {1, 2, 4, 8}; and a
single `updateDrawInterval` call leaves the stride, doubles it or halves it. -/
theorem lod_stride_invariant (s : LodState) (calls : List LodCall)
    (hs : validStride s.drawInterval)
    (hslider : ∀ v, LodCall.slider v ∈ calls → v ≤ 3) :
    validStride (lodRun s calls).drawInterval
      ∧ (∀ d now : ℚ,
          (updateDrawInterval s d now).drawInterval = s.drawInterval
            ∨ (updateDrawInterval s d now).drawInterval = 2 * s.drawInterval
            ∨ 2 * (updateDrawInterval s d now).drawInterval = s.drawInterval) := by
  have hstep : ∀ (s0 : LodState) (d now : ℚ), validStride s0.drawInterval →
      validStride (updateDrawInterval s0 d now).drawInterval
        ∧ ((updateDrawInterval s0 d now).drawInterval = s0.drawInterval
          ∨ (updateDrawInterval s0 d now).drawInterval = 2 * s0.drawInterval
          ∨ 2 * (updateDrawInterval s0 d now).drawInterval = s0.drawInterval) := by
    intro s0 d now h0
    by_cases hd : now - s0.lastPerformanceCheck < 3000
    · rw [(updateDrawInterval_debounced s0 d now hd).1]
      exact ⟨h0, Or.inl rfl⟩
    · rw [(updateDrawInterval_evaluated s0 d now hd).2]
      split_ifs with h1 h2
      · unfold validStride
        rcases h0 with h | h | h | h <;> rw [h] at h1 ⊢ <;> norm_num at h1 ⊢
      · unfold validStride
        rcases h0 with h | h | h | h <;> rw [h] at h2 ⊢ <;> norm_num at h2 ⊢
      · exact ⟨h0, Or.inl rfl⟩
  refine ⟨?_, fun d now => (hstep s d now hs).2⟩
  induction calls generalizing s with
  | nil => exact hs
  | cons c cs ih =>
    unfold lodRun
    rw [List.foldl_cons]
    apply ih
    · cases c with
      | update d now => exact (hstep s d now hs).1
      | slider v =>
        have hv := hslider v (List.mem_cons_self _ _)
        show validStride ((2 : ℚ) ^ v)
        unfold validStride
        interval_cases v <;> norm_num
    · intro v hv
      exact hslider v (List.mem_cons_of_mem _ hv)

theorem lod_stride_invariant_witness :
    (validStride (⟨1, [], 0⟩ : LodState).drawInterval
        ∧ ∀ v, LodCall.slider v ∈ [LodCall.update 40 3000, .slider 3, .update 10 9000] → v ≤ 3)
      ∧ validStride
          (lodRun (⟨1, [], 0⟩ : LodState)
            [LodCall.update 40 3000, .slider 3, .update 10 9000]).drawInterval :=
  have h : ∀ v, LodCall.slider v ∈ [LodCall.update 40 3000, .slider 3, .update 10 9000] →
      v ≤ 3 := by
    intro v hv
    simp at hv
    omega
  ⟨⟨Or.inl rfl, h⟩,
    (lod_stride_invariant (⟨1, [], 0⟩ : LodState)
      [LodCall.update 40 3000, .slider 3, .update 10 9000] (Or.inl rfl) h).1⟩

end LodClaims


/-! ## Frame counts and cached frames in the viewer -/

section ViewerCounts

variable {α : Type}

theorem parseUnitFile_ok_counts (decodeFloat32 : Nat → α) (buffer : List Nat) (u : UnitData α)
    (hu : parseUnitFile decodeFloat32 buffer = .ok u) :
    u.frameCount = declaredFrameCount buffer ∧ u.frames.length ≤ declaredFrameCount buffer := by
  obtain ⟨h108, hsig2⟩ := parseUnitFile_ok_header decodeFloat32 buffer u hu
  rw [parseUnitFile_of_header decodeFloat32 _ h108 hsig2] at hu
  cases hloop : frameLoop buffer (declaredFrameCount buffer) 0 108 [] with
  | error e => rw [hloop] at hu; simp [Except.map] at hu
  | ok fs =>
    obtain ⟨recs, tail, hdrop, hrec2, hle, hstop⟩ :=
      frameLoop_ok_records buffer _ 0 108 [] fs h108 hloop
    have h2 := frameLoop_of_records buffer recs tail _ h108 hdrop hrec2 hle hstop
    rw [hloop] at h2 hu
    simp only [Except.map, Except.ok.injEq] at hu h2
    rw [← hu, headerUnit, h2, recordFrames_length]
    exact ⟨rfl, hle⟩

theorem foldl_min_le (xs : List Nat) (x : Nat) :
    xs.foldl min x ≤ x ∧ ∀ y ∈ xs, xs.foldl min x ≤ y := by
  induction xs generalizing x with
  | nil => simp
  | cons a as ih =>
    simp only [List.foldl_cons, List.mem_cons, forall_eq_or_imp]
    have h := ih (min x a)
    exact ⟨le_trans h.1 (min_le_left _ _), le_trans h.1 (min_le_right _ _), h.2⟩

theorem foldl_min_mem (xs : List Nat) (x : Nat) :
    xs.foldl min x = x ∨ xs.foldl min x ∈ xs := by
  induction xs generalizing x with
  | nil => simp
  | cons a as ih =>
    simp only [List.foldl_cons, List.mem_cons]
    rcases ih (min x a) with h | h
    · rcases min_choice x a with hm | hm
      · left; rw [h, hm]
      · right; left; rw [h, hm]
    · right; right; exact h

theorem getMaxFrames_nil : getMaxFrames ([] : List (LoadedUnit α)) = 0 := rfl

/-- After `processUnitFrames`, `getMaxFrames` is the least of the frame counts
that the parser reported for the units. -/
theorem getMaxFrames_processed (units : List (LoadedUnit α)) (hne : units ≠ []) :
    (∀ u ∈ units, getMaxFrames (units.map processUnitFrames) ≤ u.stmovData.frameCount)
      ∧ ∃ u ∈ units, getMaxFrames (units.map processUnitFrames) = u.stmovData.frameCount := by
  cases units with
  | nil => exact absurd rfl hne
  | cons a as =>
    have hval : getMaxFrames ((a :: as).map processUnitFrames) =
        (as.map fun u => u.stmovData.frameCount).foldl min a.stmovData.frameCount := by
      simp only [getMaxFrames, List.map_cons, List.map_map, processUnitFrames, Option.getD_some]
      rfl
    rw [hval]
    have hle := foldl_min_le (as.map fun u => u.stmovData.frameCount) a.stmovData.frameCount
    constructor
    · intro u hu
      rcases List.mem_cons.mp hu with rfl | hmem
      · exact hle.1
      · exact hle.2 _ (List.mem_map.mpr ⟨u, hmem, rfl⟩)
    · rcases foldl_min_mem (as.map fun u => u.stmovData.frameCount) a.stmovData.frameCount
        with h | h
      · exact ⟨a, List.mem_cons_self _ _, h⟩
      · obtain ⟨u, hmem, hu⟩ := List.mem_map.mp h
        exact ⟨u, List.mem_cons_of_mem _ hmem, hu.symm⟩

end ViewerCounts

section ViewerLemmas

variable {α : Type} [Field α]

theorem frameAt_eq_none (frames : List FrameRecord) (frameIndex : Int)
    (h : (frames.length : Int) ≤ frameIndex) : frameAt frames frameIndex = none := by
  unfold frameAt
  rw [if_neg (by omega)]
  exact List.getElem?_eq_none (by omega)

theorem frameAt_eq_some (frames : List FrameRecord) (frameIndex : Int)
    (h0 : 0 ≤ frameIndex) (h : frameIndex < (frames.length : Int)) :
    ∃ rawFrameData, frameAt frames frameIndex = some rawFrameData
      ∧ frames[frameIndex.toNat]? = some rawFrameData := by
  unfold frameAt
  rw [if_neg (by omega)]
  have hlt : frameIndex.toNat < frames.length := by omega
  exact ⟨frames[frameIndex.toNat], List.getElem?_eq_getElem hlt, List.getElem?_eq_getElem hlt⟩

theorem frameForUnit_out_of_range (cos sin : α → α) (n K : Nat)
    (cache : FrameCache (DecodedFrame α)) (unit : LoadedUnit α) (frameIndex : Int)
    (hrange : (unit.stmovData.frameCount : Int) ≤ frameIndex) :
    frameForUnit cos sin n K cache unit frameIndex = (none, cache) := by
  unfold frameForUnit
  rw [if_pos (by omega)]

theorem frameForUnit_hit (cos sin : α → α) (n K : Nat) (cache : FrameCache (DecodedFrame α))
    (unit : LoadedUnit α) (frameIndex : Int) (frame : DecodedFrame α)
    (hrange : frameIndex < (unit.stmovData.frameCount : Int))
    (hhit : getFrameFromCache cache unit.unitIndex frameIndex = some frame) :
    frameForUnit cos sin n K cache unit frameIndex = (some frame, cache) := by
  unfold frameForUnit
  rw [if_neg (by omega), hhit]

theorem frameForUnit_no_record (cos sin : α → α) (n K : Nat)
    (cache : FrameCache (DecodedFrame α)) (unit : LoadedUnit α) (frameIndex : Int)
    (hrange : frameIndex < (unit.stmovData.frameCount : Int))
    (hmiss : getFrameFromCache cache unit.unitIndex frameIndex = none)
    (hraw : frameAt unit.stmovData.frames frameIndex = none) :
    frameForUnit cos sin n K cache unit frameIndex = (none, cache) := by
  unfold frameForUnit
  rw [if_neg (by omega), hmiss, hraw]

theorem frameForUnit_miss (cos sin : α → α) (n K : Nat) (cache : FrameCache (DecodedFrame α))
    (unit : LoadedUnit α) (frameIndex : Int) (rawFrameData : FrameRecord)
    (hrange : frameIndex < (unit.stmovData.frameCount : Int))
    (hmiss : getFrameFromCache cache unit.unitIndex frameIndex = none)
    (hraw : frameAt unit.stmovData.frames frameIndex = some rawFrameData) :
    frameForUnit cos sin n K cache unit frameIndex =
      (some ⟨frameIndex,
          decompressFrame cos sin n rawFrameData.data (some unit.stmovData.leftCamera)
            (some unit.stmovData.rightCamera),
          ((decompressFrame cos sin n rawFrameData.data (some unit.stmovData.leftCamera)
            (some unit.stmovData.rightCamera)).length : ℚ) / 3⟩,
        addFrameToCache K cache unit.unitIndex frameIndex
          ⟨frameIndex,
            decompressFrame cos sin n rawFrameData.data (some unit.stmovData.leftCamera)
              (some unit.stmovData.rightCamera),
            ((decompressFrame cos sin n rawFrameData.data (some unit.stmovData.leftCamera)
              (some unit.stmovData.rightCamera)).length : ℚ) / 3⟩) := by
  unfold frameForUnit
  rw [if_neg (by omega), hmiss, hraw]

end ViewerLemmas

section ViewerClaims

variable {α : Type} [Field α]

/-- C11, counterexample: for the buffer made of a header declaring 2 frames,
one complete frame record and a 3-byte end marker, `parseUnitFile` returns a
unit whose frame list has 1 element but whose reported frame count is 2; and 2
is the count that `processUnitFrames` stores, that `getMaxFrames` returns, and
that the range check of `displayFrame` uses: frame index 1 passes the check
although `frames[1]` does not exist. -/
theorem reported_frame_count_not_records_read :
    ∃ u : UnitData ℚ,
      parseUnitFile (fun n => (n : ℚ)) (sampleHeader ++ [7, 0, 0, 0, 1, 0, 0, 0, 9, 0, 0, 0])
          = .ok u
        ∧ u.frames.length = 1
        ∧ u.frameCount = 2
        ∧ (processUnitFrames (⟨0, "unit.stmov", u, none⟩ : LoadedUnit ℚ)).frameCount = some 2
        ∧ getMaxFrames [processUnitFrames (⟨0, "unit.stmov", u, none⟩ : LoadedUnit ℚ)] = 2
        ∧ ¬ ((1 : Int) ≥ (u.frameCount : Int))
        ∧ frameAt u.frames 1 = none := by
  refine ⟨headerUnit (fun n => (n : ℚ)) (sampleHeader ++ [7, 0, 0, 0, 1, 0, 0, 0, 9, 0, 0, 0])
    (recordFrames 0 [[7, 0, 0, 0, 1, 0, 0, 0, 9]]), ?_, ?_, ?_, ?_, ?_, ?_, ?_⟩
  · rw [parseUnitFile_of_header _ _ (by decide) (by decide)]
    rfl
  · rfl
  · decide
  · decide
  · decide
  · decide
  · rfl

/-- C11, amended: whenever `parseUnitFile` returns a unit, the frame count it
reports is the count declared in the header (bytes 8..11, little-endian), and
the number of frame records read is at most that count.  Playback uses the
declared count: `processUnitFrames` stores it as the unit's frame count,
`getMaxFrames` over the processed units is at most the declared count of each
unit and equals that of one of them, and the loop of `displayFrame` skips a
unit exactly on the ground of the declared count when the frame index has
reached it; at a frame index below the declared count for which no record was
read and nothing is cached, the unit is skipped too, with the cache
unchanged. -/
theorem reported_frame_count_is_declared (decodeFloat32 : Nat → α) (buffer : List Nat)
    (u : UnitData α) (hu : parseUnitFile decodeFloat32 buffer = .ok u)
    (unit : LoadedUnit α) (hunit : unit.stmovData = u) :
    u.frameCount = declaredFrameCount buffer
      ∧ u.frames.length ≤ u.frameCount
      ∧ (processUnitFrames unit).frameCount = some (declaredFrameCount buffer)
      ∧ getMaxFrames [processUnitFrames unit] = declaredFrameCount buffer
      ∧ (∀ others : List (LoadedUnit α),
          getMaxFrames ((unit :: others).map processUnitFrames) ≤ declaredFrameCount buffer
            ∧ ∃ w ∈ unit :: others,
                getMaxFrames ((unit :: others).map processUnitFrames) = w.stmovData.frameCount)
      ∧ (∀ (cos sin : α → α) (n K : Nat) (cache : FrameCache (DecodedFrame α))
          (frameIndex : Int),
          ((declaredFrameCount buffer : Int) ≤ frameIndex →
            frameForUnit cos sin n K cache unit frameIndex = (none, cache))
          ∧ ((u.frames.length : Int) ≤ frameIndex →
              frameIndex < (declaredFrameCount buffer : Int) →
              getFrameFromCache cache unit.unitIndex frameIndex = none →
              frameForUnit cos sin n K cache unit frameIndex = (none, cache))) := by
  obtain ⟨hcount, hlen⟩ := parseUnitFile_ok_counts decodeFloat32 buffer u hu
  have hmax := getMaxFrames_processed [unit] (by simp)
  refine ⟨hcount, by rw [hcount]; exact hlen, ?_, ?_, ?_, ?_⟩
  · simp only [processUnitFrames, hunit, hcount]
  · obtain ⟨w, hw, h⟩ := hmax.2
    rw [List.mem_singleton] at hw
    rw [List.map_singleton] at h
    rw [h, hw, hunit, hcount]
  · intro others
    have h := getMaxFrames_processed (unit :: others) (by simp)
    refine ⟨?_, h.2⟩
    have h1 := h.1 unit (List.mem_cons_self _ _)
    rw [hunit, hcount] at h1
    exact h1
  · intro cos sin n K cache frameIndex
    constructor
    · intro hge
      exact frameForUnit_out_of_range cos sin n K cache unit frameIndex
        (by rw [hunit, hcount]; exact hge)
    · intro hlo hhi hmiss
      exact frameForUnit_no_record cos sin n K cache unit frameIndex
        (by rw [hunit, hcount]; exact hhi) hmiss
        (frameAt_eq_none _ _ (by rw [hunit]; exact hlo))

theorem reported_frame_count_is_declared_witness :
    (headerUnit (fun n => (n : ℚ)) (sampleHeader ++ [7, 0, 0, 0, 1, 0, 0, 0, 9, 0, 0, 0])
        (recordFrames 0 [[7, 0, 0, 0, 1, 0, 0, 0, 9]])).frameCount
      = declaredFrameCount (sampleHeader ++ [7, 0, 0, 0, 1, 0, 0, 0, 9, 0, 0, 0])
      ∧ declaredFrameCount (sampleHeader ++ [7, 0, 0, 0, 1, 0, 0, 0, 9, 0, 0, 0]) = 2 :=
  ⟨(reported_frame_count_is_declared (fun n => (n : ℚ))
      (sampleHeader ++ [7, 0, 0, 0, 1, 0, 0, 0, 9, 0, 0, 0]) _
      (by rw [parseUnitFile_of_header _ _ (by decide) (by decide)]; rfl)
      (⟨0, "unit.stmov", headerUnit (fun n => (n : ℚ))
        (sampleHeader ++ [7, 0, 0, 0, 1, 0, 0, 0, 9, 0, 0, 0])
        (recordFrames 0 [[7, 0, 0, 0, 1, 0, 0, 0, 9]]), none⟩ : LoadedUnit ℚ) rfl).1,
    by decide⟩

set_option maxRecDepth 100000 in
/-- C17: caching is not transparent across loads.  First trace: a one-frame
unit file with payload `[100, 4]` (two samples) is loaded at stride 1, then a
one-frame unit file with payload `[100, 0]` (one sample) is loaded; the second
load shows frame 0 of unit 0, and the frame it passes to the renderer has 6
numbers, the cached decode of the first file, while `decompressFrame` of the
loaded unit's payload with its calibration at the current stride has 3.
Second trace: the first file is loaded at stride 2 (frame of 3 numbers), the
parse quality is set to 1 and the file is loaded again; the displayed frame
still has 3 numbers while the decode at the current stride has 6. -/
theorem cached_frame_survives_reload :
    ((loadFiles (fun x : ℚ => x) (fun x : ℚ => x) parseSingle
          (loadFiles (fun x : ℚ => x) (fun x : ℚ => x) parseSingle (newViewer 1)
            [oneFrameFile "a.stmov" [100, 4]] 5 100).1
          [oneFrameFile "b.stmov" [100, 0]] 5 200).2.map
        fun shown => (shown.1, shown.2.index, shown.2.points.length)) = [(0, 0, 6)]
      ∧ ((loadFiles (fun x : ℚ => x) (fun x : ℚ => x) parseSingle
          (loadFiles (fun x : ℚ => x) (fun x : ℚ => x) parseSingle (newViewer 1)
            [oneFrameFile "a.stmov" [100, 4]] 5 100).1
          [oneFrameFile "b.stmov" [100, 0]] 5 200).1.units.map
        fun u => (u.unitIndex, u.stmovData.frames.map fun f =>
          (f.data, (decompressFrame (fun x : ℚ => x) (fun x : ℚ => x) 1 f.data
            (some u.stmovData.leftCamera) (some u.stmovData.rightCamera)).length)))
          = [(0, [([100, 0], 3)])]
      ∧ (loadFiles (fun x : ℚ => x) (fun x : ℚ => x) parseSingle
          (loadFiles (fun x : ℚ => x) (fun x : ℚ => x) parseSingle (newViewer 1)
            [oneFrameFile "a.stmov" [100, 4]] 5 100).1
          [oneFrameFile "b.stmov" [100, 0]] 5 200).1.parseSubsample = 1
      ∧ ((loadFiles (fun x : ℚ => x) (fun x : ℚ => x) parseSingle
          (setParseQuality
            (loadFiles (fun x : ℚ => x) (fun x : ℚ => x) parseSingle (newViewer 2)
              [oneFrameFile "a.stmov" [100, 4]] 5 100).1 1)
          [oneFrameFile "a.stmov" [100, 4]] 5 200).2.map
        fun shown => (shown.1, shown.2.index, shown.2.points.length)) = [(0, 0, 3)]
      ∧ ((loadFiles (fun x : ℚ => x) (fun x : ℚ => x) parseSingle
          (setParseQuality
            (loadFiles (fun x : ℚ => x) (fun x : ℚ => x) parseSingle (newViewer 2)
              [oneFrameFile "a.stmov" [100, 4]] 5 100).1 1)
          [oneFrameFile "a.stmov" [100, 4]] 5 200).1.units.map
        fun u => (u.unitIndex, u.stmovData.frames.map fun f =>
          (f.data, (decompressFrame (fun x : ℚ => x) (fun x : ℚ => x) 1 f.data
            (some u.stmovData.leftCamera) (some u.stmovData.rightCamera)).length)))
          = [(0, [([100, 4], 6)])]
      ∧ (loadFiles (fun x : ℚ => x) (fun x : ℚ => x) parseSingle
          (setParseQuality
            (loadFiles (fun x : ℚ => x) (fun x : ℚ => x) parseSingle (newViewer 2)
              [oneFrameFile "a.stmov" [100, 4]] 5 100).1 1)
          [oneFrameFile "a.stmov" [100, 4]] 5 200).1.parseSubsample = 1 := by
  refine ⟨?_, ?_, ?_, ?_, ?_, ?_⟩ <;> decide

end ViewerClaims


/-! ## Frame decompressor: totality, output shape, clipped chunks, end of decode -/

section DecoderAppend

theorem samplesFrom_append (p t : List Nat) (count : Nat) (isLeft : Bool)
    (hp : p.length % 2 = 0) :
    samplesFrom (p ++ t) count isLeft =
      samplesFrom p count isLeft ++
        (match stateAfter p count isLeft with
          | none => []
          | some st => samplesFrom t st.1 st.2) := by
  generalize hlen : p.length = m
  induction m using Nat.strong_induction_on generalizing p count isLeft with
  | _ m ih =>
    match p, hlen with
    | [], _ => simp [samplesFrom, stateAfter]
    | [_], hlen => simp at hlen; subst hlen; simp at hp
    | first :: second :: rest, hlen =>
      have hrest : rest.length % 2 = 0 := by
        simp only [List.length_cons] at hp; omega
      have ih2 := fun c fl => ih rest.length (by simp at hlen; omega) rest c fl hrest rfl
      rw [List.cons_append, List.cons_append, samplesFrom, samplesFrom, stateAfter]
      split_ifs
      · rw [ih2, List.append_assoc]
      · simp
      · rw [ih2, List.append_assoc]

theorem stateAfter_append (p t : List Nat) (count : Nat) (isLeft : Bool)
    (hp : p.length % 2 = 0) :
    stateAfter (p ++ t) count isLeft =
      (match stateAfter p count isLeft with
        | none => none
        | some st => stateAfter t st.1 st.2) := by
  generalize hlen : p.length = m
  induction m using Nat.strong_induction_on generalizing p count isLeft with
  | _ m ih =>
    match p, hlen with
    | [], _ => simp [stateAfter]
    | [_], hlen => simp at hlen; subst hlen; simp at hp
    | first :: second :: rest, hlen =>
      have hrest : rest.length % 2 = 0 := by
        simp only [List.length_cons] at hp; omega
      have ih2 := fun c fl => ih rest.length (by simp at hlen; omega) rest c fl hrest rfl
      rw [List.cons_append, List.cons_append, stateAfter, stateAfter]
      split_ifs
      · rw [ih2]
      · rfl
      · rw [ih2]

/-- A single trailing byte is not decoded. -/
theorem samplesFrom_odd (p : List Nat) (b : Nat) (count : Nat) (isLeft : Bool)
    (hp : p.length % 2 = 0) :
    samplesFrom (p ++ [b]) count isLeft = samplesFrom p count isLeft := by
  rw [samplesFrom_append p [b] count isLeft hp]
  cases stateAfter p count isLeft with
  | none => simp
  | some st => simp [samplesFrom]

theorem samplesFrom_initial (p t : List Nat) (count : Nat) (isLeft : Bool) :
    samplesFrom p count isLeft <+: samplesFrom (p ++ t) count isLeft := by
  by_cases hp : p.length % 2 = 0
  · rw [samplesFrom_append p t count isLeft hp]
    exact List.prefix_append _ _
  · have hne : p ≠ [] := by
      intro h; rw [h] at hp; simp at hp
    obtain ⟨q, b, hq⟩ : ∃ q b, p = q ++ [b] :=
      ⟨p.dropLast, p.getLast hne, (List.dropLast_append_getLast hne).symm⟩
    have hqlen : q.length % 2 = 0 := by
      rw [hq, List.length_append, List.length_singleton] at hp; omega
    rw [hq, samplesFrom_odd q b count isLeft hqlen, List.append_assoc,
      samplesFrom_append q ([b] ++ t) count isLeft hqlen]
    exact List.prefix_append _ _

/-- Two chunks with the same run length leave the same decoding position,
whatever their depths. -/
theorem stateAfter_chunk_congr (first second first2 second2 : Nat) (count : Nat)
    (isLeft : Bool) (hrl : runLength second = runLength second2) :
    stateAfter [first, second] count isLeft = stateAfter [first2, second2] count isLeft := by
  have hge : chunkCount first second count ≥ 640 * 480 ↔
      chunkCount first2 second2 count ≥ 640 * 480 := by
    unfold chunkCount
    rw [hrl]
    split_ifs <;> omega
  have heq : ¬ chunkCount first second count ≥ 640 * 480 →
      chunkCount first second count = chunkCount first2 second2 count := by
    unfold chunkCount
    rw [hrl]
    split_ifs <;> omega
  simp only [stateAfter]
  by_cases h : chunkCount first second count ≥ 640 * 480
  · rw [if_pos h, if_pos (hge.mp h)]
  · rw [if_neg h, if_neg (fun h2 => h (hge.mpr h2)), heq h]

end DecoderAppend

section PrefixLemmas

variable {α : Type}

theorem flatten3_initial (a b : List (Vec3 α)) (h : a <+: b) : flatten3 a <+: flatten3 b := by
  obtain ⟨c, rfl⟩ := h
  rw [flatten3_append]
  exact List.prefix_append _ _

end PrefixLemmas

section DecoderShape

variable {α : Type} [Field α]

theorem take_initial_of_initial {β : Type} (k : Nat) (a b : List β) (h : a <+: b) :
    a.take k <+: b.take k := by
  obtain ⟨c, rfl⟩ := h
  rw [List.take_append_eq_append_take]
  exact List.prefix_append _ _

theorem decompressFrame_initial (cos sin : α → α) (n : Nat) (p t : List Nat)
    (l r : Option (Camera α)) :
    decompressFrame cos sin n p l r <+: decompressFrame cos sin n (p ++ t) l r := by
  rw [decompressFrame_eq, decompressFrame_eq]
  apply flatten3_initial
  apply take_initial_of_initial
  obtain ⟨c, hc⟩ := samplesFrom_initial p t 0 true
  unfold keptSamples samples
  rw [← hc, List.filter_append, List.map_append]
  exact List.prefix_append _ _

theorem decompressFrame_odd (cos sin : α → α) (n : Nat) (p : List Nat) (b : Nat)
    (l r : Option (Camera α)) (hp : p.length % 2 = 0) :
    decompressFrame cos sin n (p ++ [b]) l r = decompressFrame cos sin n p l r := by
  rw [decompressFrame_eq, decompressFrame_eq]
  unfold keptSamples samples
  rw [samplesFrom_odd p b 0 true hp]

theorem decompressFrame_length (cos sin : α → α) (n : Nat) (frameData : List Nat)
    (l r : Option (Camera α)) :
    ∃ k : Nat, k ≤ 166667 ∧ (decompressFrame cos sin n frameData l r).length = 3 * k := by
  refine ⟨(((keptSamples n frameData).map (samplePoint cos sin l r)).take 166667).length, ?_, ?_⟩
  · rw [List.length_take]; omega
  · rw [decompressFrame_eq, flatten3_length]

theorem chunkBody_not_stop (cos sin : α → α) (n : Nat) (l r : Option (Camera α))
    (first second : Nat) (st : DecodeState α)
    (h : (chunkBody cos sin n l r first second st).2 = false) :
    ¬ ((chunkBody cos sin n l r first second st).1.count ≥ 640 * 480
        ∧ (chunkBody cos sin n l r first second st).1.isLeftScreen = false) := by
  unfold chunkBody at h ⊢
  dsimp only at h ⊢
  split_ifs at h ⊢ <;> simp_all

theorem decodeLoop_append_of_stop (cos sin : α → α) (n : Nat) (l r : Option (Camera α))
    (p t : List Nat) (st : DecodeState α)
    (hst : ¬ (st.count ≥ 640 * 480 ∧ st.isLeftScreen = false))
    (hstop : (decodeLoop cos sin n l r p st).count ≥ 640 * 480
      ∧ (decodeLoop cos sin n l r p st).isLeftScreen = false) :
    decodeLoop cos sin n l r (p ++ t) st = decodeLoop cos sin n l r p st := by
  generalize hlen : p.length = m
  induction m using Nat.strong_induction_on generalizing p st with
  | _ m ih =>
    match p, hlen with
    | [], _ =>
      have h0 : decodeLoop cos sin n l r [] st = st := by simp [decodeLoop]
      rw [h0] at hstop
      exact absurd hstop hst
    | [b], _ =>
      have h0 : decodeLoop cos sin n l r [b] st = st := by simp [decodeLoop]
      rw [h0] at hstop
      exact absurd hstop hst
    | first :: second :: rest, hlen =>
      rw [List.cons_append, List.cons_append, decodeLoop_cons, decodeLoop_cons]
      rw [decodeLoop_cons] at hstop
      cases hb : (chunkBody cos sin n l r first second st).2 with
      | true => simp
      | false =>
        rw [hb] at hstop
        simp only [Bool.false_eq_true, if_false] at hstop ⊢
        exact ih rest.length (by simp at hlen; omega) rest _
          (chunkBody_not_stop cos sin n l r first second st hb) hstop rfl

end DecoderShape
section ClippedScreens

variable {α : Type} [Field α]

theorem flatten_replicate_split (a b : Nat) (x : List Nat) :
    (List.replicate (a + (1 + (b + 1))) x).flatten =
      (List.replicate a x).flatten ++ (x ++ ((List.replicate b x).flatten ++ x)) := by
  simp only [List.replicate_add, List.flatten_append, List.replicate_one, List.flatten_cons,
    List.flatten_nil, List.append_nil]

theorem chunkRun_clipped_full (cos sin : α → α) (n : Nat) (l r : Option (Camera α))
    (st : DecodeState α) :
    chunkRun cos sin n l r 0 252 st = (st.count + 64, st.points, false) := by
  have hd : chunkDepth 0 252 = 0 := by decide
  have hl : runLength 252 = 64 := by decide
  unfold chunkRun
  rw [hd, hl]
  simp

theorem decodeLoop_clipped_run (cos sin : α → α) (n : Nat) (l r : Option (Camera α))
    (k : Nat) (rest : List Nat) (st : DecodeState α) (h : st.count + 64 * k < 640 * 480) :
    decodeLoop cos sin n l r ((List.replicate k [0, 252]).flatten ++ rest) st =
      decodeLoop cos sin n l r rest
        { count := st.count + 64 * k, isLeftScreen := st.isLeftScreen, points := st.points } := by
  induction k generalizing st with
  | zero => simp
  | succ k ih =>
    rw [List.replicate_succ, List.flatten_cons]
    show decodeLoop cos sin n l r (0 :: 252 :: ((List.replicate k [0, 252]).flatten ++ rest)) st = _
    have hrun := chunkRun_clipped_full cos sin n l r st
    rw [decodeLoop_cons, chunkBody_continue cos sin n l r 0 252 st (by rw [hrun])
      (by rw [hrun]; show ¬ (st.count + 64 ≥ 640 * 480); omega), hrun]
    simp only [Bool.false_eq_true, if_false]
    rw [ih _ (by show st.count + 64 + 64 * k < 640 * 480; omega)]
    congr 2
    show st.count + 64 + 64 * k = st.count + 64 * (k + 1)
    omega

/-- Decoding 9600 clipped chunks of run length 64 fills both screens: the loop
ends with the counter at `640 * 480` and the flag right. -/
theorem decodeLoop_clipped_screens (cos sin : α → α) (n : Nat) (l r : Option (Camera α)) :
    decodeLoop cos sin n l r (List.replicate 9600 [0, 252]).flatten
        { count := 0, isLeftScreen := true, points := [] } =
      { count := 640 * 480, isLeftScreen := false, points := [] } := by
  have hsplit : (List.replicate 9600 [0, 252]).flatten =
      (List.replicate 4799 [0, 252]).flatten ++ (0 :: 252 ::
        ((List.replicate 4799 [0, 252]).flatten ++ [0, 252])) := by
    have h9600 : 9600 = 4799 + (1 + (4799 + 1)) := by norm_num
    rw [h9600]
    exact flatten_replicate_split 4799 4799 [0, 252]
  rw [hsplit, decodeLoop_clipped_run cos sin n l r 4799 _ _ (by show 0 + 64 * 4799 < 640 * 480; omega)]
  have hrun1 := chunkRun_clipped_full cos sin n l r
    { count := 0 + 64 * 4799, isLeftScreen := true, points := ([] : List α) }
  rw [decodeLoop_cons, chunkBody_switch cos sin n l r 0 252 _ (by rw [hrun1])
    (by rw [hrun1]) rfl, hrun1]
  simp only [Bool.false_eq_true, if_false]
  rw [decodeLoop_clipped_run cos sin n l r 4799 _ _ (by show 0 + 64 * 4799 < 640 * 480; omega)]
  have hrun2 := chunkRun_clipped_full cos sin n l r
    { count := 0 + 64 * 4799, isLeftScreen := false, points := ([] : List α) }
  rw [decodeLoop_cons, chunkBody_stop cos sin n l r 0 252 _ (by rw [hrun2])
    (by rw [hrun2]) rfl, hrun2]
  simp

end ClippedScreens

section DecoderClaims2

variable {α : Type} [Field α]

/-- C26: `decompressFrame` is total and best-effort.  For every payload, stride
and calibration it returns the flat array of a list of at most 166667 whole
points; the empty payload gives the empty array; a payload of odd length
decodes exactly like the payload without its last byte (and appending one
byte to a payload of even length changes nothing); and the array decoded from
a payload is always an initial segment of the array decoded from any
extension of that payload, so what a truncated payload yields is the points
accumulated up to the cut. -/
theorem decompressFrame_total_best_effort (cos sin : α → α) (n : Nat) (p : List Nat)
    (l r : Option (Camera α)) :
    (∃ ws : List (Vec3 α), ws.length ≤ 166667 ∧ decompressFrame cos sin n p l r = flatten3 ws)
      ∧ decompressFrame cos sin n [] l r = []
      ∧ (p.length % 2 = 1 →
          decompressFrame cos sin n p l r = decompressFrame cos sin n p.dropLast l r)
      ∧ (∀ b : Nat, p.length % 2 = 0 →
          decompressFrame cos sin n (p ++ [b]) l r = decompressFrame cos sin n p l r)
      ∧ (∀ t : List Nat,
          decompressFrame cos sin n p l r <+: decompressFrame cos sin n (p ++ t) l r) := by
  refine ⟨⟨_, ?_, decompressFrame_eq cos sin n p l r⟩, rfl, ?_, ?_, ?_⟩
  · rw [List.length_take]; omega
  · intro hodd
    have hne : p ≠ [] := by
      intro h; rw [h] at hodd; simp at hodd
    have hq : p = p.dropLast ++ [p.getLast hne] := (List.dropLast_append_getLast hne).symm
    have hlen : p.dropLast.length % 2 = 0 := by
      rw [List.length_dropLast]; omega
    nth_rewrite 1 [hq]
    exact decompressFrame_odd cos sin n _ _ l r hlen
  · intro b hp
    exact decompressFrame_odd cos sin n p b l r hp
  · intro t
    exact decompressFrame_initial cos sin n p t l r

/-- C27: the array returned by `decompressFrame` has a length that is a
multiple of 3, for every payload, calibration and stride (the point cap and
the end of the data included): it is `3 * k` for a number `k ≤ 166667` of
points, and `points.length / 3` is that natural number.  The frame object that
`displayFrame` builds on a cache miss therefore stores an integral
`pointCount`, with `points.length = 3 * pointCount`. -/
theorem decompressFrame_whole_triples (cos sin : α → α) (n : Nat) (frameData : List Nat)
    (l r : Option (Camera α)) :
    (decompressFrame cos sin n frameData l r).length % 3 = 0
      ∧ (∃ k : Nat, k ≤ 166667
          ∧ (decompressFrame cos sin n frameData l r).length = 3 * k
          ∧ ((decompressFrame cos sin n frameData l r).length : ℚ) / 3 = (k : ℚ))
      ∧ (∀ (K : Nat) (cache : FrameCache (DecodedFrame α)) (unit : LoadedUnit α)
          (frameIndex : Int) (frame : DecodedFrame α),
          getFrameFromCache cache unit.unitIndex frameIndex = none →
          (frameForUnit cos sin n K cache unit frameIndex).1 = some frame →
          ∃ k : Nat, frame.pointCount = (k : ℚ) ∧ frame.points.length = 3 * k) := by
  obtain ⟨k, hk, hlen⟩ := decompressFrame_length cos sin n frameData l r
  refine ⟨by omega, ⟨k, hk, hlen, ?_⟩, ?_⟩
  · rw [hlen]; push_cast; field_simp
  · intro K cache unit frameIndex frame hmiss hframe
    by_cases hrange : (unit.stmovData.frameCount : Int) ≤ frameIndex
    · rw [frameForUnit_out_of_range cos sin n K cache unit frameIndex hrange] at hframe
      simp at hframe
    · cases hraw : frameAt unit.stmovData.frames frameIndex with
      | none =>
        rw [frameForUnit_no_record cos sin n K cache unit frameIndex (by omega) hmiss hraw]
          at hframe
        simp at hframe
      | some rawFrameData =>
        rw [frameForUnit_miss cos sin n K cache unit frameIndex rawFrameData (by omega)
          hmiss hraw] at hframe
        simp only [Option.some.injEq] at hframe
        obtain ⟨k2, _, hlen2⟩ := decompressFrame_length cos sin n rawFrameData.data
          (some unit.stmovData.leftCamera) (some unit.stmovData.rightCamera)
        refine ⟨k2, ?_, ?_⟩
        · rw [← hframe]
          show ((decompressFrame cos sin n rawFrameData.data (some unit.stmovData.leftCamera)
            (some unit.stmovData.rightCamera)).length : ℚ) / 3 = (k2 : ℚ)
          rw [hlen2]; push_cast; field_simp
        · rw [← hframe]
          exact hlen2

/-- C29: a chunk whose depth is clipped emits no point and advances the pixel
counter by its run length; and for a chunk placed after a payload `pre` of
whole chunks and before a payload `post`, replacing it by a chunk of the same
run length and any other depth (in range or clipped) leaves the decoding
position after it unchanged.  The in-range samples of the whole payload are
those of `pre`, then the chunk's own samples, then those of `post`, and only
the middle part depends on the chunk's depth: the samples before and after
keep their counters (hence pixel coordinates), screen flags and depths.  The
array returned by `decompressFrame` is built from that sample list (kept
samples, first 166667 points). -/
theorem clipped_chunk_occupies_raster (cos sin : α → α) (n : Nat) (l r : Option (Camera α))
    (pre post : List Nat) (first second first2 second2 : Nat)
    (hpre : pre.length % 2 = 0) (hrl : runLength second = runLength second2) :
    (∀ st : DecodeState α, ¬ (chunkDepth first second > 0 ∧ chunkDepth first second < 8000) →
        chunkRun cos sin n l r first second st =
          (st.count + runLength second, st.points, false))
      ∧ (¬ (chunkDepth first second > 0 ∧ chunkDepth first second < 8000) →
          ownSamples pre first second = [])
      ∧ stateAfter (pre ++ [first, second]) 0 true = stateAfter (pre ++ [first2, second2]) 0 true
      ∧ samplesAfter (pre ++ [first, second]) post = samplesAfter (pre ++ [first2, second2]) post
      ∧ samples (pre ++ first :: second :: post) =
          samples pre ++ ownSamples pre first second ++ samplesAfter (pre ++ [first, second]) post
      ∧ samples (pre ++ first2 :: second2 :: post) =
          samples pre ++ ownSamples pre first2 second2
            ++ samplesAfter (pre ++ [first, second]) post
      ∧ decompressFrame cos sin n (pre ++ first :: second :: post) l r =
          flatten3 ((((samples pre ++ ownSamples pre first second
              ++ samplesAfter (pre ++ [first, second]) post).filter
            fun s => s.counter % n = 0).map (samplePoint cos sin l r)).take 166667)
      ∧ decompressFrame cos sin n (pre ++ first2 :: second2 :: post) l r =
          flatten3 ((((samples pre ++ ownSamples pre first2 second2
              ++ samplesAfter (pre ++ [first, second]) post).filter
            fun s => s.counter % n = 0).map (samplePoint cos sin l r)).take 166667) := by
  have hstate : stateAfter (pre ++ [first, second]) 0 true =
      stateAfter (pre ++ [first2, second2]) 0 true := by
    rw [stateAfter_append pre _ 0 true hpre, stateAfter_append pre _ 0 true hpre]
    cases stateAfter pre 0 true with
    | none => rfl
    | some st => exact stateAfter_chunk_congr first second first2 second2 st.1 st.2 hrl
  have hafter : samplesAfter (pre ++ [first, second]) post =
      samplesAfter (pre ++ [first2, second2]) post := by
    unfold samplesAfter
    rw [hstate]
  have hsplit : ∀ f s : Nat, samples (pre ++ f :: s :: post) =
      samples pre ++ ownSamples pre f s ++ samplesAfter (pre ++ [f, s]) post := by
    intro f s
    unfold samples ownSamples samplesAfter
    rw [samplesFrom_append pre (f :: s :: post) 0 true hpre,
      stateAfter_append pre [f, s] 0 true hpre, List.append_assoc]
    cases stateAfter pre 0 true with
    | none => simp
    | some st =>
      have h2 := samplesFrom_append [f, s] post st.1 st.2 (by simp)
      have h3 : samplesFrom [f, s] st.1 st.2 = chunkSamples f s st.1 st.2 := by
        rw [samplesFrom]
        split_ifs <;> simp [samplesFrom]
      rw [h3] at h2
      exact congrArg _ h2
  have h1 := hsplit first second
  have h2 := hsplit first2 second2
  rw [← hafter] at h2
  refine ⟨?_, ?_, hstate, hafter, h1, h2, ?_, ?_⟩
  · intro st hclip
    unfold chunkRun
    rw [if_neg hclip]
  · intro hclip
    have hclip2 : ¬ (0 < chunkDepth first second ∧ chunkDepth first second < 8000) := hclip
    unfold ownSamples
    cases stateAfter pre 0 true with
    | none => rfl
    | some st =>
      show chunkSamples first second st.1 st.2 = []
      unfold chunkSamples
      rw [if_neg hclip2]
  · rw [decompressFrame_eq, keptSamples, h1]
  · rw [decompressFrame_eq, keptSamples, h2]

theorem clipped_chunk_occupies_raster_witness :
    ([100, 12] : List Nat).length % 2 = 0 ∧ runLength 8 = runLength 9
      ∧ ownSamples [100, 12] 0 8 = []
      ∧ samples ([100, 12] ++ 0 :: 8 :: [50, 4]) =
          samples [100, 12] ++ ownSamples [100, 12] 0 8
            ++ samplesAfter ([100, 12] ++ [0, 8]) [50, 4]
      ∧ samples ([100, 12] ++ 200 :: 9 :: [50, 4]) =
          samples [100, 12] ++ ownSamples [100, 12] 200 9
            ++ samplesAfter ([100, 12] ++ [0, 8]) [50, 4] :=
  have h := clipped_chunk_occupies_raster (fun _ : ℚ => 1) (fun _ : ℚ => 0) 1 none none
    [100, 12] [50, 4] 0 8 200 9 (by decide) (by decide)
  ⟨by decide, by decide, h.2.1 (by decide), h.2.2.2.2.1, h.2.2.2.2.2.1⟩

/-- C30: once the right screen is complete the rest of the payload is ignored.
If decoding the payload `p` ends in a state whose pixel counter has reached
`640 * 480` with the screen flag right, then for every byte string `t` the
loop ends in the same state on `p ++ t`, and `decompressFrame` returns the same
array for `p ++ t` as for `p`. -/
theorem right_screen_complete_ignores_rest (cos sin : α → α) (n : Nat)
    (l r : Option (Camera α)) (p t : List Nat)
    (hcount : (decodeLoop cos sin n l r p
      { count := 0, isLeftScreen := true, points := [] }).count ≥ 640 * 480)
    (hflag : (decodeLoop cos sin n l r p
      { count := 0, isLeftScreen := true, points := [] }).isLeftScreen = false) :
    decodeLoop cos sin n l r (p ++ t) { count := 0, isLeftScreen := true, points := [] } =
        decodeLoop cos sin n l r p { count := 0, isLeftScreen := true, points := [] }
      ∧ decompressFrame cos sin n (p ++ t) l r = decompressFrame cos sin n p l r := by
  have hloop := decodeLoop_append_of_stop cos sin n l r p t
    { count := 0, isLeftScreen := true, points := [] } (by simp) ⟨hcount, hflag⟩
  refine ⟨hloop, ?_⟩
  have hne : p ≠ [] := by
    intro h
    rw [h] at hcount
    simp [decodeLoop] at hcount
  have hlen : p.length ≠ 0 := fun h => hne (List.length_eq_zero.mp h)
  have hlen2 : (p ++ t).length ≠ 0 := by
    rw [List.length_append]; omega
  unfold decompressFrame
  rw [if_neg hlen, if_neg hlen2, hloop]

theorem right_screen_complete_ignores_rest_witness :
    (decodeLoop (fun _ : ℚ => 1) (fun _ : ℚ => 0) 1 none none
        (List.replicate 9600 [0, 252]).flatten
        { count := 0, isLeftScreen := true, points := [] }).count ≥ 640 * 480
      ∧ (decodeLoop (fun _ : ℚ => 1) (fun _ : ℚ => 0) 1 none none
        (List.replicate 9600 [0, 252]).flatten
        { count := 0, isLeftScreen := true, points := [] }).isLeftScreen = false
      ∧ decompressFrame (fun _ : ℚ => 1) (fun _ : ℚ => 0) 1
          ((List.replicate 9600 [0, 252]).flatten ++ [200, 9, 50, 4]) none none =
        decompressFrame (fun _ : ℚ => 1) (fun _ : ℚ => 0) 1
          (List.replicate 9600 [0, 252]).flatten none none :=
  ⟨by rw [decodeLoop_clipped_screens], by rw [decodeLoop_clipped_screens],
    (right_screen_complete_ignores_rest (fun _ : ℚ => 1) (fun _ : ℚ => 0) 1 none none
      (List.replicate 9600 [0, 252]).flatten [200, 9, 50, 4]
      (by rw [decodeLoop_clipped_screens]) (by rw [decodeLoop_clipped_screens])).2⟩

end DecoderClaims2


/-! ## Selection of the points to draw -/

section DisplayLemmas

theorem ceil_div_step (a d : Nat) (ha : 0 < a) (hd : 0 < d) :
    (a + d - 1) / d = (a - d + d - 1) / d + 1 := by
  by_cases h : d ≤ a
  · have : a + d - 1 = (a - d + d - 1) + d := by omega
    rw [this, Nat.add_div_right _ hd]
  · have h1 : a - d = 0 := by omega
    have h2 : a + d - 1 = (a - 1) + d := by omega
    rw [h1, h2, Nat.add_div_right _ hd, Nat.div_eq_of_lt (by omega), Nat.zero_add,
      Nat.div_eq_of_lt (by omega)]

theorem filterMap_range_succ {β : Type} (f : Nat → Option β) (m : Nat) :
    (List.range (m + 1)).filterMap f =
      (match f 0 with
        | some b => [b]
        | none => []) ++ (List.range m).filterMap fun k => f (k + 1) := by
  rw [List.range_succ_eq_map, List.filterMap_cons, List.filterMap_map]
  cases f 0 <;> rfl

theorem filterMap_length_of_isSome {β γ : Type} (f : β → Option γ) (l : List β)
    (h : ∀ x ∈ l, (f x).isSome = true) : (l.filterMap f).length = l.length := by
  induction l with
  | nil => rfl
  | cons a as ih =>
    have ha := h a (List.mem_cons_self _ _)
    obtain ⟨b, hb⟩ := Option.isSome_iff_exists.mp ha
    rw [List.filterMap_cons, hb]
    simp only [List.length_cons]
    rw [ih (fun x hx => h x (List.mem_cons_of_mem _ hx))]

theorem everyNth_length {β : Type} (d : Nat) (ws : List β) (hd : 0 < d) :
    (everyNth d ws).length = (ws.length + d - 1) / d := by
  unfold everyNth
  rw [filterMap_length_of_isSome, List.length_range]
  intro k hk
  rw [List.mem_range] at hk
  have h1 : (k + 1) * d ≤ ws.length + d - 1 := (Nat.le_div_iff_mul_le hd).mp hk
  have h2 : k * d < ws.length := by
    rw [Nat.add_mul, Nat.one_mul] at h1; omega
  rw [List.getElem?_eq_getElem h2]
  rfl

theorem filterMap_range_getElem? {β : Type} (ws : List β) :
    ((List.range ws.length).filterMap fun k => ws[k]?) = ws := by
  induction ws with
  | nil => rfl
  | cons w ws ih =>
    rw [List.length_cons, filterMap_range_succ]
    simp only [List.getElem?_cons_zero, List.getElem?_cons_succ]
    rw [ih]
    rfl

theorem everyNth_one {β : Type} (ws : List β) : everyNth 1 ws = ws := by
  unfold everyNth
  have hm : (ws.length + 1 - 1) / 1 = ws.length := by simp
  rw [hm]
  simp only [Nat.mul_one]
  exact filterMap_range_getElem? ws

variable {α : Type}

theorem flatten3_getElem? (ws : List (Vec3 α)) (j : Nat) :
    (flatten3 ws)[3 * j]? = (ws[j]?).map (fun w => w.x)
      ∧ (flatten3 ws)[3 * j + 1]? = (ws[j]?).map (fun w => w.y)
      ∧ (flatten3 ws)[3 * j + 2]? = (ws[j]?).map (fun w => w.z) := by
  induction ws generalizing j with
  | nil => simp [flatten3_nil]
  | cons w ws ih =>
    rw [flatten3_cons]
    cases j with
    | zero => simp
    | succ j =>
      have h0 : 3 * (j + 1) = (3 * j) + 1 + 1 + 1 := by omega
      have h1 : 3 * (j + 1) + 1 = (3 * j + 1) + 1 + 1 + 1 := by omega
      have h2 : 3 * (j + 1) + 2 = (3 * j + 2) + 1 + 1 + 1 := by omega
      rw [h1, h2, h0]
      simp only [List.cons_append, List.nil_append, List.getElem?_cons_succ]
      exact ih j

end DisplayLemmas

section DisplayLoop

variable {α : Type} [LinearOrderedField α]

theorem displayUnitLoop_eq (ws : List (Vec3 α)) (offsetX : α) (unitIndex d : Nat)
    (hd : 0 < d) (fuel j : Nat) (filteredPoints : List α) (hfuel : ws.length ≤ fuel + j) :
    displayUnitLoop (flatten3 ws) offsetX ((unitIndex : α) * 4) (((unitIndex : α) + 1) * 4) d
        fuel (3 * j) filteredPoints =
      some (filteredPoints ++ flatten3
        ((((List.range ((ws.length - j + d - 1) / d)).filterMap fun k => ws[j + k * d]?).filter
          (inUnitBox unitIndex offsetX)).map (glPoint offsetX))) := by
  induction fuel generalizing j filteredPoints with
  | zero =>
    have hj : ws.length - j = 0 := by omega
    have hm : (ws.length - j + d - 1) / d = 0 := by
      rw [hj]; exact Nat.div_eq_of_lt (by omega)
    unfold displayUnitLoop
    rw [if_neg (by rw [flatten3_length]; omega), hm]
    simp [flatten3_nil]
  | succ fuel ih =>
    unfold displayUnitLoop
    by_cases hj : j < ws.length
    · have hm : (ws.length - j + d - 1) / d = (ws.length - (j + d) + d - 1) / d + 1 := by
        have := ceil_div_step (ws.length - j) d (by omega) hd
        rw [this]
        congr 3
        omega
      obtain ⟨h0, h1, h2⟩ := flatten3_getElem? ws j
      have hw : ws[j]? = some ws[j] := List.getElem?_eq_getElem hj
      rw [hw] at h0 h1 h2
      have hnext : 3 * j + 3 * d = 3 * (j + d) := by omega
      have hrest : ((List.range ((ws.length - (j + d) + d - 1) / d)).filterMap
          fun k => ws[j + (k + 1) * d]?) =
          ((List.range ((ws.length - (j + d) + d - 1) / d)).filterMap
            fun k => ws[j + d + k * d]?) := by
        congr 1
        funext k
        congr 1
        rw [Nat.add_mul, Nat.one_mul]
        omega
      rw [if_pos (by rw [flatten3_length]; omega), h0, h1, h2, hm, filterMap_range_succ]
      simp only [Option.map_some', Nat.zero_mul, Nat.add_zero, hw, List.singleton_append,
        hrest, hnext]
      rw [List.filter_cons]
      by_cases hbox : inUnitBox unitIndex offsetX ws[j] = true
      · have hcond := hbox
        unfold inUnitBox at hcond
        rw [decide_eq_true_eq] at hcond
        rw [if_pos hcond, if_pos hbox, ih (j + d) _ (by omega), List.map_cons, flatten3_cons,
          ← List.append_assoc]
        rfl
      · have hcond := hbox
        unfold inUnitBox at hcond
        rw [decide_eq_true_eq] at hcond
        rw [if_neg hcond, if_neg hbox, ih (j + d) _ (by omega)]
    · have hj2 : ws.length - j = 0 := by omega
      have hm : (ws.length - j + d - 1) / d = 0 := by
        rw [hj2]; exact Nat.div_eq_of_lt (by omega)
      rw [if_neg (by rw [flatten3_length]; omega), hm]
      simp [flatten3_nil]

theorem displayUnitFrame_eq (d : Nat) (hd : 0 < d) (index : Int) (ws : List (Vec3 α))
    (pointCount : ℚ) (offsetX : α) (unit : LoadedUnit α) :
    displayUnitFrame d ⟨index, flatten3 ws, pointCount⟩ offsetX unit =
      some (flatten3 (((everyNth d ws).filter (inUnitBox unit.unitIndex offsetX)).map
        (glPoint offsetX))) := by
  unfold displayUnitFrame everyNth
  have h := displayUnitLoop_eq ws offsetX unit.unitIndex d hd (flatten3 ws).length 0 []
    (by rw [flatten3_length]; omega)
  simp only [Nat.mul_zero, Nat.sub_zero, Nat.zero_add, List.nil_append] at h
  exact h

end DisplayLoop

section DisplayClaims

variable {α : Type} [LinearOrderedField α]

/-- C21: with a draw interval `d ≥ 1`, the loop of `displayUnitFrame` over a
decoded array of whole points `ws` considers exactly the points at the indices
`0, d, 2d, ...` of `ws`, each with its own three numbers, and forwards those in
range (shifted by `offsetX`, with `z` negated).  There are `ceil(n / d)`
considered points for `n` points, so at most that many are forwarded; with
`d = 1` every point is considered.  The selection depends on the decoded array
only: for the array that `decompressFrame` returns at any parse-time stride,
the considered points are every `d`-th of its points. -/
theorem display_stride_selects_every_dth (cos sin : α → α) (d : Nat) (hd : 0 < d)
    (index : Int) (ws : List (Vec3 α)) (pointCount : ℚ) (offsetX : α) (unit : LoadedUnit α) :
    displayUnitFrame d ⟨index, flatten3 ws, pointCount⟩ offsetX unit =
        some (flatten3 (((everyNth d ws).filter (inUnitBox unit.unitIndex offsetX)).map
          (glPoint offsetX)))
      ∧ (everyNth d ws).length = (ws.length + d - 1) / d
      ∧ (((everyNth d ws).filter (inUnitBox unit.unitIndex offsetX)).map
          (glPoint offsetX)).length ≤ (ws.length + d - 1) / d
      ∧ displayUnitFrame 1 ⟨index, flatten3 ws, pointCount⟩ offsetX unit =
          some (flatten3 ((ws.filter (inUnitBox unit.unitIndex offsetX)).map (glPoint offsetX)))
      ∧ (∀ (n : Nat) (payload : List Nat) (l r : Option (Camera α)),
          displayUnitFrame d ⟨index, decompressFrame cos sin n payload l r, pointCount⟩
              offsetX unit =
            some (flatten3 (((everyNth d
                (((keptSamples n payload).map (samplePoint cos sin l r)).take 166667)).filter
              (inUnitBox unit.unitIndex offsetX)).map (glPoint offsetX)))) := by
  refine ⟨displayUnitFrame_eq d hd index ws pointCount offsetX unit,
    everyNth_length d ws hd, ?_, ?_, ?_⟩
  · rw [List.length_map, ← everyNth_length d ws hd]
    exact List.length_filter_le _ _
  · rw [displayUnitFrame_eq 1 (by omega) index ws pointCount offsetX unit, everyNth_one]
  · intro n payload l r
    rw [decompressFrame_eq]
    exact displayUnitFrame_eq d hd index _ pointCount offsetX unit

theorem display_stride_selects_every_dth_witness :
    0 < 2
      ∧ displayUnitFrame 2
          ⟨0, flatten3 [(⟨0, 1, 1⟩ : Vec3 ℚ), ⟨0, 1, 2⟩, ⟨1, 1, 1 / 2⟩, ⟨0, 2, 2⟩], 4⟩ 2
          (⟨0, "unit.stmov", headerUnit (fun n => (n : ℚ)) sampleHeader [], none⟩ :
            LoadedUnit ℚ) =
        some (flatten3 (((everyNth 2
            [(⟨0, 1, 1⟩ : Vec3 ℚ), ⟨0, 1, 2⟩, ⟨1, 1, 1 / 2⟩, ⟨0, 2, 2⟩]).filter
          (inUnitBox 0 2)).map (glPoint 2)))
      ∧ everyNth 2 [(⟨0, 1, 1⟩ : Vec3 ℚ), ⟨0, 1, 2⟩, ⟨1, 1, 1 / 2⟩, ⟨0, 2, 2⟩] =
          [⟨0, 1, 1⟩, ⟨1, 1, 1 / 2⟩] :=
  ⟨by decide,
    (display_stride_selects_every_dth (fun _ : ℚ => 1) (fun _ : ℚ => 0) 2 (by decide) 0
      [(⟨0, 1, 1⟩ : Vec3 ℚ), ⟨0, 1, 2⟩, ⟨1, 1, 1 / 2⟩, ⟨0, 2, 2⟩] 4 2
      (⟨0, "unit.stmov", headerUnit (fun n => (n : ℚ)) sampleHeader [], none⟩ :
        LoadedUnit ℚ)).1,
    rfl⟩

end DisplayClaims


/-! ## The parser object: archives and file dispatch -/

section ParserObjectLemmas

variable {α : Type}

/-- The outcome of `parseUnitFile` on the parser object is the outcome of
`parseUnitFile`, the returned object referring to the version object of the
parser. -/
theorem parseUnitFileObj_snd (decodeFloat32 : Nat → α) (this : ParserObject)
    (buffer : List Nat) :
    (parseUnitFileObj decodeFloat32 this buffer).2 =
      (parseUnitFile decodeFloat32 buffer).map fun fields =>
        { version := this.version, fields := fields } := by
  unfold parseUnitFileObj
  split
  · rename_i e h
    unfold parseUnitFile
    simp only [h, bind, Except.bind, Except.map, Nat.zero_add]
  · rename_i sig h
    split
    · rename_i hc
      unfold parseUnitFile
      simp only [h, bind, Except.bind, Except.map, hc, if_true, throw, throwThe,
        MonadExceptOf.throw, Nat.zero_add]
    · rename_i hc
      split
      · rename_i e h6
        unfold parseUnitFile
        simp only [h, bind, Except.bind, Except.map, hc, if_false, h6, pure, Except.pure,
          Nat.zero_add, Nat.reduceAdd, Bool.false_eq_true]
      · rename_i major h6
        split
        · rename_i e h7
          unfold parseUnitFile
          simp only [h, bind, Except.bind, Except.map, hc, if_false, h6, h7, pure, Except.pure,
            Nat.zero_add, Nat.reduceAdd, Bool.false_eq_true]
        · rfl

theorem parseUnitFileObj_version (decodeFloat32 : Nat → α) (this : ParserObject)
    (buffer : List Nat) :
    (parseUnitFileObj decodeFloat32 this buffer).1.version = this.version := by
  unfold parseUnitFileObj
  split
  · rfl
  · split
    · rfl
    · split
      · rfl
      · split <;> rfl

end ParserObjectLemmas

section TrackLoopLemmas

variable {α : Type}

theorem trackLoop_version (decodeFloat32 : Nat → α) (entries : List ZipEntry) (i : Nat)
    (this : ParserObject) (units : List (TrackUnit α)) :
    (trackLoop decodeFloat32 entries i this units).1.version = this.version := by
  induction entries generalizing i this units with
  | nil => rfl
  | cons entry rest ih =>
    unfold trackLoop
    dsimp only
    split
    · exact parseUnitFileObj_version decodeFloat32 this entry.bytes
    · rw [ih, parseUnitFileObj_version]

/-- The units that the loop of `parseTrackFile` has added when it ends without
an exception: one per entry, in order, numbered from `i`, each with the name
of its entry and the fields that `parseUnitFile` returns for the bytes of the
entry, and all referring to the one version object of the parser. -/
theorem trackLoop_ok (decodeFloat32 : Nat → α) (entries : List ZipEntry) (i : Nat)
    (this : ParserObject) (units us : List (TrackUnit α))
    (h : (trackLoop decodeFloat32 entries i this units).2 = .ok us) :
    ∃ added : List (TrackUnit α), us = units ++ added
      ∧ added.map (fun u => u.unitIndex) = List.range' i entries.length
      ∧ added.map (fun u => u.fileName) = entries.map (fun e => e.name)
      ∧ List.Forall₂ (fun e u => parseUnitFile decodeFloat32 e.bytes = .ok u.stmovData.fields
          ∧ u.stmovData.version = this.version) entries added := by
  induction entries generalizing i this units with
  | nil =>
    simp only [trackLoop, Except.ok.injEq] at h
    exact ⟨[], by simp [h], rfl, rfl, List.Forall₂.nil⟩
  | cons entry rest ih =>
    unfold trackLoop at h
    dsimp only at h
    rw [parseUnitFileObj_snd] at h
    cases hp : parseUnitFile decodeFloat32 entry.bytes with
    | error e => rw [hp] at h; simp [Except.map] at h
    | ok fields =>
      rw [hp] at h
      simp only [Except.map] at h
      obtain ⟨added, hus, hidx, hname, hall⟩ := ih _ _ _ h
      refine ⟨{ unitIndex := i, fileName := entry.name,
                stmovData := { version := this.version, fields := fields } } :: added,
        ?_, ?_, ?_, ?_⟩
      · rw [hus, List.append_assoc]; rfl
      · rw [List.map_cons, hidx, List.length_cons, List.range'_succ]
      · rw [List.map_cons, hname, List.map_cons]
      · refine List.Forall₂.cons ⟨hp, rfl⟩ ?_
        rw [parseUnitFileObj_version] at hall
        exact hall

/-- The loop of `parseTrackFile` ends without an exception exactly when every
entry parses. -/
theorem trackLoop_returns_iff (decodeFloat32 : Nat → α) (entries : List ZipEntry) (i : Nat)
    (this : ParserObject) (units : List (TrackUnit α)) :
    (∃ us, (trackLoop decodeFloat32 entries i this units).2 = .ok us) ↔
      ∀ e ∈ entries, ∃ u, parseUnitFile decodeFloat32 e.bytes = .ok u := by
  induction entries generalizing i this units with
  | nil => simp [trackLoop]
  | cons entry rest ih =>
    unfold trackLoop
    dsimp only
    rw [parseUnitFileObj_snd]
    cases hp : parseUnitFile decodeFloat32 entry.bytes with
    | error e =>
      simp only [Except.map, List.mem_cons, forall_eq_or_imp, hp]
      simp
    | ok fields =>
      simp only [Except.map, List.mem_cons, forall_eq_or_imp, hp]
      rw [ih]
      simp

/-- An exception of the loop of `parseTrackFile` is the exception that
`parseUnitFile` raises on one of the entries. -/
theorem trackLoop_error (decodeFloat32 : Nat → α) (entries : List ZipEntry) (i : Nat)
    (this : ParserObject) (units : List (TrackUnit α)) (x : FileError)
    (h : (trackLoop decodeFloat32 entries i this units).2 = .error x) :
    ∃ e ∈ entries, ∃ err, parseUnitFile decodeFloat32 e.bytes = .error err ∧ x = .unit err := by
  induction entries generalizing i this units with
  | nil => simp [trackLoop] at h
  | cons entry rest ih =>
    unfold trackLoop at h
    dsimp only at h
    rw [parseUnitFileObj_snd] at h
    cases hp : parseUnitFile decodeFloat32 entry.bytes with
    | error e =>
      rw [hp] at h
      simp only [Except.map, Except.error.injEq] at h
      exact ⟨entry, List.mem_cons_self _ _, e, hp, h.symm⟩
    | ok fields =>
      rw [hp] at h
      simp only [Except.map] at h
      obtain ⟨e, he, err, herr, hx⟩ := ih _ _ _ h
      exact ⟨e, List.mem_cons_of_mem _ he, err, herr, hx⟩

end TrackLoopLemmas

section SortLemmas

/-- The sort of `parseTrackFile` keeps entries with equal suffix numbers in
their order of enumeration. -/
theorem insertionSort_filter_eq {β : Type} (key : β → Nat) (l : List β) (m : Nat) :
    (l.insertionSort fun a b => key a ≤ key b).filter (fun e => key e = m) =
      l.filter (fun e => key e = m) := by
  have hperm : (l.insertionSort fun a b => key a ≤ key b).Perm l := List.perm_insertionSort _ l
  have hsub : List.Sublist (l.filter (fun e => key e = m))
      (l.insertionSort fun a b => key a ≤ key b) := by
    apply List.sublist_insertionSort
    · apply List.Pairwise.imp_of_mem _ (List.pairwise_of_forall (fun _ _ => trivial))
      intro a b ha hb _
      have h1 := (List.mem_filter.mp ha).2
      have h2 := (List.mem_filter.mp hb).2
      simp only [decide_eq_true_eq] at h1 h2
      omega
    · exact List.filter_sublist l
  have hsub2 : List.Sublist (l.filter (fun e => key e = m))
      ((l.insertionSort fun a b => key a ≤ key b).filter (fun e => key e = m)) := by
    have := hsub.filter (fun e => decide (key e = m))
    simpa only [List.filter_filter, Bool.and_self] using this
  exact (hsub2.eq_of_length (hperm.filter _).length_eq.symm).symm

theorem take_min_length {β : Type} (l : List β) (k : Nat) :
    l.take (min l.length k) = l.take k := by
  by_cases h : l.length ≤ k
  · rw [Nat.min_eq_left h, List.take_of_length_le (le_refl _), List.take_of_length_le h]
  · rw [Nat.min_eq_right (by omega)]

end SortLemmas

section ParserObjectClaims

variable {α : Type}

theorem parseTrackFile_snd (decodeFloat32 : Nat → α)
    (loadAsync : List Nat → Except FileError (List ZipEntry)) (this : ParserObject)
    (buffer : List Nat) (files : List ZipEntry) (hload : loadAsync buffer = .ok files) :
    (parseTrackFile decodeFloat32 loadAsync this buffer).2 =
      match (trackLoop decodeFloat32 ((stmovFilesOf files).take 6) 0 this []).2 with
      | .error e => .error e
      | .ok units => if units.length = 0 then .error .noStmovFiles else .ok units := by
  unfold parseTrackFile
  rw [hload]
  dsimp only
  rw [take_min_length]
  cases (trackLoop decodeFloat32 ((stmovFilesOf files).take 6) 0 this []).2 with
  | error e => rfl
  | ok units =>
    dsimp only
    split_ifs <;> rfl

/-- C22, counterexample: for an archive without an entry that matches the
unit-file pattern `parseTrackFile` returns nothing, it raises the error for an
archive without unit files; and for an archive one of whose first six unit
files does not parse it raises the error of that unit. -/
theorem parseTrackFile_raises_without_units :
    (parseTrackFile (fun n => (n : ℚ))
        (fun _ => .ok [⟨"readme.txt", false, [1, 2, 3]⟩, ⟨"old.stmov", true, []⟩])
        newParser [80, 75]).2 = .error .noStmovFiles
      ∧ (parseTrackFile (fun n => (n : ℚ))
        (fun _ => .ok [⟨"a-1.stmov", false, versionedFile 1 0⟩,
          ⟨"a-2.stmov", false, List.replicate 108 65⟩])
        newParser [80, 75]).2 = .error (.unit (.invalidSignature (List.replicate 6 65))) := by
  constructor <;> rfl

/-- C22, amended: when the archive library gives the entries `files`, the
entries considered are the non-directory entries whose name ends in `.stmov`,
stably sorted by the number between a hyphen and the ending `.stmov` (0 for a
name without such a suffix; entries with equal numbers keep their order of
enumeration).  `parseTrackFile` returns exactly when there is at least one such
entry and each of the first 6 of them parses as a unit file; it then returns
one unit per entry of these first 6, in that order, the `i`-th (0-based) with
`unitIndex = i`, the name of the `i`-th entry and the unit data that
`parseUnitFile` returns for the bytes of that entry.  Without such an entry it
raises the error for an archive without unit files, otherwise the error of a
unit that does not parse. -/
theorem parseTrackFile_units (decodeFloat32 : Nat → α)
    (loadAsync : List Nat → Except FileError (List ZipEntry)) (this : ParserObject)
    (buffer : List Nat) (files : List ZipEntry) (hload : loadAsync buffer = .ok files) :
    (stmovFilesOf files).Perm
        (files.filter fun entry => endsWith entry.name ".stmov" && !entry.dir)
      ∧ (stmovFilesOf files).Sorted (fun a b => suffixNumber a.name ≤ suffixNumber b.name)
      ∧ (∀ m : Nat, (stmovFilesOf files).filter (fun e => suffixNumber e.name = m) =
          (files.filter fun entry => endsWith entry.name ".stmov" && !entry.dir).filter
            (fun e => suffixNumber e.name = m))
      ∧ ((∃ units, (parseTrackFile decodeFloat32 loadAsync this buffer).2 = .ok units) ↔
          (stmovFilesOf files ≠ []
            ∧ ∀ e ∈ (stmovFilesOf files).take 6, ∃ u, parseUnitFile decodeFloat32 e.bytes = .ok u))
      ∧ (∀ units, (parseTrackFile decodeFloat32 loadAsync this buffer).2 = .ok units →
          units.length = min (stmovFilesOf files).length 6
            ∧ units.map (fun u => u.unitIndex) = List.range units.length
            ∧ units.map (fun u => u.fileName) = ((stmovFilesOf files).take 6).map (fun e => e.name)
            ∧ List.Forall₂
                (fun e u => parseUnitFile decodeFloat32 e.bytes = .ok u.stmovData.fields)
                ((stmovFilesOf files).take 6) units)
      ∧ (stmovFilesOf files = [] →
          (parseTrackFile decodeFloat32 loadAsync this buffer).2 = .error .noStmovFiles)
      ∧ (∀ x, (parseTrackFile decodeFloat32 loadAsync this buffer).2 = .error x →
          (x = .noStmovFiles ∧ stmovFilesOf files = [])
            ∨ ∃ e ∈ (stmovFilesOf files).take 6, ∃ err,
                parseUnitFile decodeFloat32 e.bytes = .error err ∧ x = .unit err) := by
  haveI htotal : IsTotal ZipEntry (fun a b => suffixNumber a.name ≤ suffixNumber b.name) :=
    ⟨fun a b => Nat.le_total _ _⟩
  haveI htrans : IsTrans ZipEntry (fun a b => suffixNumber a.name ≤ suffixNumber b.name) :=
    ⟨fun a b c h1 h2 => Nat.le_trans h1 h2⟩
  have hsnd := parseTrackFile_snd decodeFloat32 loadAsync this buffer files hload
  have hokform : ∀ us, (trackLoop decodeFloat32 ((stmovFilesOf files).take 6) 0 this []).2
      = .ok us →
      us.length = min (stmovFilesOf files).length 6
        ∧ us.map (fun u => u.unitIndex) = List.range us.length
        ∧ us.map (fun u => u.fileName) = ((stmovFilesOf files).take 6).map (fun e => e.name)
        ∧ List.Forall₂
            (fun e u => parseUnitFile decodeFloat32 e.bytes = .ok u.stmovData.fields)
            ((stmovFilesOf files).take 6) us := by
    intro us hus
    obtain ⟨added, hadd, hidx, hname, hall⟩ := trackLoop_ok decodeFloat32 _ 0 this [] us hus
    rw [List.nil_append] at hadd
    subst hadd
    have hlen : us.length = ((stmovFilesOf files).take 6).length := by
      have hl := congrArg List.length hname
      simpa using hl
    refine ⟨?_, ?_, hname, ?_⟩
    · rw [hlen, List.length_take]; omega
    · rw [hidx, hlen, List.range_eq_range']
    · exact hall.imp (fun _ _ h => h.1)
  refine ⟨List.perm_insertionSort _ _, List.sorted_insertionSort _ _,
    fun m => insertionSort_filter_eq (fun e : ZipEntry => suffixNumber e.name) _ m,
    ?_, ?_, ?_, ?_⟩
  · rw [hsnd]
    constructor
    · rintro ⟨units, hu⟩
      cases hloop : (trackLoop decodeFloat32 ((stmovFilesOf files).take 6) 0 this []).2 with
      | error e => rw [hloop] at hu; simp at hu
      | ok us =>
        rw [hloop] at hu
        dsimp only at hu
        have hform := hokform us hloop
        split_ifs at hu with hzero
        refine ⟨?_, (trackLoop_returns_iff decodeFloat32 _ 0 this []).mp ⟨us, hloop⟩⟩
        intro hnil
        have hl := hform.1
        rw [hnil] at hl
        exact hzero (by simpa using hl)
    · rintro ⟨hne, hall⟩
      obtain ⟨us, hloop⟩ := (trackLoop_returns_iff decodeFloat32 _ 0 this []).mpr hall
      have hform := hokform us hloop
      rw [hloop]
      dsimp only
      have hpos : us.length ≠ 0 := by
        rw [hform.1]
        have hl : (stmovFilesOf files).length ≠ 0 := fun h => hne (List.length_eq_zero.mp h)
        omega
      rw [if_neg hpos]
      exact ⟨us, rfl⟩
  · intro units hu
    rw [hsnd] at hu
    cases hloop : (trackLoop decodeFloat32 ((stmovFilesOf files).take 6) 0 this []).2 with
    | error e => rw [hloop] at hu; simp at hu
    | ok us =>
      rw [hloop] at hu
      dsimp only at hu
      split_ifs at hu
      simp only [Except.ok.injEq] at hu
      subst hu
      exact hokform us hloop
  · intro hnil
    rw [hsnd, hnil]
    rfl
  · intro x hx
    rw [hsnd] at hx
    cases hloop : (trackLoop decodeFloat32 ((stmovFilesOf files).take 6) 0 this []).2 with
    | error e =>
      rw [hloop] at hx
      simp only [Except.error.injEq] at hx
      subst hx
      right
      exact trackLoop_error decodeFloat32 _ 0 this [] e hloop
    | ok us =>
      rw [hloop] at hx
      dsimp only at hx
      have hform := hokform us hloop
      split_ifs at hx with hzero
      simp only [Except.error.injEq] at hx
      left
      refine ⟨hx.symm, ?_⟩
      apply List.length_eq_zero.mp
      have hl := hform.1
      omega

theorem parseTrackFile_units_witness :
    (parseTrackFile (fun n => (n : ℚ))
        (fun _ => .ok [⟨"notes.txt", false, [1]⟩, ⟨"a-10.stmov", false, versionedFile 1 0⟩,
          ⟨"a-2.stmov", false, versionedFile 2 0⟩, ⟨"dir.stmov", true, []⟩,
          ⟨"b.stmov", false, versionedFile 3 1⟩])
        newParser [80, 75]).2.toOption.map
          (fun units => units.map fun u => (u.unitIndex, u.fileName)) =
        some [(0, "b.stmov"), (1, "a-2.stmov"), (2, "a-10.stmov")]
      ∧ (stmovFilesOf [⟨"notes.txt", false, [1]⟩, ⟨"a-10.stmov", false, versionedFile 1 0⟩,
          ⟨"a-2.stmov", false, versionedFile 2 0⟩, ⟨"dir.stmov", true, []⟩,
          ⟨"b.stmov", false, versionedFile 3 1⟩]).Sorted
            (fun a b => suffixNumber a.name ≤ suffixNumber b.name) :=
  ⟨by decide,
    (parseTrackFile_units (fun n => (n : ℚ))
      (fun _ => .ok [⟨"notes.txt", false, [1]⟩, ⟨"a-10.stmov", false, versionedFile 1 0⟩,
        ⟨"a-2.stmov", false, versionedFile 2 0⟩, ⟨"dir.stmov", true, []⟩,
        ⟨"b.stmov", false, versionedFile 3 1⟩])
      newParser [80, 75] _ rfl).2.1⟩

end ParserObjectClaims

section DispatchClaims

variable {α : Type}

theorem getD_zero_of_isPrefixOf (b : Nat) (p buffer : List Nat)
    (h : (b :: p).isPrefixOf buffer = true) : buffer.getD 0 0 = b := by
  cases buffer with
  | nil => simp [List.isPrefixOf] at h
  | cons c rest =>
    simp only [List.isPrefixOf, Bool.and_eq_true, beq_iff_eq] at h
    simp [h.1]

theorem isZipFile_eq (buffer : List Nat) (hlen : 2 ≤ buffer.length)
    (hbytes : ∀ b ∈ buffer, b < 256) :
    isZipFile buffer = .ok (decide (buffer.getD 0 0 = 0x50 ∧ buffer.getD 1 0 = 0x4B)) := by
  have h1 : buffer.getD 1 0 < 256 := by
    rw [List.getD_eq_getElem _ _ (by omega)]
    exact hbytes _ (List.getElem_mem _)
  have h01 : buffer.getD (0 + 1) 0 = buffer.getD 1 0 := rfl
  unfold isZipFile getUint16
  rw [if_pos (by omega), h01]
  simp only [Except.map, Except.ok.injEq, decide_eq_decide]
  constructor
  · intro h
    exact ⟨by omega, by omega⟩
  · rintro ⟨ha, hb⟩
    omega

/-- C23: for every buffer of at least 2 bytes (each below 256), `isZipFile`
returns, and returns true exactly when byte 0 is `0x50` and byte 1 is `0x4B`;
`parseFile` hands the buffer to `parseTrackFile` exactly in that case and to
`parseUnitFile` otherwise; a buffer with a valid `STMOV` or `STMV` signature is
never treated as an archive. -/
theorem parseFile_dispatch (decodeFloat32 : Nat → α)
    (loadAsync : List Nat → Except FileError (List ZipEntry)) (this : ParserObject)
    (file : InputFile) (hlen : 2 ≤ file.bytes.length) (hbytes : ∀ b ∈ file.bytes, b < 256) :
    isZipFile file.bytes =
        .ok (decide (file.bytes.getD 0 0 = 0x50 ∧ file.bytes.getD 1 0 = 0x4B))
      ∧ (isZipFile file.bytes = .ok true ↔
          (file.bytes.getD 0 0 = 0x50 ∧ file.bytes.getD 1 0 = 0x4B))
      ∧ ((file.bytes.getD 0 0 = 0x50 ∧ file.bytes.getD 1 0 = 0x4B) →
          parseFile decodeFloat32 loadAsync this file =
            ((parseTrackFile decodeFloat32 loadAsync (reset this) file.bytes).1,
              (parseTrackFile decodeFloat32 loadAsync (reset this) file.bytes).2.map
                FileResult.track))
      ∧ (¬ (file.bytes.getD 0 0 = 0x50 ∧ file.bytes.getD 1 0 = 0x4B) →
          parseFile decodeFloat32 loadAsync this file =
            ((parseUnitFileObj decodeFloat32 (reset this) file.bytes).1,
              ((parseUnitFileObj decodeFloat32 (reset this) file.bytes).2.mapError
                FileError.unit).map FileResult.single))
      ∧ (validSignature file.bytes →
          isZipFile file.bytes = .ok false
            ∧ parseFile decodeFloat32 loadAsync this file =
              ((parseUnitFileObj decodeFloat32 (reset this) file.bytes).1,
                ((parseUnitFileObj decodeFloat32 (reset this) file.bytes).2.mapError
                  FileError.unit).map FileResult.single)) := by
  have hzip := isZipFile_eq file.bytes hlen hbytes
  have htrack : (file.bytes.getD 0 0 = 0x50 ∧ file.bytes.getD 1 0 = 0x4B) →
      parseFile decodeFloat32 loadAsync this file =
        ((parseTrackFile decodeFloat32 loadAsync (reset this) file.bytes).1,
          (parseTrackFile decodeFloat32 loadAsync (reset this) file.bytes).2.map
            FileResult.track) := by
    intro h
    unfold parseFile parseFileBody
    rw [hzip, decide_eq_true h]
  have hsingle : ¬ (file.bytes.getD 0 0 = 0x50 ∧ file.bytes.getD 1 0 = 0x4B) →
      parseFile decodeFloat32 loadAsync this file =
        ((parseUnitFileObj decodeFloat32 (reset this) file.bytes).1,
          ((parseUnitFileObj decodeFloat32 (reset this) file.bytes).2.mapError
            FileError.unit).map FileResult.single) := by
    intro h
    unfold parseFile parseFileBody
    rw [hzip, decide_eq_false h]
  refine ⟨hzip, ?_, htrack, hsingle, ?_⟩
  · rw [hzip]
    simp
  · intro hsig
    have hnot : ¬ (file.bytes.getD 0 0 = 0x50 ∧ file.bytes.getD 1 0 = 0x4B) := by
      intro h
      have h83 : file.bytes.getD 0 0 = 83 := by
        rcases hsig with hs | hs
        · exact getD_zero_of_isPrefixOf 83 _ _ hs
        · exact getD_zero_of_isPrefixOf 83 _ _ hs
      omega
    exact ⟨by rw [hzip, decide_eq_false hnot], hsingle hnot⟩

theorem parseFile_dispatch_witness :
    (2 ≤ (InputFile.mk "track.zip" [80, 75, 3, 4]).bytes.length
        ∧ ∀ b ∈ (InputFile.mk "track.zip" [80, 75, 3, 4]).bytes, b < 256)
      ∧ isZipFile (InputFile.mk "track.zip" [80, 75, 3, 4]).bytes = .ok true
      ∧ isZipFile (InputFile.mk "unit.stmov" sampleHeader).bytes = .ok false :=
  ⟨⟨by decide, by decide⟩,
    ((parseFile_dispatch (fun n => (n : ℚ)) (fun _ => .error .zip) newParser
      (InputFile.mk "track.zip" [80, 75, 3, 4]) (by decide) (by decide)).2.1).mpr
      ⟨by decide, by decide⟩,
    ((parseFile_dispatch (fun n => (n : ℚ)) (fun _ => .error .zip) newParser
      (InputFile.mk "unit.stmov" sampleHeader) (by decide) (by decide)).2.2.2.2
        (by decide)).1⟩

theorem forall₂_right {β γ : Type} {R : β → γ → Prop} {P : γ → Prop} {l1 : List β}
    {l2 : List γ} (h : List.Forall₂ R l1 l2) (hP : ∀ a b, R a b → P b) : ∀ b ∈ l2, P b := by
  induction h with
  | nil => simp
  | cons hhead _ ih =>
    intro w hw
    rcases List.mem_cons.mp hw with rfl | hw
    · exact hP _ _ hhead
    · exact ih w hw

theorem trackLoop_shares_version (decodeFloat32 : Nat → α) (entries : List ZipEntry) (i : Nat)
    (this : ParserObject) (units us : List (TrackUnit α))
    (hunits : ∀ u ∈ units, u.stmovData.version = this.version)
    (h : (trackLoop decodeFloat32 entries i this units).2 = .ok us) :
    ∀ u ∈ us, u.stmovData.version = this.version := by
  obtain ⟨added, hus, _, _, hall⟩ := trackLoop_ok decodeFloat32 entries i this units us h
  intro u hu
  rw [hus] at hu
  rcases List.mem_append.mp hu with hin | hin
  · exact hunits u hin
  · exact forall₂_right hall (fun _ _ hr => hr.2) u hin

/-- C28 (evaluation of the code at the failing input): an archive with the two
unit files `a-1.stmov` (version bytes 1, 0) and `a-2.stmov` (version bytes 2,
5) is parsed into two units.  When its own `parseUnitFile` call returned, unit
0 had version 1.0; after the second unit has been parsed, the version read
through unit 0 is 2.5: both units hold the same version object, which
`parseUnitFile` overwrites in place.  The same happens for two single unit
files parsed one after the other without a `reset()` in between, which is the
order of events in a batch, where every `parseFile` call runs its `reset()`
before any of them goes on. -/
theorem track_units_share_version_object :
    ((parseFile (fun n => (n : ℚ))
          (fun _ => .ok [⟨"a-1.stmov", false, versionedFile 1 0⟩,
            ⟨"a-2.stmov", false, versionedFile 2 5⟩])
          newParser ⟨"track.zip", [80, 75]⟩).2.toOption.map fun result =>
        match result with
        | .track units =>
          units.map fun u => (u.unitIndex, u.fileName, u.stmovData.fields.version,
            readVersion (parseFile (fun n => (n : ℚ))
              (fun _ => .ok [⟨"a-1.stmov", false, versionedFile 1 0⟩,
                ⟨"a-2.stmov", false, versionedFile 2 5⟩])
              newParser ⟨"track.zip", [80, 75]⟩).1 u.stmovData.version)
        | .single _ => []) =
        some [(0, "a-1.stmov", ⟨1, 0⟩, ⟨2, 5⟩), (1, "a-2.stmov", ⟨2, 5⟩, ⟨2, 5⟩)]
      ∧ ((versionedFile 1 0).getD 6 0, (versionedFile 1 0).getD 7 0) = (1, 0)
      ∧ ((parseFileBody (fun n => (n : ℚ)) (fun _ => .error .zip) (reset (reset newParser))
            ⟨"a.stmov", versionedFile 1 0⟩).2.toOption.map fun result =>
          match result with
          | .single unit =>
            [(unit.fields.version,
              readVersion (parseFileBody (fun n => (n : ℚ)) (fun _ => .error .zip)
                (parseFileBody (fun n => (n : ℚ)) (fun _ => .error .zip)
                  (reset (reset newParser)) ⟨"a.stmov", versionedFile 1 0⟩).1
                ⟨"b.stmov", versionedFile 2 5⟩).1 unit.version)]
          | .track _ => []) =
          some [(⟨1, 0⟩, ⟨2, 5⟩)] := by
  refine ⟨?_, ?_, ?_⟩ <;> decide

end DispatchClaims

/-! ## Load requests -/

section LoadLemmas

variable {α : Type} [Field α]

theorem loadFilesTraced_fst {ε : Type} (cos sin : α → α)
    (parseFile : InputFile → Except ε (ParseResult α)) (v : Viewer α)
    (files : List InputFile) (frameDrawTime now : ℚ) :
    (loadFilesTraced cos sin parseFile v files frameDrawTime now).1 =
      loadFiles cos sin parseFile v files frameDrawTime now := by
  unfold loadFilesTraced loadFiles
  split_ifs
  · rfl
  · cases parseAll parseFile 0 files with
    | error e => rfl
    | ok unitArrays =>
      dsimp only
      split_ifs <;> rfl

end LoadLemmas

section ParseAllLemmas

variable {α : Type}

theorem parseAll_error {ε : Type} (parseFile : InputFile → Except ε (ParseResult α))
    (index : Nat) (files : List InputFile) (e : ε)
    (h : parseAll parseFile index files = .error e) :
    ∃ f ∈ files, parseFile f = .error e := by
  induction files generalizing index with
  | nil => simp [parseAll] at h
  | cons file rest ih =>
    unfold parseAll at h
    cases hf : parseFile file with
    | error e2 =>
      rw [hf] at h
      simp only [Except.error.injEq] at h
      exact ⟨file, List.mem_cons_self _ _, by rw [hf, h]⟩
    | ok result =>
      rw [hf] at h
      dsimp only at h
      cases hr : parseAll parseFile (index + 1) rest with
      | error e3 =>
        rw [hr] at h
        simp only [Except.error.injEq] at h
        obtain ⟨f, hmem, hfe⟩ := ih (index + 1) (by rw [hr, h])
        exact ⟨f, List.mem_cons_of_mem _ hmem, hfe⟩
      | ok arrays => rw [hr] at h; simp at h

theorem parseAll_ok_iff {ε : Type} (parseFile : InputFile → Except ε (ParseResult α))
    (index : Nat) (files : List InputFile) :
    (∃ arrays, parseAll parseFile index files = .ok arrays) ↔
      ∀ f ∈ files, ∃ result, parseFile f = .ok result := by
  induction files generalizing index with
  | nil => simp [parseAll]
  | cons file rest ih =>
    unfold parseAll
    cases hf : parseFile file with
    | error e2 =>
      simp only [List.mem_cons, forall_eq_or_imp, hf]
      simp
    | ok result =>
      simp only [List.mem_cons, forall_eq_or_imp, hf]
      rw [← ih (index + 1)]
      cases hr : parseAll parseFile (index + 1) rest with
      | error e3 => simp
      | ok arrays => simp

end ParseAllLemmas

section LoadClaims

variable {α : Type} [Field α]

set_option maxRecDepth 100000 in
/-- C24, counterexample: a load request of two archives with four unit files
each passes the check on the number of files, so both archives are handed to
the parser and all eight unit files are parsed; only then is the error for
more than 6 units reported.  The eight units are left in `this.units`, not
processed, and no frame is displayed. -/
theorem loadFiles_parses_before_unit_check :
    (loadFilesTraced (fun x : ℚ => x) (fun x : ℚ => x)
        (parseFileNew (fun n => (n : ℚ)) (fun _ => .ok fourUnitArchive)) (newViewer 1)
        [⟨"one.zip", [80, 75]⟩, ⟨"two.zip", [80, 75]⟩] 5 100).2.parsed.map (fun f => f.name)
      = ["one.zip", "two.zip"]
      ∧ (loadFilesTraced (fun x : ℚ => x) (fun x : ℚ => x)
        (parseFileNew (fun n => (n : ℚ)) (fun _ => .ok fourUnitArchive)) (newViewer 1)
        [⟨"one.zip", [80, 75]⟩, ⟨"two.zip", [80, 75]⟩] 5 100).2.reports = [.tooManyUnits]
      ∧ (loadFilesTraced (fun x : ℚ => x) (fun x : ℚ => x)
        (parseFileNew (fun n => (n : ℚ)) (fun _ => .ok fourUnitArchive)) (newViewer 1)
        [⟨"one.zip", [80, 75]⟩, ⟨"two.zip", [80, 75]⟩] 5 100).1.1.units.map
          (fun u => (u.fileName, u.frameCount))
        = [("t-1.stmov", none), ("t-2.stmov", none), ("t-3.stmov", none), ("t-4.stmov", none),
           ("t-1.stmov", none), ("t-2.stmov", none), ("t-3.stmov", none), ("t-4.stmov", none)]
      ∧ (loadFilesTraced (fun x : ℚ => x) (fun x : ℚ => x)
        (parseFileNew (fun n => (n : ℚ)) (fun _ => .ok fourUnitArchive)) (newViewer 1)
        [⟨"one.zip", [80, 75]⟩, ⟨"two.zip", [80, 75]⟩] 5 100).1.2.length = 0 := by
  refine ⟨?_, ?_, ?_, ?_⟩ <;> decide

/-- C24, amended: with more than 6 files `loadFiles` reports the capacity error
before any file is handed to the parser and leaves the viewer as it was.  With
at most 6 files every file is handed to the parser; when they all parse and
yield more than 6 units in total, the error for more than 6 units is reported
after the parsing, `this.units` holds all these units (not processed) and no
frame is displayed. -/
theorem loadFiles_capacity {ε : Type} (cos sin : α → α)
    (parseFile : InputFile → Except ε (ParseResult α)) (v : Viewer α)
    (files : List InputFile) (frameDrawTime now : ℚ) :
    (files.length > 6 →
        loadFilesTraced cos sin parseFile v files frameDrawTime now =
          ((v, []), { parsed := [], reports := [.tooManyFiles] }))
      ∧ (files.length ≤ 6 →
          (loadFilesTraced cos sin parseFile v files frameDrawTime now).2.parsed = files)
      ∧ (∀ unitArrays, files.length ≤ 6 → parseAll parseFile 0 files = .ok unitArrays →
          unitArrays.flatten.length > 6 →
          loadFilesTraced cos sin parseFile v files frameDrawTime now =
            (({ v with units := unitArrays.flatten }, []),
              { parsed := files, reports := [.tooManyUnits] })) := by
  refine ⟨?_, ?_, ?_⟩
  · intro h
    unfold loadFilesTraced
    rw [if_pos h]
  · intro h
    unfold loadFilesTraced
    rw [if_neg (by omega)]
    cases parseAll parseFile 0 files with
    | error e => rfl
    | ok unitArrays =>
      dsimp only
      split_ifs <;> rfl
  · intro unitArrays h hparse hmany
    unfold loadFilesTraced
    rw [if_neg (by omega), hparse]
    dsimp only
    rw [if_pos hmany]

set_option maxRecDepth 100000 in
/-- C25, counterexample: a load request of a valid unit file and a file with an
invalid signature loads nothing: both files are handed to the parser, one
error is reported for the whole request, `this.units` is empty and no frame is
displayed; the valid file alone is loaded as one unit and displayed. -/
theorem loadFiles_one_failure_blocks_all :
    (loadFilesTraced (fun x : ℚ => x) (fun x : ℚ => x)
        (parseFileNew (fun n => (n : ℚ)) (fun _ => .error .zip)) (newViewer 1)
        [oneFrameFile "good.stmov" [100, 4], ⟨"bad.stmov", List.replicate 108 65⟩] 5 100
        ).2.parsed.map (fun f => f.name) = ["good.stmov", "bad.stmov"]
      ∧ (loadFilesTraced (fun x : ℚ => x) (fun x : ℚ => x)
        (parseFileNew (fun n => (n : ℚ)) (fun _ => .error .zip)) (newViewer 1)
        [oneFrameFile "good.stmov" [100, 4], ⟨"bad.stmov", List.replicate 108 65⟩] 5 100
        ).2.reports = [.failed (.unit (.invalidSignature (List.replicate 6 65)))]
      ∧ (loadFilesTraced (fun x : ℚ => x) (fun x : ℚ => x)
        (parseFileNew (fun n => (n : ℚ)) (fun _ => .error .zip)) (newViewer 1)
        [oneFrameFile "good.stmov" [100, 4], ⟨"bad.stmov", List.replicate 108 65⟩] 5 100
        ).1.1.units.length = 0
      ∧ (loadFilesTraced (fun x : ℚ => x) (fun x : ℚ => x)
        (parseFileNew (fun n => (n : ℚ)) (fun _ => .error .zip)) (newViewer 1)
        [oneFrameFile "good.stmov" [100, 4], ⟨"bad.stmov", List.replicate 108 65⟩] 5 100
        ).1.2.length = 0
      ∧ (loadFilesTraced (fun x : ℚ => x) (fun x : ℚ => x)
        (parseFileNew (fun n => (n : ℚ)) (fun _ => .error .zip)) (newViewer 1)
        [oneFrameFile "good.stmov" [100, 4]] 5 100).1.1.units.map (fun u => u.fileName)
          = ["good.stmov"]
      ∧ (loadFilesTraced (fun x : ℚ => x) (fun x : ℚ => x)
        (parseFileNew (fun n => (n : ℚ)) (fun _ => .error .zip)) (newViewer 1)
        [oneFrameFile "good.stmov" [100, 4]] 5 100).1.2.length = 1 := by
  refine ⟨?_, ?_, ?_, ?_, ?_, ?_⟩ <;> decide

/-- C25, amended: a parse failure of one input fails the whole load request.
When at most 6 files are given and at least one of them does not parse, every
file is still handed to the parser, but no unit of the request is loaded:
`this.units` is left empty, the frame cache and the rest of the viewer are
unchanged, no frame is displayed, and exactly one error is reported, the
exception of a file that failed.  Units are loaded only when every file of
the request parses. -/
theorem loadFiles_all_or_nothing {ε : Type} (cos sin : α → α)
    (parseFile : InputFile → Except ε (ParseResult α)) (v : Viewer α)
    (files : List InputFile) (frameDrawTime now : ℚ)
    (hlen : files.length ≤ 6) (hfail : ∃ f ∈ files, ∃ e, parseFile f = .error e) :
    (∃ f ∈ files, ∃ e, parseFile f = .error e
        ∧ loadFilesTraced cos sin parseFile v files frameDrawTime now =
          (({ v with units := [] }, []), { parsed := files, reports := [.failed e] }))
      ∧ (loadFiles cos sin parseFile v files frameDrawTime now).1.units = []
      ∧ (loadFiles cos sin parseFile v files frameDrawTime now).1.cache = v.cache
      ∧ (loadFiles cos sin parseFile v files frameDrawTime now).2 = [] := by
  have herr : ∃ e, parseAll parseFile 0 files = .error e := by
    cases hp : parseAll parseFile 0 files with
    | error e => exact ⟨e, rfl⟩
    | ok arrays =>
      obtain ⟨f, hf, e, he⟩ := hfail
      obtain ⟨result, hres⟩ := (parseAll_ok_iff parseFile 0 files).mp ⟨arrays, hp⟩ f hf
      rw [he] at hres
      cases hres
  obtain ⟨e, he⟩ := herr
  obtain ⟨f, hf, hfe⟩ := parseAll_error parseFile 0 files e he
  have htraced : loadFilesTraced cos sin parseFile v files frameDrawTime now =
      (({ v with units := [] }, []), { parsed := files, reports := [.failed e] }) := by
    unfold loadFilesTraced
    rw [if_neg (by omega), he]
  have hfst := loadFilesTraced_fst cos sin parseFile v files frameDrawTime now
  rw [htraced] at hfst
  refine ⟨⟨f, hf, e, hfe, htraced⟩, ?_, ?_, ?_⟩
  · rw [← hfst]
  · rw [← hfst]
  · rw [← hfst]

theorem loadFiles_all_or_nothing_witness :
    ([oneFrameFile "good.stmov" [100, 4], ⟨"bad.stmov", List.replicate 108 65⟩] :
        List InputFile).length ≤ 6
      ∧ (loadFiles (fun x : ℚ => x) (fun x : ℚ => x)
          (parseFileNew (fun n => (n : ℚ)) (fun _ => .error .zip)) (newViewer 1)
          [oneFrameFile "good.stmov" [100, 4], ⟨"bad.stmov", List.replicate 108 65⟩] 5 100
          ).1.units = [] :=
  ⟨by decide,
    (loadFiles_all_or_nothing (fun x : ℚ => x) (fun x : ℚ => x)
      (parseFileNew (fun n => (n : ℚ)) (fun _ => .error .zip)) (newViewer 1)
      [oneFrameFile "good.stmov" [100, 4], ⟨"bad.stmov", List.replicate 108 65⟩] 5 100
      (by decide)
      ⟨⟨"bad.stmov", List.replicate 108 65⟩, by simp,
        .unit (.invalidSignature (List.replicate 6 65)), by rfl⟩).2.1⟩

end LoadClaims


/-! ## Frame decompressor: raster bounds and point counts -/

section SampleBounds

theorem runSamples_bounds (depth : Nat) (isLeft : Bool) (j count : Nat) :
    ∀ s ∈ runSamples depth isLeft j count,
      count < s.counter ∧ s.counter ≤ 640 * 480 ∧ s.counter ≤ count + j := by
  induction j generalizing count with
  | zero => simp [runSamples]
  | succ j ih =>
    unfold runSamples
    split
    · simp
    · intro s hs
      rcases List.mem_cons.mp hs with h | h
      · rw [h]
        dsimp only
        omega
      · have := ih (count + 1) s h
        omega

theorem runSamples_pairwise (depth : Nat) (isLeft : Bool) (j count : Nat) :
    (runSamples depth isLeft j count).Pairwise fun a b => a.counter < b.counter := by
  induction j generalizing count with
  | zero => simp [runSamples]
  | succ j ih =>
    unfold runSamples
    split
    · exact List.Pairwise.nil
    · refine List.Pairwise.cons ?_ (ih (count + 1))
      intro b hb
      have := runSamples_bounds depth isLeft j (count + 1) b hb
      dsimp only
      omega

theorem chunkSamples_bounds (first second count : Nat) (isLeft : Bool) :
    ∀ s ∈ chunkSamples first second count isLeft,
      count < s.counter ∧ s.counter ≤ 640 * 480
        ∧ s.counter ≤ chunkCount first second count := by
  unfold chunkSamples chunkCount
  split
  · intro s hs
    have := runSamples_bounds _ _ _ _ s hs
    omega
  · simp

theorem chunkSamples_pairwise (first second count : Nat) (isLeft : Bool) :
    (chunkSamples first second count isLeft).Pairwise fun a b => a.counter < b.counter := by
  unfold chunkSamples
  split
  · exact runSamples_pairwise _ _ _ _
  · exact List.Pairwise.nil

theorem chunkCount_ge (first second count : Nat) : count ≤ chunkCount first second count := by
  unfold chunkCount
  split <;> omega

/-- Every in-range sample of a payload has a counter in `1..640*480`; samples
on the starting screen have counters above the starting counter; and within a
screen the counters increase strictly along the stream. -/
theorem samplesFrom_bounds (payload : List Nat) (count : Nat) (isLeft : Bool) :
    (∀ s ∈ samplesFrom payload count isLeft,
        1 ≤ s.counter ∧ s.counter ≤ 640 * 480 ∧ (s.isLeft = isLeft → count < s.counter))
      ∧ (samplesFrom payload count isLeft).Pairwise
          (fun a b => a.isLeft = b.isLeft → a.counter < b.counter) := by
  generalize hlen : payload.length = m
  induction m using Nat.strong_induction_on generalizing payload count isLeft with
  | _ m ih =>
    match payload, hlen with
    | [], _ => simp [samplesFrom]
    | [_], _ => simp [samplesFrom]
    | first :: second :: rest, hlen =>
      have ih2 := fun c fl => ih rest.length (by simp at hlen; omega) rest c fl rfl
      have hhere := chunkSamples_bounds first second count isLeft
      have hflag := chunkSamples_isLeft first second count isLeft
      have hpw : (chunkSamples first second count isLeft).Pairwise
          (fun a b => a.isLeft = b.isLeft → a.counter < b.counter) := by
        refine List.Pairwise.imp ?_ (chunkSamples_pairwise first second count isLeft)
        intro a b h _
        exact h
      have hge := chunkCount_ge first second count
      rw [samplesFrom]
      by_cases hc : chunkCount first second count ≥ 640 * 480
      · rw [if_pos hc]
        cases isLeft with
        | false =>
          simp only [Bool.false_eq_true, if_false]
          refine ⟨?_, hpw⟩
          intro s hs
          have := hhere s hs
          exact ⟨by omega, this.2.1, fun _ => this.1⟩
        | true =>
          simp only [if_true]
          have hright := samplesFrom_right rest 0
          refine ⟨?_, ?_⟩
          · intro s hs
            rcases List.mem_append.mp hs with h | h
            · have := hhere s h
              exact ⟨by omega, this.2.1, fun _ => this.1⟩
            · have := (ih2 0 false).1 s h
              refine ⟨this.1, this.2.1, fun hl => ?_⟩
              rw [hright s h] at hl
              cases hl
          · rw [List.pairwise_append]
            refine ⟨hpw, (ih2 0 false).2, ?_⟩
            intro a ha b hb hab
            rw [hflag a ha, hright b hb] at hab
            cases hab
      · rw [if_neg hc]
        refine ⟨?_, ?_⟩
        · intro s hs
          rcases List.mem_append.mp hs with h | h
          · have := hhere s h
            exact ⟨by omega, this.2.1, fun _ => this.1⟩
          · have := (ih2 (chunkCount first second count) isLeft).1 s h
            exact ⟨this.1, this.2.1, fun hl => by have := this.2.2 hl; omega⟩
        · rw [List.pairwise_append]
          refine ⟨hpw, (ih2 _ isLeft).2, ?_⟩
          intro a ha b hb hab
          have h1 := hhere a ha
          have h2 := (ih2 (chunkCount first second count) isLeft).1 b hb
          have h3 := h2.2.2 (by rw [← hab, hflag a ha])
          omega

theorem increasing_length (l : List Nat) (lo K : Nat) (hp : l.Pairwise (fun a b => a < b))
    (hb : ∀ c ∈ l, lo ≤ c ∧ c ≤ K) : l.length ≤ K + 1 - lo := by
  induction l generalizing lo with
  | nil => simp
  | cons a t ih =>
    have ha := hb a (List.mem_cons_self _ _)
    have ht : ∀ c ∈ t, a + 1 ≤ c ∧ c ≤ K := by
      intro c hc
      have h1 := List.rel_of_pairwise_cons hp hc
      have h2 := hb c (List.mem_cons_of_mem _ hc)
      omega
    have := ih (a + 1) (List.Pairwise.of_cons hp) ht
    simp only [List.length_cons]
    omega

/-- A strictly increasing list of multiples of `n` in `1..M` has at most
`floor(M / n)` elements. -/
theorem count_multiples (l : List Nat) (n M : Nat) (hp : l.Pairwise (fun a b => a < b))
    (hb : ∀ c ∈ l, 1 ≤ c ∧ c ≤ M ∧ c % n = 0) : l.length ≤ M / n := by
  by_cases hn : n = 0
  · subst hn
    cases l with
    | nil => simp
    | cons a t =>
      have := hb a (List.mem_cons_self _ _)
      simp only [Nat.mod_zero] at this
      omega
  · have hpos : 0 < n := Nat.pos_of_ne_zero hn
    have hmap : (l.map fun c => c / n).Pairwise (fun a b => a < b) := by
      rw [List.pairwise_map]
      refine hp.imp_of_mem ?_
      intro a b ha hb2 hab
      have h1 := (hb a ha).2.2
      have h2 := (hb b hb2).2.2
      have e1 : n * (a / n) = a := Nat.mul_div_cancel' (Nat.dvd_of_mod_eq_zero h1)
      have e2 : n * (b / n) = b := Nat.mul_div_cancel' (Nat.dvd_of_mod_eq_zero h2)
      apply Nat.lt_of_mul_lt_mul_left (a := n)
      rw [e1, e2]
      exact hab
    have hbound : ∀ q ∈ l.map (fun c => c / n), 1 ≤ q ∧ q ≤ M / n := by
      intro q hq
      obtain ⟨c, hc, rfl⟩ := List.mem_map.mp hq
      have h := hb c hc
      have hle : n ≤ c := Nat.le_of_dvd (by omega) (Nat.dvd_of_mod_eq_zero h.2.2)
      exact ⟨Nat.div_pos hle hpos, Nat.div_le_div_right h.2.1⟩
    have := increasing_length _ 1 (M / n) hmap hbound
    rw [List.length_map] at this
    simpa using this

/-- The kept samples of one screen number at most `floor(307200 / n)`. -/
theorem keptSamples_screen_length (n : Nat) (payload : List Nat) (flag : Bool) :
    ((keptSamples n payload).filter fun s => s.isLeft == flag).length ≤ 640 * 480 / n := by
  have hb := samplesFrom_bounds payload 0 true
  have hlen : ((keptSamples n payload).filter fun s => s.isLeft == flag).length =
      (((keptSamples n payload).filter fun s => s.isLeft == flag).map
        fun s => s.counter).length := by
    rw [List.length_map]
  rw [hlen]
  apply count_multiples
  · rw [List.pairwise_map]
    unfold keptSamples samples
    have h1 := (hb.2.filter (fun s => decide (s.counter % n = 0))).filter
      (fun s => s.isLeft == flag)
    refine h1.imp_of_mem ?_
    intro a b ha hb2 hab
    have e1 := (List.mem_filter.mp ha).2
    have e2 := (List.mem_filter.mp hb2).2
    simp only [beq_iff_eq] at e1 e2
    exact hab (by rw [e1, e2])
  · intro c hc
    obtain ⟨s, hs, rfl⟩ := List.mem_map.mp hc
    have hs1 := (List.mem_filter.mp hs).1
    unfold keptSamples samples at hs1
    have hs2 := List.mem_filter.mp hs1
    have h := hb.1 s hs2.1
    have hmod := hs2.2
    simp only [decide_eq_true_eq] at hmod
    exact ⟨h.1, h.2.1, hmod⟩

theorem keptSamples_length (n : Nat) (payload : List Nat) :
    (keptSamples n payload).length ≤ 2 * (640 * 480 / n) := by
  have h1 := keptSamples_screen_length n payload true
  have h2 := keptSamples_screen_length n payload false
  have hsplit : (keptSamples n payload).length =
      ((keptSamples n payload).filter fun s => s.isLeft == true).length
        + ((keptSamples n payload).filter fun s => s.isLeft == false).length := by
    induction keptSamples n payload with
    | nil => rfl
    | cons a t ih =>
      cases h : a.isLeft <;> simp [List.filter_cons, h] at ih ⊢ <;> omega
  omega

end SampleBounds

section RasterLemmas

variable {α : Type} [Field α]

/-- After an iteration of the outer loop that does not leave it, the pixel
counter is below `640 * 480`. -/
theorem chunkBody_count_lt (cos sin : α → α) (n : Nat) (l r : Option (Camera α))
    (first second : Nat) (st : DecodeState α)
    (h : (chunkBody cos sin n l r first second st).2 = false) :
    (chunkBody cos sin n l r first second st).1.count < 640 * 480 := by
  unfold chunkBody at h ⊢
  dsimp only at h ⊢
  cases hl : st.isLeftScreen <;> simp only [hl] at h ⊢ <;> split_ifs at h ⊢ <;> simp_all

theorem stateAfter_count_lt (payload : List Nat) (count : Nat) (isLeft : Bool)
    (hcount : count < 640 * 480) (c : Nat) (fl : Bool)
    (h : stateAfter payload count isLeft = some (c, fl)) : c < 640 * 480 := by
  generalize hlen : payload.length = m
  induction m using Nat.strong_induction_on generalizing payload count isLeft with
  | _ m ih =>
    match payload, hlen with
    | [], _ =>
      simp only [stateAfter, Option.some.injEq, Prod.mk.injEq] at h
      omega
    | [_], _ =>
      simp only [stateAfter, Option.some.injEq, Prod.mk.injEq] at h
      omega
    | first :: second :: rest, hlen =>
      have ih2 := fun c2 fl2 hc2 h2 =>
        ih rest.length (by simp at hlen; omega) rest c2 fl2 hc2 h2 rfl
      rw [stateAfter] at h
      split_ifs at h with h1 h2
      · exact ih2 0 false (by omega) h
      · exact ih2 _ isLeft (by omega) h

end RasterLemmas

section NumericClaims

variable {α : Type} [Field α]

/-- C34: for a chunk with first byte `b0 ≤ 255` and 10-bit value
`v = b0 + 256 * (b1 mod 4)`, the decoded depth is `floor(v * 2502 / 256)`, it
lies in `0..9998`, and it passes the clip test `0 < depth < 8000` exactly when
`1 ≤ v ≤ 818`; accordingly the chunk contributes samples (at a counter below
`640 * 480`) exactly when `1 ≤ v ≤ 818`, and otherwise `decompressFrame` only
advances the counter by the run length. -/
theorem clip_test_ten_bit_value (b0 b1 : Nat) (h0 : b0 ≤ 255) :
    chunkDepth b0 b1 = (b0 + 256 * (b1 % 4)) * 2502 / 256
      ∧ chunkDepth b0 b1 ≤ 9998
      ∧ ((0 < chunkDepth b0 b1 ∧ chunkDepth b0 b1 < 8000) ↔
          (1 ≤ b0 + 256 * (b1 % 4) ∧ b0 + 256 * (b1 % 4) ≤ 818))
      ∧ (∀ (count : Nat) (isLeft : Bool), count < 640 * 480 →
          (chunkSamples b0 b1 count isLeft ≠ [] ↔
            (1 ≤ b0 + 256 * (b1 % 4) ∧ b0 + 256 * (b1 % 4) ≤ 818)))
      ∧ (∀ (cos sin : α → α) (n : Nat) (l r : Option (Camera α)) (st : DecodeState α),
          ¬ (1 ≤ b0 + 256 * (b1 % 4) ∧ b0 + 256 * (b1 % 4) ≤ 818) →
            chunkRun cos sin n l r b0 b1 st = (st.count + runLength b1, st.points, false)) := by
  have hd := (chunkDepth_eq b0 b1 h0).2
  have hiff : (0 < chunkDepth b0 b1 ∧ chunkDepth b0 b1 < 8000) ↔
      (1 ≤ b0 + 256 * (b1 % 4) ∧ b0 + 256 * (b1 % 4) ≤ 818) := by
    rw [hd]
    constructor
    · intro h
      constructor <;> omega
    · intro h
      constructor <;> omega
  refine ⟨hd, by rw [hd]; omega, hiff, ?_, ?_⟩
  · intro count isLeft hcount
    rw [← hiff]
    unfold chunkSamples
    by_cases hr : 0 < chunkDepth b0 b1 ∧ chunkDepth b0 b1 < 8000
    · rw [if_pos hr]
      have hrl : runLength b1 = (b1 >>> 2) + 1 := rfl
      rw [hrl, runSamples, if_neg (by omega)]
      simp [hr]
    · rw [if_neg hr]
      simp [hr]
  · intro cos sin n l r st hv
    have hr : ¬ (chunkDepth b0 b1 > 0 ∧ chunkDepth b0 b1 < 8000) := fun h => hv (hiff.mp h)
    unfold chunkRun
    simp only [if_neg hr]

theorem clip_test_ten_bit_value_witness :
    chunkDepth 50 3 = 7994 ∧ chunkDepth 51 3 = 8004
      ∧ ((0 < chunkDepth 50 3 ∧ chunkDepth 50 3 < 8000) ↔
          (1 ≤ 50 + 256 * (3 % 4) ∧ 50 + 256 * (3 % 4) ≤ 818)) :=
  ⟨by decide, by decide,
    (@clip_test_ten_bit_value ℚ _ 50 3 (by decide)).2.2.1⟩

/-- C35: for every payload and every parse-time stride `n`, the samples kept
on one screen have strictly increasing counters in `1..307200` (no counter
value is visited twice on a screen), so at most `2 * floor(307200 / n)` samples
are kept and `decompressFrame` returns the three coordinates of at most that
many points; at the stride 4 set by the constructor this bound is 153600,
below the per-frame cap, and the returned array holds the points of all kept
samples (the cap does not truncate it). -/
theorem decompressFrame_point_bound (cos sin : α → α) (n : Nat) (payload : List Nat)
    (l r : Option (Camera α)) :
    (samples payload).Pairwise (fun a b => a.isLeft = b.isLeft → a.counter < b.counter)
      ∧ (keptSamples n payload).length ≤ 2 * (307200 / n)
      ∧ (∃ k : Nat, k ≤ 2 * (307200 / n)
          ∧ (decompressFrame cos sin n payload l r).length = 3 * k)
      ∧ defaultParseSubsample = 4
      ∧ (keptSamples defaultParseSubsample payload).length ≤ 153600
      ∧ decompressFrame cos sin defaultParseSubsample payload l r =
          flatten3 ((keptSamples defaultParseSubsample payload).map (samplePoint cos sin l r))
      ∧ (∃ k : Nat, k ≤ 153600
          ∧ (decompressFrame cos sin defaultParseSubsample payload l r).length = 3 * k) := by
  have hk : ∀ m : Nat, (keptSamples m payload).length ≤ 2 * (307200 / m) :=
    fun m => keptSamples_length m payload
  have h4 : (keptSamples defaultParseSubsample payload).length ≤ 153600 := by
    have := hk defaultParseSubsample
    unfold defaultParseSubsample at this ⊢
    omega
  have htake : ((keptSamples defaultParseSubsample payload).map
      (samplePoint cos sin l r)).take 166667 =
      (keptSamples defaultParseSubsample payload).map (samplePoint cos sin l r) := by
    apply List.take_of_length_le
    rw [List.length_map]
    omega
  refine ⟨(samplesFrom_bounds payload 0 true).2, hk n, ?_, rfl, h4, ?_, ?_⟩
  · refine ⟨(((keptSamples n payload).map (samplePoint cos sin l r)).take 166667).length, ?_, ?_⟩
    · rw [List.length_take, List.length_map]
      have := hk n
      omega
    · rw [decompressFrame_eq, flatten3_length]
  · rw [decompressFrame_eq, htake]
  · refine ⟨(keptSamples defaultParseSubsample payload).length, h4, ?_⟩
    rw [decompressFrame_eq, htake, flatten3_length, List.length_map]

/-- C36: for every payload, the loop of `decompressFrame` starts with the pixel
counter 0 and every iteration that does not leave the loop ends with the
counter below `640 * 480` (so each chunk starts with the counter below
`640 * 480`, also after a clipped run that overshoots the end of a screen);
every sample has a counter `c` with `1 ≤ c ≤ 307200`, hence pixel column
`(c - 1) mod 640 ≤ 639` and pixel row `floor((c - 1) / 640) ≤ 479`; and the
returned array consists of the transforms of such samples. -/
theorem samples_inside_raster (cos sin : α → α) (n : Nat) (payload : List Nat)
    (l r : Option (Camera α)) :
    (∀ (first second : Nat) (st : DecodeState α),
        (chunkBody cos sin n l r first second st).2 = false →
          (chunkBody cos sin n l r first second st).1.count < 640 * 480)
      ∧ (∀ (pre : List Nat) (c : Nat) (fl : Bool),
          stateAfter pre 0 true = some (c, fl) → c < 640 * 480)
      ∧ (∀ s ∈ samples payload,
          1 ≤ s.counter ∧ s.counter ≤ 307200 ∧ s.pixelX ≤ 639 ∧ s.pixelY ≤ 479)
      ∧ (∀ s ∈ keptSamples n payload,
          1 ≤ s.counter ∧ s.counter ≤ 307200 ∧ s.pixelX ≤ 639 ∧ s.pixelY ≤ 479)
      ∧ decompressFrame cos sin n payload l r =
          flatten3 (((keptSamples n payload).map fun s =>
            transformSTClientCompliant cos sin s.pixelX s.pixelY s.depth s.isLeft l r).take
              166667) := by
  have hs : ∀ s ∈ samples payload,
      1 ≤ s.counter ∧ s.counter ≤ 307200 ∧ s.pixelX ≤ 639 ∧ s.pixelY ≤ 479 := by
    intro s hs
    have h := (samplesFrom_bounds payload 0 true).1 s hs
    unfold Sample.pixelX Sample.pixelY
    refine ⟨h.1, h.2.1, ?_, ?_⟩ <;> omega
  refine ⟨fun first second st h => chunkBody_count_lt cos sin n l r first second st h,
    fun pre c fl h => stateAfter_count_lt pre 0 true (by decide) c fl h, hs, ?_, ?_⟩
  · intro s hk
    unfold keptSamples at hk
    exact hs s (List.mem_filter.mp hk).1
  · rw [decompressFrame_eq]
    rfl

end NumericClaims


/-! ## Calibrations without rotation -/

section ZeroRotation

variable {α : Type} [Field α]

theorem multiplyMatricesRowMajor_entries (a b : List α) :
    multiplyMatricesRowMajor a b =
      (List.range 4).flatMap fun i => (List.range 4).map fun j =>
        0 + a.getD (i * 4 + 0) 0 * b.getD (0 * 4 + j) 0
          + a.getD (i * 4 + 1) 0 * b.getD (1 * 4 + j) 0
          + a.getD (i * 4 + 2) 0 * b.getD (2 * 4 + j) 0
          + a.getD (i * 4 + 3) 0 * b.getD (3 * 4 + j) 0 := rfl

/-- The bottom row of the camera matrix is `0, 0, 0, 1` for every
calibration. -/
theorem createST_ClientCameraMatrix_bottom (cos sin : α → α) (camera : Camera α) :
    (createST_ClientCameraMatrix cos sin camera).drop 12 = [0, 0, 0, 1] := by
  simp [createST_ClientCameraMatrix, multiplyMatricesRowMajor_entries, List.range_succ,
    List.flatMap]

/-- The camera matrix of a calibration without rotation. -/
theorem createST_ClientCameraMatrix_zero_rotation (cos sin : α → α) (hcos : cos 0 = 1)
    (hsin : sin 0 = 0) (camera : Camera α)
    (hrot : camera.rotation = { x := 0, y := 0, z := 0 }) :
    createST_ClientCameraMatrix cos sin camera =
      [camera.scale.x, 0, 0, camera.position.x,
       0, camera.scale.y, 0, camera.position.y,
       0, 0, camera.scale.z, camera.position.z,
       0, 0, 0, 1] := by
  simp [createST_ClientCameraMatrix, multiplyMatricesRowMajor_entries, List.range_succ,
    List.flatMap, hrot, hcos, hsin]

end ZeroRotation

section ZeroRotationClaim

variable {α : Type} [Field α]

/-- C39: for calibrations with zero rotation (and `cos 0 = 1`, `sin 0 = 0`),
the matrix built for the camera of the screen is
`[sx, 0, 0, px; 0, sy, 0, py; 0, 0, sz, pz; 0, 0, 0, 1]`, its product with the
projected point `(p, 1)` has fourth component 1, and
`transformSTClientCompliant` returns `position + scale * p` componentwise for
every pixel and depth; the bottom row is `0, 0, 0, 1` for every calibration;
and with unit scale and zero position as well, the result is the point that the
transform without calibration (`transformCorrectedSimple`) returns. -/
theorem zero_rotation_transform (cos sin : α → α) (hcos : cos 0 = 1) (hsin : sin 0 = 0)
    (l r : Camera α) (hl : l.rotation = { x := 0, y := 0, z := 0 })
    (hr : r.rotation = { x := 0, y := 0, z := 0 }) (x y d : Nat) (flag : Bool) :
    createST_ClientCameraMatrix cos sin (if flag then l else r) =
        [(if flag then l else r).scale.x, 0, 0, (if flag then l else r).position.x,
         0, (if flag then l else r).scale.y, 0, (if flag then l else r).position.y,
         0, 0, (if flag then l else r).scale.z, (if flag then l else r).position.z,
         0, 0, 0, 1]
      ∧ (∀ camera : Camera α,
          (createST_ClientCameraMatrix cos sin camera).drop 12 = [0, 0, 0, 1])
      ∧ (multiplyMatrix4x4 (createST_ClientCameraMatrix cos sin (if flag then l else r))
          { x := (projectedPoint x y d : Vec3 α).x, y := (projectedPoint x y d : Vec3 α).y,
            z := (projectedPoint x y d : Vec3 α).z, w := 1 }).w = 1
      ∧ transformSTClientCompliant cos sin x y d flag (some l) (some r) =
          { x := (if flag then l else r).position.x
              + (if flag then l else r).scale.x * (projectedPoint x y d : Vec3 α).x
            y := (if flag then l else r).position.y
              + (if flag then l else r).scale.y * (projectedPoint x y d : Vec3 α).y
            z := (if flag then l else r).position.z
              + (if flag then l else r).scale.z * (projectedPoint x y d : Vec3 α).z }
      ∧ ((if flag then l else r).scale = { x := 1, y := 1, z := 1 } →
          (if flag then l else r).position = { x := 0, y := 0, z := 0 } →
            transformSTClientCompliant cos sin x y d flag (some l) (some r) =
                transformCorrectedSimple x y d 640 480 8000 flag
              ∧ transformSTClientCompliant cos sin x y d flag (some l) (some r) =
                transformSTClientCompliant cos sin x y d flag none none) := by
  have hcam : (if flag then l else r).rotation = { x := 0, y := 0, z := 0 } := by
    cases flag
    · exact hr
    · exact hl
  have hT : transformSTClientCompliant cos sin x y d flag (some l) (some r) =
      { x := (multiplyMatrix4x4 (createST_ClientCameraMatrix cos sin (if flag then l else r))
              { x := (projectedPoint x y d : Vec3 α).x, y := (projectedPoint x y d : Vec3 α).y,
                z := (projectedPoint x y d : Vec3 α).z, w := 1 }).x
        y := (multiplyMatrix4x4 (createST_ClientCameraMatrix cos sin (if flag then l else r))
              { x := (projectedPoint x y d : Vec3 α).x, y := (projectedPoint x y d : Vec3 α).y,
                z := (projectedPoint x y d : Vec3 α).z, w := 1 }).y
        z := (multiplyMatrix4x4 (createST_ClientCameraMatrix cos sin (if flag then l else r))
              { x := (projectedPoint x y d : Vec3 α).x, y := (projectedPoint x y d : Vec3 α).y,
                z := (projectedPoint x y d : Vec3 α).z, w := 1 }).z } := rfl
  have hS : (transformCorrectedSimple x y d 640 480 8000 flag : Vec3 α) =
      { x := (projectedPoint x y d : Vec3 α).x, y := (projectedPoint x y d : Vec3 α).y,
        z := (projectedPoint x y d : Vec3 α).z } := rfl
  have hN : transformSTClientCompliant cos sin x y d flag none none =
      transformCorrectedSimple x y d 640 480 8000 flag := rfl
  rw [hT, hN, hS]
  generalize (if flag then l else r) = cam at hcam ⊢
  have hM := createST_ClientCameraMatrix_zero_rotation cos sin hcos hsin cam hcam
  have hpoint : (Vec3.mk
      (multiplyMatrix4x4 (createST_ClientCameraMatrix cos sin cam)
        ⟨(projectedPoint x y d : Vec3 α).x, (projectedPoint x y d : Vec3 α).y,
          (projectedPoint x y d : Vec3 α).z, 1⟩).x
      (multiplyMatrix4x4 (createST_ClientCameraMatrix cos sin cam)
        ⟨(projectedPoint x y d : Vec3 α).x, (projectedPoint x y d : Vec3 α).y,
          (projectedPoint x y d : Vec3 α).z, 1⟩).y
      (multiplyMatrix4x4 (createST_ClientCameraMatrix cos sin cam)
        ⟨(projectedPoint x y d : Vec3 α).x, (projectedPoint x y d : Vec3 α).y,
          (projectedPoint x y d : Vec3 α).z, 1⟩).z : Vec3 α) =
      Vec3.mk (cam.position.x + cam.scale.x * (projectedPoint x y d : Vec3 α).x)
        (cam.position.y + cam.scale.y * (projectedPoint x y d : Vec3 α).y)
        (cam.position.z + cam.scale.z * (projectedPoint x y d : Vec3 α).z) := by
    rw [hM]
    simp only [multiplyMatrix4x4]
    congr 1 <;> simp <;> ring
  refine ⟨hM, fun camera => createST_ClientCameraMatrix_bottom cos sin camera, ?_, hpoint, ?_⟩
  · rw [hM]
    simp [multiplyMatrix4x4]
  · intro hscale hpos
    rw [hpoint, hscale, hpos]
    simp

theorem zero_rotation_transform_witness :
    transformSTClientCompliant (fun _ => (1 : ℚ)) (fun _ => 0) 0 0 1000 true
        (some { position := { x := 1, y := 2, z := 3 }, rotation := { x := 0, y := 0, z := 0 },
                scale := { x := 2, y := 2, z := 2 } })
        (some { position := { x := 0, y := 0, z := 0 }, rotation := { x := 0, y := 0, z := 0 },
                scale := { x := 1, y := 1, z := 1 } }) =
      { x := 1 + 2 * (projectedPoint 0 0 1000 : Vec3 ℚ).x
        y := 2 + 2 * (projectedPoint 0 0 1000 : Vec3 ℚ).y
        z := 3 + 2 * (projectedPoint 0 0 1000 : Vec3 ℚ).z } :=
  (zero_rotation_transform (fun _ => (1 : ℚ)) (fun _ => 0) rfl rfl
    { position := { x := 1, y := 2, z := 3 }, rotation := { x := 0, y := 0, z := 0 },
      scale := { x := 2, y := 2, z := 2 } }
    { position := { x := 0, y := 0, z := 0 }, rotation := { x := 0, y := 0, z := 0 },
      scale := { x := 1, y := 1, z := 1 } } rfl rfl 0 0 1000 true).2.2.2.1

end ZeroRotationClaim

/-! ## The compression tag; the signature tests of the two parsers -/

section TagLemmas

theorem dropWhile_isWhiteSpace_zeros (k : Nat) (rest : List Nat) :
    (List.replicate (k + 1) 0 ++ rest).dropWhile isWhiteSpace
      = List.replicate (k + 1) 0 ++ rest := by
  rw [List.replicate_succ, List.cons_append, List.dropWhile_cons_of_neg (by decide)]

/-- A text without NUL bytes that does not begin with white space, followed by
NUL padding (or by nothing, when it does not end with white space either), is
returned unchanged and without the padding by `trim().replace(...)`. -/
theorem trimAndDropNul_padded (text : List Nat) (k : Nat) (hnul : ∀ b ∈ text, b ≠ 0)
    (hfirst : ∀ b, text.head? = some b → isWhiteSpace b = false)
    (hlast : k = 0 → ∀ b, text.getLast? = some b → isWhiteSpace b = false) :
    trimAndDropNul (text ++ List.replicate k 0) = text := by
  have hfilter : (text ++ List.replicate k 0).filter (fun b => b ≠ 0) = text := by
    rw [List.filter_append, filter_eq_self_of_forall _ _ (by simpa using hnul),
      filter_eq_nil_of_forall _ _ (by simp)]
    simp
  have hfront : (text ++ List.replicate k 0).dropWhile isWhiteSpace
      = text ++ List.replicate k 0 := by
    cases text with
    | nil =>
      cases k with
      | zero => rfl
      | succ k =>
        have := dropWhile_isWhiteSpace_zeros k []
        simpa using this
    | cons a t =>
      have ha := hfirst a rfl
      rw [List.cons_append, List.dropWhile_cons_of_neg (by simp [ha])]
  have hback : ((text ++ List.replicate k 0).reverse).dropWhile isWhiteSpace
      = (text ++ List.replicate k 0).reverse := by
    rw [List.reverse_append, List.reverse_replicate]
    cases k with
    | succ k => exact dropWhile_isWhiteSpace_zeros k _
    | zero =>
      rw [List.replicate_zero, List.nil_append]
      cases hrev : text.reverse with
      | nil => rfl
      | cons a t =>
        have hl : text.getLast? = some a := by
          rw [List.getLast?_eq_head?_reverse, hrev]
          rfl
        have ha := hlast rfl a hl
        rw [List.dropWhile_cons_of_neg (by simp [ha])]
  unfold trimAndDropNul
  rw [hfront, hback, List.reverse_reverse, hfilter]

end TagLemmas

section TagClaims

variable {α : Type}

/-- The browser parser and the signature: on a buffer of at least 108 bytes
`parseUnitFile` raises the invalid-signature error exactly when the buffer
starts with neither `STMOV` nor `STMV`. -/
theorem parseUnitFile_signature_error_iff (decodeFloat32 : Nat → α) (buffer : List Nat)
    (h108 : 108 ≤ buffer.length) :
    (∃ sig, parseUnitFile decodeFloat32 buffer = .error (.invalidSignature sig)) ↔
      ¬ validSignature buffer := by
  have h1 : startsWith (buffer.take 6) "STMOV" = [83, 84, 77, 79, 86].isPrefixOf buffer :=
    isPrefixOf_take [83, 84, 77, 79, 86] buffer 6 (by decide)
  have h2 : startsWith (buffer.take 6) "STMV" = [83, 84, 77, 86].isPrefixOf buffer :=
    isPrefixOf_take [83, 84, 77, 86] buffer 6 (by decide)
  constructor
  · rintro ⟨sig, he⟩ hv
    rw [parseUnitFile_of_header decodeFloat32 buffer h108 hv] at he
    cases hloop : frameLoop buffer (declaredFrameCount buffer) 0 108 [] with
    | error e =>
      have := frameLoop_error buffer _ 0 108 [] e hloop
      rw [hloop, this] at he
      simp [Except.map] at he
    | ok fs => rw [hloop] at he; simp [Except.map] at he
  · intro hv
    have ha : startsWith (buffer.take 6) "STMOV" = false := by
      rw [h1]
      cases h : [83, 84, 77, 79, 86].isPrefixOf buffer
      · rfl
      · exact absurd (Or.inl h) hv
    have hb : startsWith (buffer.take 6) "STMV" = false := by
      rw [h2]
      cases h : [83, 84, 77, 86].isPrefixOf buffer
      · rfl
      · exact absurd (Or.inr h) hv
    have k6 : 0 + 6 ≤ buffer.length := by omega
    refine ⟨buffer.take 6, ?_⟩
    unfold parseUnitFile
    simp only [newUint8Array, if_pos k6, List.drop_zero, bind, Except.bind, ha, hb,
      Bool.not_false, Bool.and_self, if_true]

/-- On a buffer of at least 108 bytes the method `parseHeader` of the Node
parser returns, with the six signature bytes in `signature`. -/
theorem Node_parseHeader_signature (decodeFloat32 : Nat → α) (buffer : List Nat)
    (h108 : 108 ≤ buffer.length) :
    ∃ header, Node.parseHeader decodeFloat32 buffer = .ok header
      ∧ header.signature = buffer.take 6 := by
  have k6 : 6 ≤ buffer.length := by omega
  have k7 : 7 ≤ buffer.length := by omega
  have k8 : 8 ≤ buffer.length := by omega
  have k12 : 12 ≤ buffer.length := by omega
  have k16 : 16 ≤ buffer.length := by omega
  have k32 : 32 ≤ buffer.length := by omega
  have k36 : 36 ≤ buffer.length := by omega
  have k40 : 40 ≤ buffer.length := by omega
  have k44 : 44 ≤ buffer.length := by omega
  have k48 : 48 ≤ buffer.length := by omega
  have k52 : 52 ≤ buffer.length := by omega
  have k56 : 56 ≤ buffer.length := by omega
  have k60 : 60 ≤ buffer.length := by omega
  have k64 : 64 ≤ buffer.length := by omega
  have k68 : 68 ≤ buffer.length := by omega
  have k72 : 72 ≤ buffer.length := by omega
  have k76 : 76 ≤ buffer.length := by omega
  have k80 : 80 ≤ buffer.length := by omega
  have k84 : 84 ≤ buffer.length := by omega
  have k88 : 88 ≤ buffer.length := by omega
  have k92 : 92 ≤ buffer.length := by omega
  have k96 : 96 ≤ buffer.length := by omega
  have k100 : 100 ≤ buffer.length := by omega
  have k104 : 104 ≤ buffer.length := by omega
  have k108 : 108 ≤ buffer.length := by omega
  unfold Node.parseHeader
  simp only [Node.read, Node.parseCamera, newUint8Array, getUint8, getUint32, getFloat32,
    Except.mapError, bind, Except.bind, Except.map, pure, Except.pure, Nat.zero_add,
    Nat.reduceAdd, List.drop_zero, if_true, k6, k7, k8, k12, k16, k32, k36, k40, k44, k48,
    k52, k56, k60, k64, k68, k72, k76, k80, k84, k88, k92, k96, k100, k104, k108]
  exact ⟨_, rfl, rfl⟩

/-- The Node parser and the signature: on a buffer of at least 108 bytes
`parse` raises its signature error exactly when the six signature bytes are
not `STMV` followed by two spaces, and returns otherwise. -/
theorem Node_parse_signature (decodeFloat32 : Nat → α) (buffer : List Nat)
    (h108 : 108 ≤ buffer.length) :
    (Node.parse decodeFloat32 buffer = .error Node.NodeError.invalidSignature ↔
        buffer.take 6 ≠ [83, 84, 77, 86, 32, 32])
      ∧ (buffer.take 6 = [83, 84, 77, 86, 32, 32] →
          ∃ header, Node.parse decodeFloat32 buffer = .ok header) := by
  obtain ⟨header, hh, hsig⟩ := Node_parseHeader_signature decodeFloat32 buffer h108
  unfold Node.parse
  rw [hh]
  simp only [bind, Except.bind, hsig]
  by_cases hs : buffer.take 6 = [83, 84, 77, 86, 32, 32]
  · simp [hs, pure, Except.pure]
  · simp [hs, throw, throwThe, MonadExceptOf.throw]

set_option maxRecDepth 100000 in
/-- C31: for a unit file whose compression-format field is `ab`, a NUL byte,
`cd` and eleven NUL bytes, `parseUnitFile` returns the tag `abcd`, while
removing the trailing NUL padding alone gives `ab`, NUL, `cd`, which is also
what `parseHeader` of the Node parser returns for the same bytes; and for the
field holding a space, `a` and fourteen NUL bytes `parseUnitFile` returns `a`,
without the leading space, while the Node parser returns the space and `a`. -/
theorem compression_tag_not_only_padding :
    (parseUnitFile (id : Nat → Nat)
        (taggedHeader ([97, 98, 0, 99, 100] ++ List.replicate 11 0))).toOption.map
          (fun u => u.compressionFormat) = some [97, 98, 99, 100]
      ∧ dropTrailingNul ([97, 98, 0, 99, 100] ++ List.replicate 11 0) = [97, 98, 0, 99, 100]
      ∧ (Node.parseHeader (id : Nat → Nat)
          (taggedHeader ([97, 98, 0, 99, 100] ++ List.replicate 11 0))).toOption.map
            (fun h => h.compressionFormat) = some [97, 98, 0, 99, 100]
      ∧ (parseUnitFile (id : Nat → Nat)
          (taggedHeader ([32, 97] ++ List.replicate 14 0))).toOption.map
            (fun u => u.compressionFormat) = some [97]
      ∧ dropTrailingNul ([32, 97] ++ List.replicate 14 0) = [32, 97]
      ∧ (Node.parseHeader (id : Nat → Nat)
          (taggedHeader ([32, 97] ++ List.replicate 14 0))).toOption.map
            (fun h => h.compressionFormat) = some [32, 97] := by
  refine ⟨?_, by decide, by decide, ?_, by decide, by decide⟩
  · rw [parseUnitFile_of_header id _ (by decide) (by decide)]
    rfl
  · rw [parseUnitFile_of_header id _ (by decide) (by decide)]
    rfl

/-- The tag as the browser parser computes it: whenever `parseUnitFile`
returns a unit, its compression tag is the 16 bytes at offsets 16..31 with the
white space at both ends trimmed and then every NUL byte removed; so if the
field is a text without NUL bytes that does not begin with white space,
followed by NUL padding (or filling the field and not ending with white
space), the tag is that text. -/
theorem compression_tag_value (decodeFloat32 : Nat → α) (buffer : List Nat) (u : UnitData α)
    (hu : parseUnitFile decodeFloat32 buffer = .ok u) :
    u.compressionFormat = trimAndDropNul ((buffer.drop 16).take 16)
      ∧ (∀ (text : List Nat) (k : Nat), (buffer.drop 16).take 16 = text ++ List.replicate k 0 →
          (∀ b ∈ text, b ≠ 0) → (∀ b, text.head? = some b → isWhiteSpace b = false) →
          (k = 0 → ∀ b, text.getLast? = some b → isWhiteSpace b = false) →
            u.compressionFormat = text) := by
  obtain ⟨h108, hsig⟩ := parseUnitFile_ok_header decodeFloat32 buffer u hu
  have htag : u.compressionFormat = trimAndDropNul ((buffer.drop 16).take 16) := by
    rw [parseUnitFile_of_header decodeFloat32 buffer h108 hsig] at hu
    cases hloop : frameLoop buffer (declaredFrameCount buffer) 0 108 [] with
    | error e => rw [hloop] at hu; simp [Except.map] at hu
    | ok fs =>
      rw [hloop] at hu
      simp only [Except.map, Except.ok.injEq] at hu
      rw [← hu]
      rfl
  refine ⟨htag, ?_⟩
  intro text k hfield hnul hfirst hlast
  rw [htag, hfield]
  exact trimAndDropNul_padded text k hnul hfirst hlast

theorem compression_tag_value_witness :
    (headerUnit (id : Nat → Nat)
        (taggedHeader ([100, 101, 112, 116, 104, 49, 48, 98, 54, 98] ++ List.replicate 6 0))
        []).compressionFormat = [100, 101, 112, 116, 104, 49, 48, 98, 54, 98] :=
  have h : parseUnitFile (id : Nat → Nat)
      (taggedHeader ([100, 101, 112, 116, 104, 49, 48, 98, 54, 98] ++ List.replicate 6 0)) =
        .ok (headerUnit id
          (taggedHeader ([100, 101, 112, 116, 104, 49, 48, 98, 54, 98] ++ List.replicate 6 0))
          []) := by
    rw [parseUnitFile_of_header id _ (by decide) (by decide)]
    rfl
  (compression_tag_value id _ _ h).2 [100, 101, 112, 116, 104, 49, 48, 98, 54, 98] 6
    (by decide) (by decide) (by decide) (by decide)

/-- C40 (counterexample): the 108-byte file `sampleHeader` with the signature
`STMOV` followed by a NUL byte is rejected for its signature by `parse` of the
Node parser and accepted by `parseUnitFile` of the browser parser. -/
theorem parsers_disagree_on_signature :
    108 ≤ sampleHeader.length
      ∧ Node.parse (id : Nat → Nat) sampleHeader = .error Node.NodeError.invalidSignature
      ∧ parseUnitFile (id : Nat → Nat) sampleHeader = .ok (headerUnit id sampleHeader [])
      ∧ ¬ ∃ sig, parseUnitFile (id : Nat → Nat) sampleHeader = .error (.invalidSignature sig) := by
  have h : parseUnitFile (id : Nat → Nat) sampleHeader = .ok (headerUnit id sampleHeader []) := by
    rw [parseUnitFile_of_header id _ (by decide) (by decide)]
    rfl
  refine ⟨by decide, ?_, h, ?_⟩
  · exact (Node_parse_signature id sampleHeader (by decide)).1.mpr (by decide)
  · rintro ⟨sig, hs⟩
    rw [h] at hs
    cases hs

/-- C40 (amended): for every buffer of at least 108 bytes, `parse` of the Node
parser rejects the buffer for its signature exactly when the six signature
bytes are not `STMV` followed by two spaces, `parseUnitFile` of the browser
parser rejects it for its signature exactly when the bytes start with neither
`STMOV` nor `STMV`; hence every buffer that the browser parser rejects for its
signature is rejected for it by the Node parser, and every buffer whose
signature the Node parser accepts is returned by the Node parser and not
rejected for its signature by the browser parser. -/
theorem node_signature_stricter (decodeFloat32 : Nat → α) (buffer : List Nat)
    (h108 : 108 ≤ buffer.length) :
    (Node.parse decodeFloat32 buffer = .error Node.NodeError.invalidSignature ↔
        buffer.take 6 ≠ [83, 84, 77, 86, 32, 32])
      ∧ ((∃ sig, parseUnitFile decodeFloat32 buffer = .error (.invalidSignature sig)) ↔
          ¬ validSignature buffer)
      ∧ ((∃ sig, parseUnitFile decodeFloat32 buffer = .error (.invalidSignature sig)) →
          Node.parse decodeFloat32 buffer = .error Node.NodeError.invalidSignature)
      ∧ (Node.parse decodeFloat32 buffer ≠ .error Node.NodeError.invalidSignature →
          (∃ header, Node.parse decodeFloat32 buffer = .ok header)
            ∧ ¬ ∃ sig, parseUnitFile decodeFloat32 buffer = .error (.invalidSignature sig)) := by
  have hnode := Node_parse_signature decodeFloat32 buffer h108
  have hweb := parseUnitFile_signature_error_iff decodeFloat32 buffer h108
  have hvalid : buffer.take 6 = [83, 84, 77, 86, 32, 32] → validSignature buffer := by
    intro h
    right
    have h4 : buffer.take 4 = [83, 84, 77, 86] := by
      have : buffer.take 4 = (buffer.take 6).take 4 := by
        simp [List.take_take]
      rw [this, h]
      rfl
    rw [← h4]
    exact List.isPrefixOf_iff_prefix.mpr (List.take_prefix 4 buffer)
  refine ⟨hnode.1, hweb, ?_, ?_⟩
  · intro hrej
    rw [hnode.1]
    intro hs
    exact (hweb.mp hrej) (hvalid hs)
  · intro hacc
    have hs : buffer.take 6 = [83, 84, 77, 86, 32, 32] := by
      by_contra hne
      exact hacc (hnode.1.mpr hne)
    refine ⟨hnode.2 hs, ?_⟩
    intro hrej
    exact (hweb.mp hrej) (hvalid hs)

theorem node_signature_stricter_witness :
    108 ≤ ([83, 84, 77, 86, 32, 32] ++ List.replicate 102 0).length
      ∧ ((∃ header, Node.parse (id : Nat → Nat)
            ([83, 84, 77, 86, 32, 32] ++ List.replicate 102 0) = .ok header)
        ∧ ¬ ∃ sig, parseUnitFile (id : Nat → Nat)
            ([83, 84, 77, 86, 32, 32] ++ List.replicate 102 0)
              = .error (.invalidSignature sig)) :=
  ⟨by decide,
    (node_signature_stricter (id : Nat → Nat)
      ([83, 84, 77, 86, 32, 32] ++ List.replicate 102 0) (by decide)).2.2.2
      (fun h => absurd
        ((node_signature_stricter (id : Nat → Nat)
          ([83, 84, 77, 86, 32, 32] ++ List.replicate 102 0) (by decide)).1.mp h)
        (by decide))⟩

end TagClaims


/-! ## The sample window of the draw-interval controller; the cache order -/

section WindowLemmas

theorem lastN_length {β : Type} (K : Nat) (l : List β) :
    (lastN K l).length = min l.length K := by
  unfold lastN
  rw [List.length_drop]
  omega

/-- Pushing an element and dropping the oldest one beyond `K` keeps the last
`K` elements. -/
theorem lastN_snoc {β : Type} (K : Nat) (l : List β) (a : β) :
    lastN K (l ++ [a]) =
      if (lastN K l ++ [a]).length > K then (lastN K l ++ [a]).tail else lastN K l ++ [a] := by
  have hlen := lastN_length K l
  by_cases h : l.length < K
  · rw [if_neg (by rw [List.length_append, hlen, List.length_singleton]; omega)]
    unfold lastN
    rw [List.length_append, List.length_singleton,
      show l.length + 1 - K = 0 by omega, show l.length - K = 0 by omega]
    rfl
  · rw [if_pos (by rw [List.length_append, hlen, List.length_singleton]; omega)]
    unfold lastN
    rw [List.length_append, List.length_singleton]
    by_cases hK : K = 0
    · subst hK
      simp
    · rw [← List.drop_one,
        List.drop_append_of_le_length (by omega),
        List.drop_append_of_le_length (by rw [List.length_drop]; omega), List.drop_drop]
      congr 2
      omega

end WindowLemmas

section LodWindow

theorem lodSamples_append (a b : List LodCall) :
    lodSamples (a ++ b) = lodSamples a ++ lodSamples b := by
  induction a with
  | nil => rfl
  | cons c t ih =>
    cases c with
    | update d now =>
      show d :: lodSamples (t ++ b) = d :: lodSamples t ++ lodSamples b
      rw [ih, List.cons_append]
    | slider v => exact ih

theorem updateDrawInterval_window (s : LodState) (d now : ℚ) (S : List ℚ)
    (h : s.frameTimeHistory = lastN 10 S) :
    (updateDrawInterval s d now).frameTimeHistory = lastN 10 (S ++ [d]) := by
  rw [updateDrawInterval_history, h, lastN_snoc]

theorem avgFrameTime_eq (s : LodState) (d now : ℚ) :
    avgFrameTime s d = windowMean (updateDrawInterval s d now).frameTimeHistory := by
  rw [updateDrawInterval_history]
  unfold avgFrameTime windowMean
  dsimp only
  rw [foldl_add_eq_sum, zero_add]

theorem lodRun_history (s0 : LodState) (h0 : s0.frameTimeHistory = [])
    (calls : List LodCall) :
    (lodRun s0 calls).frameTimeHistory = lastN 10 (lodSamples calls) := by
  induction calls using List.reverseRecOn with
  | nil => exact h0
  | append_singleton l c ih =>
    unfold lodRun at ih ⊢
    rw [List.foldl_append, List.foldl_cons, List.foldl_nil, lodSamples_append]
    cases c with
    | update d now => exact updateDrawInterval_window _ d now _ ih
    | slider v =>
      show (List.foldl lodStep s0 l).frameTimeHistory = _
      rw [ih]
      simp [lodSamples]

end LodWindow

section CacheOrder

variable {β : Type}

theorem addFrameToCache_order (K : Nat) (c : FrameCache β) (unitIndex : Nat)
    (frameIndex : Int) (frameData : β) :
    (addFrameToCache K c unitIndex frameIndex frameData).frameCacheOrder =
      if mapHas c.frameCache (cacheKey unitIndex frameIndex) then c.frameCacheOrder
      else if (c.frameCacheOrder ++ [cacheKey unitIndex frameIndex]).length > K then
        (c.frameCacheOrder ++ [cacheKey unitIndex frameIndex]).tail
      else c.frameCacheOrder ++ [cacheKey unitIndex frameIndex] := by
  unfold addFrameToCache
  dsimp only
  split
  · rfl
  · split
    · cases c.frameCacheOrder <;> rfl
    · rfl

theorem effectiveInsertions_snoc {κ : Type} [DecidableEq κ] (K : Nat) (keys : List κ) (key : κ) :
    effectiveInsertions K (keys ++ [key]) =
      if key ∈ lastN K (effectiveInsertions K keys) then effectiveInsertions K keys
      else effectiveInsertions K keys ++ [key] := by
  unfold effectiveInsertions
  rw [List.foldl_append, List.foldl_cons, List.foldl_nil]

theorem cacheAdds_order (K : Nat) (kvs : List ((Nat × Int) × β)) :
    ((kvs.foldl (fun c kv => addFrameToCache K c kv.1.1 kv.1.2 kv.2)
          FrameCache.empty).frameCache.map Prod.fst
        = (kvs.foldl (fun c kv => addFrameToCache K c kv.1.1 kv.1.2 kv.2)
            FrameCache.empty).frameCacheOrder
      ∧ (kvs.foldl (fun c kv => addFrameToCache K c kv.1.1 kv.1.2 kv.2)
          FrameCache.empty).frameCacheOrder.Nodup
      ∧ (kvs.foldl (fun c kv => addFrameToCache K c kv.1.1 kv.1.2 kv.2)
          FrameCache.empty).frameCacheOrder.length ≤ K)
      ∧ (kvs.foldl (fun c kv => addFrameToCache K c kv.1.1 kv.1.2 kv.2)
          FrameCache.empty).frameCacheOrder
        = lastN K (effectiveInsertions K (kvs.map Prod.fst)) := by
  induction kvs using List.reverseRecOn with
  | nil =>
    refine ⟨⟨rfl, List.nodup_nil, Nat.zero_le _⟩, ?_⟩
    simp [FrameCache.empty, effectiveInsertions, lastN]
  | append_singleton l a ih =>
    obtain ⟨⟨hkeys, hnd, hlen⟩, hord⟩ := ih
    rw [List.foldl_append, List.foldl_cons, List.foldl_nil]
    refine ⟨addFrameToCache_invariant K _ a.1.1 a.1.2 a.2 hkeys hnd hlen, ?_⟩
    rw [addFrameToCache_order, List.map_append, List.map_cons, List.map_nil,
      effectiveInsertions_snoc]
    have hkey : cacheKey a.1.1 a.1.2 = a.1 := rfl
    rw [hkey]
    by_cases hmem : a.1 ∈ lastN K (effectiveInsertions K (l.map Prod.fst))
    · rw [if_pos hmem, if_pos (by rw [mapHas_iff, hkeys, hord]; exact hmem), hord]
    · rw [if_neg hmem, if_neg (by rw [mapHas_iff, hkeys, hord]; exact hmem), hord, lastN_snoc]

theorem firstInsertionOrder_mem {κ : Type} [DecidableEq κ] (keys : List κ) (k : κ) :
    k ∈ firstInsertionOrder keys ↔ k ∈ keys := by
  induction keys with
  | nil => simp [firstInsertionOrder]
  | cons a t ih =>
    simp only [firstInsertionOrder, List.mem_cons, List.mem_filter, ih, ne_eq,
      decide_eq_true_eq]
    by_cases h : k = a
    · simp [h]
    · simp [h]

theorem firstInsertionOrder_snoc {κ : Type} [DecidableEq κ] (keys : List κ) (k : κ) :
    firstInsertionOrder (keys ++ [k]) =
      if k ∈ keys then firstInsertionOrder keys else firstInsertionOrder keys ++ [k] := by
  induction keys with
  | nil => simp [firstInsertionOrder]
  | cons a t ih =>
    rw [List.cons_append, firstInsertionOrder, ih, firstInsertionOrder]
    by_cases hka : k = a
    · subst hka
      rw [if_pos (List.mem_cons_self _ _)]
      split_ifs
      · rfl
      · rw [List.filter_append]
        simp
    · by_cases hkt : k ∈ t
      · rw [if_pos hkt, if_pos (List.mem_cons_of_mem _ hkt)]
      · rw [if_neg hkt, if_neg (by simp [hka, hkt]), List.filter_append]
        simp [hka]

/-- When no insertion of a key takes effect twice, the effective insertions
are the keys in the order of their first insertion. -/
theorem effectiveInsertions_nodup {κ : Type} [DecidableEq κ] (K : Nat) (keys : List κ)
    (hnd : (effectiveInsertions K keys).Nodup) :
    effectiveInsertions K keys = firstInsertionOrder keys := by
  induction keys using List.reverseRecOn with
  | nil => rfl
  | append_singleton l k ih =>
    rw [effectiveInsertions_snoc] at hnd ⊢
    rw [firstInsertionOrder_snoc]
    by_cases hmem : k ∈ lastN K (effectiveInsertions K l)
    · rw [if_pos hmem] at hnd ⊢
      have hin : k ∈ effectiveInsertions K l := List.mem_of_mem_drop hmem
      rw [ih hnd] at hin ⊢
      rw [if_pos ((firstInsertionOrder_mem l k).mp hin)]
    · rw [if_neg hmem] at hnd ⊢
      have hnd2 : (effectiveInsertions K l).Nodup := (List.nodup_append.mp hnd).1
      have hnot : k ∉ effectiveInsertions K l := by
        intro hin
        exact (List.nodup_append.mp hnd).2.2 hin (List.mem_singleton_self k)
      rw [ih hnd2] at hnot ⊢
      rw [if_neg (fun h => hnot ((firstInsertionOrder_mem l k).mpr h))]

end CacheOrder

section WindowClaims

/-- C32: after a sequence of calls that starts from an empty history
(`updateDrawInterval` calls with any clock values, interleaved with slider
inputs), `frameTimeHistory` is the last `min(n, 10)` of the `n` samples passed
so far, in arrival order; in a further call with sample `d` the history becomes
the last 10 of the samples including `d`, the mean `avgFrameTime` computed by
the call is the arithmetic mean of exactly those, whatever the clock value, and
this mean is the one compared with the thresholds when the call is not
debounced. -/
theorem lod_window (s0 : LodState) (h0 : s0.frameTimeHistory = []) (calls : List LodCall)
    (d now : ℚ) :
    (lodRun s0 calls).frameTimeHistory = lastN 10 (lodSamples calls)
      ∧ (lodRun s0 calls).frameTimeHistory.length = min (lodSamples calls).length 10
      ∧ (updateDrawInterval (lodRun s0 calls) d now).frameTimeHistory
          = lastN 10 (lodSamples calls ++ [d])
      ∧ avgFrameTime (lodRun s0 calls) d = windowMean (lastN 10 (lodSamples calls ++ [d]))
      ∧ (updateDrawInterval (lodRun s0 calls) d now).drawInterval =
          if now - (lodRun s0 calls).lastPerformanceCheck < PERFORMANCE_CHECK_INTERVAL_MS then
            (lodRun s0 calls).drawInterval
          else if avgFrameTime (lodRun s0 calls) d > SLOW_THRESHOLD_MS
              ∧ (lodRun s0 calls).drawInterval < 8 then (lodRun s0 calls).drawInterval * 2
          else if avgFrameTime (lodRun s0 calls) d < FAST_THRESHOLD_MS
              ∧ (lodRun s0 calls).drawInterval > 1 then
            max 1 ((lodRun s0 calls).drawInterval / 2)
          else (lodRun s0 calls).drawInterval := by
  have hrun := lodRun_history s0 h0 calls
  have hstep := updateDrawInterval_window (lodRun s0 calls) d now (lodSamples calls) hrun
  refine ⟨hrun, by rw [hrun, lastN_length], hstep, ?_, ?_⟩
  · rw [avgFrameTime_eq _ d now, hstep]
  · generalize lodRun s0 calls = s
    unfold updateDrawInterval avgFrameTime
    dsimp only
    split_ifs <;> rfl

theorem lod_window_witness :
    (lodRun { drawInterval := 1, frameTimeHistory := [], lastPerformanceCheck := 0 }
        ((List.range 12).map fun i => LodCall.update (i : ℚ) 0)).frameTimeHistory
      = lastN 10 (lodSamples ((List.range 12).map fun i => LodCall.update (i : ℚ) 0))
    ∧ lastN 10 (lodSamples ((List.range 12).map fun i => LodCall.update (i : ℚ) 0))
      = [2, 3, 4, 5, 6, 7, 8, 9, 10, 11] :=
  ⟨(lod_window { drawInterval := 1, frameTimeHistory := [], lastPerformanceCheck := 0 } rfl
      ((List.range 12).map fun i => LodCall.update (i : ℚ) 0) 0 0).1, by decide⟩

end WindowClaims

section CacheOrderClaims

variable {β : Type}

/-- C37 (counterexample): on the cache of capacity `MAX_CACHED_FRAMES`, after
adding frames 0, 1, ..., 10 of unit 0 and then frame 0 again, `frameCacheOrder`
ends with the key of frame 0, behind the keys of frames 2..10, although frame 0
was inserted first of all: the order is not the order of first insertion. -/
theorem cache_order_after_reinsertion :
    (cacheRun MAX_CACHED_FRAMES FrameCache.empty
        (((List.range 11).map fun i => CacheCall.add 0 (i : Int) ()) ++
          [CacheCall.add 0 0 ()])).frameCacheOrder
      = [(0, 2), (0, 3), (0, 4), (0, 5), (0, 6), (0, 7), (0, 8), (0, 9), (0, 10), (0, 0)]
    ∧ (firstInsertionOrder
          ((cacheAdds (((List.range 11).map fun i => CacheCall.add 0 (i : Int) ()) ++
            [CacheCall.add 0 0 ()])).map Prod.fst)).filter
        (fun k => k ∈ (cacheRun MAX_CACHED_FRAMES FrameCache.empty
          (((List.range 11).map fun i => CacheCall.add 0 (i : Int) ()) ++
            [CacheCall.add 0 0 ()])).frameCacheOrder)
      = [(0, 0), (0, 2), (0, 3), (0, 4), (0, 5), (0, 6), (0, 7), (0, 8), (0, 9), (0, 10)] := by
  decide

/-- C37 (amended): after any sequence of `addFrameToCache` and
`getFrameFromCache` calls starting from the empty cache of capacity `K`, the
keys of the `frameCache` map are the elements of `frameCacheOrder`, in the same
order, `frameCacheOrder` contains no duplicate key, and it is the last `K` of
the insertions that took effect, in the order in which they took effect (a key
that was evicted and inserted again stands at the place of its latest
insertion); when no key was inserted again after its eviction this is the
order in which the cached keys were first inserted. -/
theorem cache_order_effective_insertions (K : Nat) (calls : List (CacheCall β)) :
    (cacheRun K FrameCache.empty calls).frameCache.map Prod.fst
        = (cacheRun K FrameCache.empty calls).frameCacheOrder
      ∧ (cacheRun K FrameCache.empty calls).frameCacheOrder.Nodup
      ∧ (cacheRun K FrameCache.empty calls).frameCacheOrder
          = lastN K (effectiveInsertions K ((cacheAdds calls).map Prod.fst))
      ∧ ((effectiveInsertions K ((cacheAdds calls).map Prod.fst)).Nodup →
          (cacheRun K FrameCache.empty calls).frameCacheOrder
            = lastN K (firstInsertionOrder ((cacheAdds calls).map Prod.fst))) := by
  have h := cacheAdds_order K (cacheAdds calls)
  rw [← cacheRun_eq_adds] at h
  refine ⟨h.1.1, h.1.2.1, h.2, ?_⟩
  intro hnd
  rw [h.2, effectiveInsertions_nodup K _ hnd]

end CacheOrderClaims


/-! ## Playback position; unit indices of a batch -/

section PlaybackLemmas

variable {α : Type} [Field α]

theorem displayFrame_units (cos sin : α → α) (v : Viewer α) (frameIndex : Int)
    (frameDrawTime now : ℚ) :
    (displayFrame cos sin v frameIndex frameDrawTime now).1.units = v.units := by
  unfold displayFrame
  split <;> rfl

theorem displayFrame_currentFrame (cos sin : α → α) (v : Viewer α) (frameIndex : Int)
    (frameDrawTime now : ℚ) :
    (displayFrame cos sin v frameIndex frameDrawTime now).1.currentFrame =
      if v.units.length = 0 then v.currentFrame else frameIndex := by
  unfold displayFrame
  split <;> rfl

theorem playbackStep_units (cos sin : α → α) (p : Player α) (call : PlaybackCall) :
    (playbackStep cos sin p call).viewer.units = p.viewer.units := by
  cases call with
  | seekToFrame f d n =>
    show (seekToFrame cos sin p f d n).viewer.units = _
    unfold seekToFrame
    split
    · rfl
    · exact displayFrame_units cos sin _ _ _ _
  | stepFrame f d n =>
    show (stepFrame cos sin p f d n).viewer.units = _
    unfold stepFrame
    dsimp only
    split_ifs
    · rfl
    · exact displayFrame_units cos sin _ _ _ _
    · rfl
  | togglePlayback t d n =>
    show (togglePlayback cos sin p t d n).viewer.units = _
    unfold togglePlayback
    dsimp only
    split_ifs <;> first | rfl | exact displayFrame_units cos sin _ _ _ _
  | updatePlayback t d n =>
    show (updatePlayback cos sin p t d n).viewer.units = _
    unfold updatePlayback stopPlayback
    dsimp only
    split_ifs <;> first | rfl | exact displayFrame_units cos sin _ _ _ _

/-- With at least one unit loaded and `getMaxFrames() ≥ 1`, every playback
step keeps the position inside `0 .. getMaxFrames() - 1`. -/
theorem playbackStep_in_range (cos sin : α → α) (p : Player α) (call : PlaybackCall)
    (hunits : p.viewer.units.length ≠ 0) (hmax : 1 ≤ getMaxFrames p.viewer.units)
    (hpos : 0 ≤ p.viewer.currentFrame
      ∧ p.viewer.currentFrame ≤ (getMaxFrames p.viewer.units : Int) - 1) :
    0 ≤ (playbackStep cos sin p call).viewer.currentFrame
      ∧ (playbackStep cos sin p call).viewer.currentFrame
          ≤ (getMaxFrames p.viewer.units : Int) - 1 := by
  have hm : (1 : Int) ≤ (getMaxFrames p.viewer.units : Int) := by exact_mod_cast hmax
  cases call with
  | seekToFrame f d n =>
    show 0 ≤ (seekToFrame cos sin p f d n).viewer.currentFrame ∧
      (seekToFrame cos sin p f d n).viewer.currentFrame ≤ _
    unfold seekToFrame
    rw [if_neg hunits]
    dsimp only
    rw [displayFrame_currentFrame, if_neg hunits]
    omega
  | stepFrame f d n =>
    show 0 ≤ (stepFrame cos sin p f d n).viewer.currentFrame ∧
      (stepFrame cos sin p f d n).viewer.currentFrame ≤ _
    unfold stepFrame
    rw [if_neg hunits]
    dsimp only
    split_ifs with h
    · rw [displayFrame_currentFrame]
      dsimp only
      rw [if_neg hunits]
      omega
    · exact hpos
  | togglePlayback t d n =>
    show 0 ≤ (togglePlayback cos sin p t d n).viewer.currentFrame ∧
      (togglePlayback cos sin p t d n).viewer.currentFrame ≤ _
    unfold togglePlayback
    rw [if_neg hunits]
    dsimp only
    split_ifs <;>
      first
      | exact hpos
      | (dsimp only; rw [displayFrame_currentFrame]; dsimp only; rw [if_neg hunits]; omega)
  | updatePlayback t d n =>
    show 0 ≤ (updatePlayback cos sin p t d n).viewer.currentFrame ∧
      (updatePlayback cos sin p t d n).viewer.currentFrame ≤ _
    unfold updatePlayback stopPlayback
    dsimp only
    split_ifs <;>
      first
      | exact hpos
      | (dsimp only; rw [displayFrame_currentFrame]; dsimp only; rw [if_neg hunits]; omega)

/-- With at least one unit loaded and `getMaxFrames() ≥ 1`, the position stays
inside `0 .. getMaxFrames() - 1` along every sequence of playback steps. -/
theorem playbackRun_in_range (cos sin : α → α) (calls : List PlaybackCall) (p : Player α)
    (hunits : p.viewer.units.length ≠ 0) (hmax : 1 ≤ getMaxFrames p.viewer.units)
    (hpos : 0 ≤ p.viewer.currentFrame
      ∧ p.viewer.currentFrame ≤ (getMaxFrames p.viewer.units : Int) - 1) :
    0 ≤ (playbackRun cos sin p calls).viewer.currentFrame
      ∧ (playbackRun cos sin p calls).viewer.currentFrame
          ≤ (getMaxFrames p.viewer.units : Int) - 1 := by
  induction calls generalizing p with
  | nil => exact hpos
  | cons call rest ih =>
    unfold playbackRun
    rw [List.foldl_cons]
    have hu := playbackStep_units cos sin p call
    have hstep := playbackStep_in_range cos sin p call hunits hmax hpos
    have := ih (playbackStep cos sin p call) (by rw [hu]; exact hunits) (by rw [hu]; exact hmax)
      (by rw [hu]; exact hstep)
    rw [hu] at this
    exact this

end PlaybackLemmas

section BatchIndices

variable {α : Type}

/-- In a batch of single-unit files the units get the positions of their files
as indices. -/
theorem parseAll_single_indices {ε : Type} (parseFile : InputFile → Except ε (ParseResult α))
    (index : Nat) (files : List InputFile) (arrays : List (List (LoadedUnit α)))
    (h : parseAll parseFile index files = .ok arrays)
    (hs : ∀ f ∈ files, ∀ r, parseFile f = .ok r → ∃ u, r = .single u) :
    arrays.flatten.map (fun u => u.unitIndex) = List.range' index files.length := by
  induction files generalizing index arrays with
  | nil =>
    simp only [parseAll, Except.ok.injEq] at h
    subst h
    rfl
  | cons file rest ih =>
    unfold parseAll at h
    cases hp : parseFile file with
    | error e => rw [hp] at h; cases h
    | ok result =>
      rw [hp] at h
      dsimp only at h
      cases hr : parseAll parseFile (index + 1) rest with
      | error e => rw [hr] at h; cases h
      | ok arrays2 =>
        rw [hr] at h
        simp only [Except.ok.injEq] at h
        subst h
        obtain ⟨u, hu⟩ := hs file (List.mem_cons_self _ _) result hp
        subst hu
        have := ih (index + 1) arrays2 hr (fun f hf => hs f (List.mem_cons_of_mem _ hf))
        rw [List.flatten_cons, List.map_append, this]
        rfl

end BatchIndices

section ZeroFrames

variable {α : Type} [Field α]

/-- With a loaded unit set whose `getMaxFrames()` is 0, starting playback from
a position `≥ 0` and updating it one frame interval later sets the position to
`-1` and stops playback. -/
theorem playback_zero_frames (cos sin : α → α) (p : Player α)
    (hunits : p.viewer.units.length ≠ 0) (hmax : getMaxFrames p.viewer.units = 0)
    (hplay : p.isPlaying = false) (hrate : p.frameRate = 30)
    (hpos : 0 ≤ p.viewer.currentFrame) (t d n t2 d2 n2 : ℚ) (hdt : t2 - t ≥ 1000 / 30) :
    (playbackRun cos sin p
        [.togglePlayback t d n, .updatePlayback t2 d2 n2]).viewer.currentFrame = -1
      ∧ (playbackRun cos sin p
        [.togglePlayback t d n, .updatePlayback t2 d2 n2]).isPlaying = false := by
  have hlast : isAtLastFrame p = true := by
    unfold isAtLastFrame
    rw [hmax]
    simp only [decide_eq_true_eq]
    omega
  have h1 : togglePlayback cos sin p t d n =
      { viewer := (displayFrame cos sin { p.viewer with currentFrame := 0 } 0 d n).1,
        isPlaying := true, frameRate := p.frameRate, lastFrameTime := t } := by
    unfold togglePlayback
    rw [if_neg hunits]
    simp [hplay, hlast]
  have hu1 : (displayFrame cos sin { p.viewer with currentFrame := 0 } 0 d n).1.units
      = p.viewer.units := displayFrame_units cos sin _ _ _ _
  have hc1 : (displayFrame cos sin { p.viewer with currentFrame := 0 } 0 d n).1.currentFrame
      = 0 := by
    rw [displayFrame_currentFrame]
    exact if_neg hunits
  have h2 : updatePlayback cos sin (togglePlayback cos sin p t d n) t2 d2 n2 =
      { viewer := (displayFrame cos sin
          { (displayFrame cos sin { p.viewer with currentFrame := 0 } 0 d n).1 with
            currentFrame := -1 } (-1) d2 n2).1,
        isPlaying := false, frameRate := p.frameRate, lastFrameTime := t } := by
    rw [h1]
    unfold updatePlayback stopPlayback
    dsimp only
    rw [hu1, hmax, hc1, hrate]
    rw [if_neg (by simp [hunits]), if_pos hdt, if_pos (by decide)]
    rfl
  unfold playbackRun
  simp only [List.foldl_cons, List.foldl_nil, playbackStep]
  rw [h2]
  refine ⟨?_, rfl⟩
  dsimp only
  rw [displayFrame_currentFrame]
  dsimp only
  rw [hu1, if_neg hunits]

end ZeroFrames

section BatchClaims

set_option maxRecDepth 100000 in
/-- C33: a batch of an archive with two unit files followed by a single unit
file loads three units with the indices 0, 1, 1: the units of the archive keep
their indices 0 and 1 and the single file gets its position 1 in the batch.
When frame 0 is displayed, the third unit (payload `[100, 0]`, one sample) is
shown with the frame cached for the second unit under the key of unit 1
(6 numbers instead of the 3 of its own decode), the cache holds two entries
for the three units, and both units are passed on with the unit index 1, from
which their placement offset is computed. -/
theorem mixed_batch_shares_unit_index :
    ((loadFiles (fun x : ℚ => x) (fun x : ℚ => x)
          (parseFileNew (fun n => (n : ℚ)) (fun _ => .ok twoUnitArchive)) (newViewer 1)
          [⟨"track.zip", [80, 75]⟩, oneFrameFile "c.stmov" [100, 0]] 5 100).1.units.map
        fun u => (u.unitIndex, u.fileName, u.frameCount))
        = [(0, "t-1.stmov", some 1), (1, "t-2.stmov", some 1), (1, "c.stmov", some 1)]
      ∧ ¬ ((loadFiles (fun x : ℚ => x) (fun x : ℚ => x)
          (parseFileNew (fun n => (n : ℚ)) (fun _ => .ok twoUnitArchive)) (newViewer 1)
          [⟨"track.zip", [80, 75]⟩, oneFrameFile "c.stmov" [100, 0]] 5 100).1.units.map
        fun u => u.unitIndex).Nodup
      ∧ ((loadFiles (fun x : ℚ => x) (fun x : ℚ => x)
          (parseFileNew (fun n => (n : ℚ)) (fun _ => .ok twoUnitArchive)) (newViewer 1)
          [⟨"track.zip", [80, 75]⟩, oneFrameFile "c.stmov" [100, 0]] 5 100).2.map
        fun shown => (shown.1, shown.2.index, shown.2.points.length))
        = [(0, 0, 3), (1, 0, 6), (1, 0, 6)]
      ∧ ((loadFiles (fun x : ℚ => x) (fun x : ℚ => x)
          (parseFileNew (fun n => (n : ℚ)) (fun _ => .ok twoUnitArchive)) (newViewer 1)
          [⟨"track.zip", [80, 75]⟩, oneFrameFile "c.stmov" [100, 0]] 5 100).1.units.map
        fun u => (u.unitIndex, u.stmovData.frames.map fun f =>
          (f.data, (decompressFrame (fun x : ℚ => x) (fun x : ℚ => x) 1 f.data
            (some u.stmovData.leftCamera) (some u.stmovData.rightCamera)).length)))
        = [(0, [([100, 0], 3)]), (1, [([100, 4], 6)]), (1, [([100, 0], 3)])]
      ∧ (loadFiles (fun x : ℚ => x) (fun x : ℚ => x)
          (parseFileNew (fun n => (n : ℚ)) (fun _ => .ok twoUnitArchive)) (newViewer 1)
          [⟨"track.zip", [80, 75]⟩, oneFrameFile "c.stmov" [100, 0]] 5 100).1.cache.frameCacheOrder
        = [cacheKey 0 0, cacheKey 1 0] := by
  refine ⟨?_, ?_, ?_, ?_, ?_⟩ <;> decide

set_option maxRecDepth 100000 in
/-- C38: with one loaded unit that declares 0 frames (`getMaxFrames()` is 0 and
the position is 0 after the load), `togglePlayback` followed by an
`updatePlayback` one frame interval later leaves `currentFrame` at -1 and
playback stopped: the position is below 0, while `seekToFrame(-1)` on the same
viewer gives position 0. -/
theorem playback_position_negative :
    (loadFiles (fun x : ℚ => x) (fun x : ℚ => x) parseSingle (newViewer 4)
        [⟨"empty.stmov", versionedFile 1 0⟩] 5 100).1.units.length = 1
      ∧ getMaxFrames (loadFiles (fun x : ℚ => x) (fun x : ℚ => x) parseSingle (newViewer 4)
        [⟨"empty.stmov", versionedFile 1 0⟩] 5 100).1.units = 0
      ∧ (loadFiles (fun x : ℚ => x) (fun x : ℚ => x) parseSingle (newViewer 4)
        [⟨"empty.stmov", versionedFile 1 0⟩] 5 100).1.currentFrame = 0
      ∧ (playbackRun (fun x : ℚ => x) (fun x : ℚ => x)
          (newPlayer (loadFiles (fun x : ℚ => x) (fun x : ℚ => x) parseSingle (newViewer 4)
            [⟨"empty.stmov", versionedFile 1 0⟩] 5 100).1)
          [.togglePlayback 1000 5 1000, .updatePlayback 1040 5 1040]).viewer.currentFrame = -1
      ∧ (playbackRun (fun x : ℚ => x) (fun x : ℚ => x)
          (newPlayer (loadFiles (fun x : ℚ => x) (fun x : ℚ => x) parseSingle (newViewer 4)
            [⟨"empty.stmov", versionedFile 1 0⟩] 5 100).1)
          [.togglePlayback 1000 5 1000, .updatePlayback 1040 5 1040]).isPlaying = false
      ∧ (seekToFrame (fun x : ℚ => x) (fun x : ℚ => x)
          (newPlayer (loadFiles (fun x : ℚ => x) (fun x : ℚ => x) parseSingle (newViewer 4)
            [⟨"empty.stmov", versionedFile 1 0⟩] 5 100).1) (-1) 5 1040).viewer.currentFrame = 0 := by
  have hrun := playback_zero_frames (fun x : ℚ => x) (fun x : ℚ => x)
    (newPlayer (loadFiles (fun x : ℚ => x) (fun x : ℚ => x) parseSingle (newViewer 4)
      [⟨"empty.stmov", versionedFile 1 0⟩] 5 100).1)
    (by decide) (by decide) rfl rfl (by decide) 1000 5 1000 1040 5 1040 (by norm_num)
  refine ⟨by decide, by decide, by decide, hrun.1, hrun.2, by decide⟩

end BatchClaims

end STMOV
